import Mathlib

/-!
gostarter: authorization claims, invite hashes and account memberships.

A shallow embedding of `internal/platform/auth/claims.go`,
`internal/user_account/invite/models.go`,
`internal/user_account/user_account.go`, and of the account status of
`internal/account/models.go`, `internal/geonames/country_timezones.go` and
`internal/platform/web/webcontext/context.go`. The routines those files call from
outside the repository are written out as Lean functions after the libraries'
own sources: the Go standard library (`time`, `strings`, `strconv`, `net`),
`github.com/dgrijalva/jwt-go` (version 3), `github.com/pkg/errors`,
`gopkg.in/go-playground/validator.v9` and `github.com/huandu/go-sqlbuilder`.
The cipher `github.com/sudo-suhas/symcrypto` is a parameter.

Conventions.
* A Go `string` is a Lean `String`; byte-level routines work on `String.data`.
* A Go `error` result is `Option GoError` (`none` is `nil`); a `(T, error)` result
  is `Except GoError T`.
* A `time.Time` is the instant it denotes, in nanoseconds since the Unix epoch;
  a `time.Duration` is a count of nanoseconds.
* A Go slice is a `List` (a nil slice and an empty slice are both `[]`).
-/

namespace GoStarter

/-! ## package time -/

/-- Go `time.Duration`: a signed number of nanoseconds. -/
abbrev Duration := Int

/-- Go `time.Second`. -/
def Second : Duration := 1000000000

/-- Go `time.Minute`. -/
def Minute : Duration := 60 * Second

/-- Go `time.Hour`. -/
def Hour : Duration := 60 * Minute

/-- Go `time.Time`, as the instant it denotes: nanoseconds since
1970-01-01T00:00:00Z. The location and the monotonic reading are not modelled. -/
structure Time where
  nanos : Int
  deriving DecidableEq, Repr

/-- Go `Time.Add`. -/
def Time.Add (t : Time) (d : Duration) : Time := ⟨t.nanos + d⟩

/-- Go `Time.UTC`: the same instant, with the location set to UTC. -/
def Time.UTC (t : Time) : Time := t

/-- Go `Time.Unix`: whole seconds since the epoch, rounded towards minus infinity. -/
def Time.Unix (t : Time) : Int := t.nanos / 1000000000

/-! ## errors -/

namespace jwt

/-- The bit `ValidationErrorExpired` of jwt-go (`1 << 4`). -/
def ValidationErrorExpired : Nat := 16

/-- The bit `ValidationErrorIssuedAt` of jwt-go (`1 << 5`). -/
def ValidationErrorIssuedAt : Nat := 32

/-- The bit `ValidationErrorNotValidYet` of jwt-go (`1 << 7`). -/
def ValidationErrorNotValidYet : Nat := 128

/-- What `ValidationError.Inner` holds. -/
inductive Inner where
  | unset
  | expiredBy (seconds : Int)
  | usedBeforeIssued
  | notValidYet
  deriving DecidableEq, Repr

/-- The `ValidationError` of jwt-go: the last inner error and a bit field of
the checks that failed. -/
structure ValidationError where
  Inner : Inner
  Errors : Nat
  deriving DecidableEq, Repr

/-- The method `valid` of jwt-go: no error bit is set. -/
def ValidationError.valid (e : ValidationError) : Bool := e.Errors == 0

end jwt

/-- One failed field of a `validator.ValidationErrors`: the field and the tag
that failed. -/
structure FieldError where
  Field : String
  Tag : String
  deriving DecidableEq, Repr

/-- Go `error` values as this code builds them. -/
inductive GoError where
  /-- a package-level error variable, compared by identity -/
  | sentinel (name : String)
  /-- `fmt.Errorf(format, args...)` or `errors.New` -/
  | errorf (format : String) (args : List String)
  /-- `errors.WithMessage(cause, msg)` of pkg/errors -/
  | withMessage (cause : GoError) (msg : String)
  /-- `errors.WithStack(cause)` of pkg/errors -/
  | withStack (cause : GoError)
  /-- a `*jwt.ValidationError` -/
  | jwtValidation (e : jwt.ValidationError)
  /-- a `validator.ValidationErrors` -/
  | fieldErrors (es : List FieldError)
  deriving DecidableEq, Repr

deriving instance DecidableEq for Except

/-- The function `errors.Cause` of pkg/errors: unwrap down to the innermost error. -/
def GoError.Cause : GoError → GoError
  | .withMessage c _ => c.Cause
  | .withStack c => c.Cause
  | e => e

/-- The function `errors.Wrap` of pkg/errors: a message, then a stack. -/
def GoError.Wrap (err : GoError) (msg : String) : GoError :=
  .withStack (.withMessage err msg)

/-! ## package jwt: the standard claims -/

namespace jwt

/-- The struct `StandardClaims` of jwt-go. The zero value is `{}`. -/
structure StandardClaims where
  Audience : String := ""
  ExpiresAt : Int := 0
  Id : String := ""
  IssuedAt : Int := 0
  Issuer : String := ""
  NotBefore : Int := 0
  Subject : String := ""
  deriving DecidableEq, Repr

/-- The helper `verifyExp` of jwt-go. -/
def verifyExp (exp now : Int) (required : Bool) : Bool :=
  if exp = 0 then !required else decide (now ≤ exp)

/-- The helper `verifyIat` of jwt-go. -/
def verifyIat (iat now : Int) (required : Bool) : Bool :=
  if iat = 0 then !required else decide (now ≥ iat)

/-- The helper `verifyNbf` of jwt-go. -/
def verifyNbf (nbf now : Int) (required : Bool) : Bool :=
  if nbf = 0 then !required else decide (now ≥ nbf)

/-- The method `StandardClaims.Valid` of jwt-go (the library's `claims.go`),
with the reading of the clock `TimeFunc().Unix()` passed as `now`. Each check
is called with `required = false`: a zero field is not checked. -/
def StandardClaims.Valid (c : StandardClaims) (now : Int) : Option ValidationError :=
  let vErr : ValidationError := { Inner := .unset, Errors := 0 }
  let vErr := if verifyExp c.ExpiresAt now false = false then
      { Inner := .expiredBy (now - c.ExpiresAt), Errors := vErr.Errors ||| ValidationErrorExpired }
    else vErr
  let vErr := if verifyIat c.IssuedAt now false = false then
      { Inner := .usedBeforeIssued, Errors := vErr.Errors ||| ValidationErrorIssuedAt }
    else vErr
  let vErr := if verifyNbf c.NotBefore now false = false then
      { Inner := .notValidYet, Errors := vErr.Errors ||| ValidationErrorNotValidYet }
    else vErr
  if vErr.valid then none else some vErr

end jwt

/-! ## package auth: claims.go -/

namespace auth

/-- The constant `RoleAdmin`. -/
def RoleAdmin : String := "admin"

/-- The constant `RoleUser`. -/
def RoleUser : String := "user"

/-- The struct `ClaimPreferences`; `tz` is the cached location, by name. -/
structure ClaimPreferences where
  Timezone : String := ""
  DatetimeFormat : String := ""
  DateFormat : String := ""
  TimeFormat : String := ""
  tz : Option String := none
  deriving DecidableEq, Repr

/-- The struct `Claims`, which embeds `jwt.StandardClaims`. The zero value is `{}`. -/
structure Claims extends jwt.StandardClaims where
  RootUserID : String := ""
  RootAccountID : String := ""
  AccountIDs : List String := []
  Roles : List String := []
  Preferences : ClaimPreferences := {}
  deriving DecidableEq, Repr

/-- The function `NewClaims`. -/
def NewClaims (userID accountID : String) (accountIDs roles : List String)
    (prefs : ClaimPreferences) (now : Time) (expires : Duration) : Claims :=
  { AccountIDs := accountIDs
    RootAccountID := accountID
    RootUserID := userID
    Roles := roles
    Preferences := prefs
    Subject := userID
    Audience := accountID
    IssuedAt := now.Unix
    ExpiresAt := (now.Add expires).Unix }

/-- The role loop of `Claims.Valid`: the error of the first role that is
neither `RoleAdmin` nor `RoleUser`. -/
def checkRoles : List String → Option GoError
  | [] => none
  | r :: rs =>
    if r = RoleAdmin ∨ r = RoleUser then checkRoles rs
    else some (.errorf "invalid role %q" [r])

/-- The method `Claims.Valid`, at the clock reading `now` (Unix seconds). -/
def Claims.Valid (c : Claims) (now : Int) : Option GoError :=
  match checkRoles c.Roles with
  | some err => some err
  | none =>
    match c.toStandardClaims.Valid now with
    | some err => some ((GoError.jwtValidation err).Wrap "validating standard claims")
    | none => none

/-- The method `Claims.HasAuth`. -/
def Claims.HasAuth (c : Claims) : Bool :=
  if c.Subject ≠ "" then true else false

/-- The method `Claims.HasRole`: the two nested loops, returning at the first match. -/
def Claims.HasRole (c : Claims) (roles : List String) : Bool :=
  c.Roles.any fun has => roles.any fun want => has == want

end auth

/-! ## package strings, package strconv -/

namespace strings

/-- Go `strings.Join`. -/
def Join (elems : List String) (sep : String) : String :=
  ⟨sep.data.intercalate (elems.map String.data)⟩

/-- Go `strings.Split` for a separator of one character: the pieces between
the occurrences of `sep`, so one piece more than there are separators. -/
def Split (s : String) (sep : Char) : List String :=
  (s.data.splitOn sep).map String.mk

end strings

namespace strconv

/-- The largest Go `int` (64 bit). -/
def maxInt : Int := 9223372036854775807

/-- The smallest Go `int` (64 bit). -/
def minInt : Int := -9223372036854775808

/-- Whether an integer is in the range of a Go `int` (64 bit), as every value
of `Time.Unix` is in Go. -/
def fitsInt (i : Int) : Bool := decide (minInt ≤ i ∧ i ≤ maxInt)

/-- The sentinel `strconv.ErrSyntax`. -/
def ErrSyntax : GoError := .sentinel "strconv.ErrSyntax"

/-- The sentinel `strconv.ErrRange`. -/
def ErrRange : GoError := .sentinel "strconv.ErrRange"

/-- The character of a decimal digit `d < 10`. -/
def digitChar (d : Nat) : Char := Char.ofNat (48 + d)

/-- The digit loop of `formatBits`: the decimal digits of `n` in front of `acc`.
`fuel` bounds the number of digits. -/
def formatDigits : Nat → Nat → List Char → List Char
  | 0, _, acc => acc
  | fuel + 1, n, acc =>
    if n < 10 then digitChar n :: acc
    else formatDigits fuel (n / 10) (digitChar (n % 10) :: acc)

/-- Go `strconv.Itoa`: the decimal text of an integer, with a leading `-` when
it is negative. -/
def Itoa (i : Int) : String :=
  if i < 0 then ⟨'-' :: formatDigits (i.natAbs + 1) i.natAbs []⟩
  else ⟨formatDigits (i.natAbs + 1) i.natAbs []⟩

/-- The digit loop of the fast path of `Atoi`: `none` at the first character
that is not a decimal digit. -/
def parseDigits : List Char → Nat → Option Nat
  | [], n => some n
  | c :: cs, n =>
    if '0' ≤ c ∧ c ≤ '9' then parseDigits cs (n * 10 + (c.toNat - 48)) else none

/-- The largest `uint64`, `1<<64 - 1`. -/
def maxUint64 : Nat := 18446744073709551615

/-- The loop of `ParseUint` in base 10 with 64 bits, from the number `n` read
so far: a character that is not a decimal digit ends it with `0` and
`ErrSyntax`; a digit that takes the number over `maxUint64` ends it at once
with `maxUint64` and `ErrRange`, whatever follows. -/
def parseUintLoop : List Char → Nat → Nat × Option GoError
  | [], n => (n, none)
  | c :: cs, n =>
    if '0' ≤ c ∧ c ≤ '9' then
      if n ≥ maxUint64 / 10 + 1 then (maxUint64, some ErrRange)
      else if n * 10 + (c.toNat - 48) > maxUint64 then (maxUint64, some ErrRange)
      else parseUintLoop cs (n * 10 + (c.toNat - 48))
    else (0, some ErrSyntax)

/-- Go `strconv.ParseUint(s, 10, 64)`, on the characters of `s`. -/
def ParseUint (s : List Char) : Nat × Option GoError :=
  if s.isEmpty then (0, some ErrSyntax) else parseUintLoop s 0

/-- Go `strconv.ParseInt(s, 10, 0)` on a 64-bit platform: a sign is picked off,
the rest goes to `ParseUint`; a syntax error gives `0`, and a number out of
range (the range error of `ParseUint` among them) gives the nearest bound and
`ErrRange`. -/
def ParseInt (s : String) : Int × Option GoError :=
  match s.data with
  | [] => (0, some ErrSyntax)
  | c :: cs =>
    let neg : Bool := c == '-'
    let body := if c = '+' ∨ c = '-' then cs else c :: cs
    match ParseUint body with
    | (un, err) =>
      if err.isSome ∧ err ≠ some ErrRange then (0, err)
      else if neg = false ∧ un ≥ 9223372036854775808 then (maxInt, some ErrRange)
      else if neg = true ∧ un > 9223372036854775808 then (minInt, some ErrRange)
      else (if neg then -(un : Int) else (un : Int), none)

/-- Go `strconv.Atoi` on a 64-bit platform: the value and the error. A string
of 1 to 18 bytes takes the fast path (an optional sign, then decimal digits
only, or `0` and `ErrSyntax`); any other string goes to `ParseInt`. -/
def Atoi (s : String) : Int × Option GoError :=
  if 0 < s.utf8ByteSize ∧ s.utf8ByteSize < 19 then
    match s.data with
    | [] => (0, some ErrSyntax)
    | c :: cs =>
      let body := if c = '-' ∨ c = '+' then cs else c :: cs
      if body.length < 1 then (0, some ErrSyntax)
      else
        match parseDigits body 0 with
        | none => (0, some ErrSyntax)
        | some n => (if c = '-' then -(n : Int) else (n : Int), none)
  else ParseInt s

/-- The digits of a decimal numeral: the text after its optional sign. -/
def numeralDigits (s : String) : List Char :=
  match s.data with
  | [] => []
  | c :: cs => if c = '-' ∨ c = '+' then cs else c :: cs

/-- A decimal numeral: an optional sign, then one or more decimal digits and
nothing else. -/
def IsNumeral (s : String) : Bool :=
  !(numeralDigits s).isEmpty && (numeralDigits s).all fun c => decide ('0' ≤ c ∧ c ≤ '9')

/-- The integer a decimal numeral denotes, in positional notation. -/
def numeralValue (s : String) : Int :=
  if s.data.head? = some '-' then
    -((Nat.ofDigits 10 ((numeralDigits s).reverse.map fun c => c.toNat - 48) : Nat) : Int)
  else ((Nat.ofDigits 10 ((numeralDigits s).reverse.map fun c => c.toNat - 48) : Nat) : Int)

/-- The number the decimal digits at the front of a text denote, continuing
from `n`; the text after the first character that is no digit is not read. -/
def prefixValue : List Char → Nat → Nat
  | [], n => n
  | c :: cs, n => if '0' ≤ c ∧ c ≤ '9' then prefixValue cs (n * 10 + (c.toNat - 48)) else n

/-- A text that starts, after an optional sign, with decimal digits that
already denote a number above the largest `uint64`. -/
def OverflowsUint64 (s : String) : Bool :=
  decide (prefixValue (numeralDigits s) 0 > maxUint64)

end strconv

/-! ## package net: which strings `ParseIP` accepts

After `net/ip.go` and `net/netip/netip.go` of the current Go releases, where
`net.ParseIP` goes through `netip.ParseAddr`: an octet of an IPv4 address has no
leading zero, a group of an IPv6 address has at most four hexadecimal digits,
and an address with a zone is not an IP. The bytes of the address are not
modelled, only whether there is one. -/

namespace net

/-- The loop of `parseIPv4Fields` over the characters from index `i` on: `val`
is the value of the octet being read, `pos` the number of octets finished,
`digLen` the number of digits of the octet read so far; `first` says that `i`
is 0 and `prevDot` that the character before was a `.`. The result says
whether the error is nil. -/
def parseIPv4FieldsLoop : List Char → Nat → Nat → Nat → Bool → Bool → Bool
  | [], _, pos, _, _, _ => decide (¬ pos < 3)
  | c :: cs, val, pos, digLen, first, prevDot =>
    if '0' ≤ c ∧ c ≤ '9' then
      if digLen = 1 ∧ val = 0 then false
      else if val * 10 + (c.toNat - 48) > 255 then false
      else parseIPv4FieldsLoop cs (val * 10 + (c.toNat - 48)) pos (digLen + 1) false false
    else if c = '.' then
      if first ∨ cs.isEmpty ∨ prevDot then false
      else if pos = 3 then false
      else parseIPv4FieldsLoop cs 0 (pos + 1) 0 false true
    else false

/-- The function `parseIPv4Fields` of `netip`: whether the text is four
decimal octets with dots between them. -/
def parseIPv4Fields (s : List Char) : Bool := parseIPv4FieldsLoop s 0 0 0 true false

/-- The value of a hexadecimal digit, `none` for any other character. -/
def hexVal (c : Char) : Option Nat :=
  if '0' ≤ c ∧ c ≤ '9' then some (c.toNat - 48)
  else if 'a' ≤ c ∧ c ≤ 'f' then some (c.toNat - 97 + 10)
  else if 'A' ≤ c ∧ c ≤ 'F' then some (c.toNat - 65 + 10)
  else none

/-- The inner loop of `parseIPv6` that reads one group: hexadecimal digits at
the front of the text, with `off` digits read so far and their value `acc`.
The result is the number of digits, the value and the text from the first
character that is no digit on; `none` is the error of a fifth digit or of a
value above 16 bits. -/
def hexGroup : List Char → Nat → Nat → Option (Nat × Nat × List Char)
  | [], off, acc => some (off, acc, [])
  | c :: cs, off, acc =>
    match hexVal c with
    | some d =>
      if off > 3 then none
      else if acc * 16 + d > 0xFFFF then none
      else hexGroup cs (off + 1) (acc * 16 + d)
    | none => some (off, acc, c :: cs)

/-- The end of `parseIPv6`: the whole text must be used, and the ellipsis is
there exactly when fewer than 16 bytes were read. -/
def parseIPv6End (i : Nat) (ellipsis : Option Nat) (s : List Char) : Bool :=
  if !s.isEmpty then false
  else if i < 16 then ellipsis.isSome
  else ellipsis.isNone

/-- The loop `for i < 16` of `parseIPv6`, with `i` bytes read so far and the
position of the ellipsis, if one was seen. The loop adds at least 2 to `i` each
round, so 16 rounds of `fuel` are never used up. -/
def parseIPv6Loop : Nat → Nat → Option Nat → List Char → Bool
  | 0, i, ellipsis, s => parseIPv6End i ellipsis s
  | fuel + 1, i, ellipsis, s =>
    if i ≥ 16 then parseIPv6End i ellipsis s
    else
      match hexGroup s 0 0 with
      | none => false
      | some (off, _, r) =>
        if off = 0 then false
        else if r.head? = some '.' then
          if ellipsis.isNone ∧ i ≠ 12 then false
          else if i + 4 > 16 then false
          else if parseIPv4Fields s = false then false
          else parseIPv6End (i + 4) ellipsis []
        else if r.isEmpty then parseIPv6End (i + 2) ellipsis []
        else
          match r with
          | [] => false
          | c1 :: r1 =>
            if c1 ≠ ':' then false
            else if r1.isEmpty then false
            else
              match r1 with
              | ':' :: r2 =>
                if ellipsis.isSome then false
                else if r2.isEmpty then parseIPv6End (i + 2) (some (i + 2)) []
                else parseIPv6Loop fuel (i + 2) (some (i + 2)) r2
              | _ => parseIPv6Loop fuel (i + 2) ellipsis r1

/-- The function `parseIPv6` of `netip` followed by the test of `parseIP` in
package net: whether the text parses and has no zone. The zone is what follows
the first `%`; an empty zone is an error, and an address with a zone is not an
IP. A leading `::` is the ellipsis at position 0. -/
def parseIPv6 (inp : List Char) : Bool :=
  let s := inp.takeWhile fun c => c != '%'
  let zone := (inp.dropWhile fun c => c != '%').drop 1
  if inp.contains '%' ∧ zone.isEmpty then false
  else
    let parsed :=
      match s with
      | ':' :: ':' :: r => if r.isEmpty then true else parseIPv6Loop 16 0 (some 0) r
      | _ => parseIPv6Loop 16 0 none s
    parsed && zone.isEmpty

/-- The scan of `netip.ParseAddr` for the first `.`, `:` or `%`, which picks
the parser; a text with none of them is an error. -/
def parseAddrScan (whole : List Char) : List Char → Bool
  | [] => false
  | c :: cs =>
    if c = '.' then parseIPv4Fields whole
    else if c = ':' then parseIPv6 whole
    else if c = '%' then false
    else parseAddrScan whole cs

/-- Whether `net.ParseIP(s)` is not nil. -/
def ParseIP (s : String) : Bool := parseAddrScan s.data s.data

end net

/-! ## package validator: the tags used on `InviteHash` -/

namespace validator

/-- A lower-case hexadecimal digit, the class `[0-9a-f]`. -/
def isLowerHex (c : Char) : Bool :=
  ('0' ≤ c ∧ c ≤ '9') ∨ ('a' ≤ c ∧ c ≤ 'f')

/-- The match of the regular expression of the tag `uuid`,
`^[0-9a-f]{8}-[0-9a-f]{4}-[0-9a-f]{4}-[0-9a-f]{4}-[0-9a-f]{12}$`,
from position `i` on. -/
def uuidShape : Nat → List Char → Bool
  | i, [] => i == 36
  | i, c :: cs =>
    (if i = 8 ∨ i = 13 ∨ i = 18 ∨ i = 23 then c == '-' else isLowerHex c)
      && uuidShape (i + 1) cs

/-- The tag `uuid`. -/
def isUUID (s : String) : Bool := uuidShape 0 s.data

/-- The tag `ip`: `net.ParseIP` returns an address. -/
def isIP (s : String) : Bool := net.ParseIP s

/-- The tags of one field, run in order: the first tag that fails is the
field's error, and the tags after it are not run. -/
def checkField (field : String) : List (String × Bool) → List FieldError
  | [] => []
  | (tag, ok) :: rest => if ok then checkField field rest else [⟨field, tag⟩]

end validator

/-! ## package invite: models.go -/

/-- The cipher of `github.com/sudo-suhas/symcrypto`, a parameter of the model.
`New` gives the error of a secret the cipher rejects; `Encrypt` takes the
random bytes it draws for the nonce as `entropy`. -/
structure Symcrypto where
  New : String → Option GoError
  Encrypt : String → List Nat → String → Except GoError String
  Decrypt : String → String → Except GoError String

namespace invite

/-- Modelled from the spec: the error variable `ErrInviteExpired` of package
invite, declared in a file that is not part of the sources at hand; the
expiry-specific error kind, told apart from every other error by identity. -/
def ErrInviteExpired : GoError := .sentinel "invite.ErrInviteExpired"

/-- The struct `InviteHash`. The zero value is `{}`. -/
structure InviteHash where
  UserID : String := ""
  AccountID : String := ""
  CreatedAt : Int := 0
  ExpiresAt : Int := 0
  RequestIP : String := ""
  deriving DecidableEq, Repr

/-- The field errors of the `validate` tags of `InviteHash`:
`required,uuid`, `required,uuid`, `required`, `required`, `required,ip`. -/
def InviteHash.fieldErrors (h : InviteHash) : List FieldError :=
  validator.checkField "UserID"
      [("required", decide (h.UserID ≠ "")), ("uuid", validator.isUUID h.UserID)]
    ++ validator.checkField "AccountID"
      [("required", decide (h.AccountID ≠ "")), ("uuid", validator.isUUID h.AccountID)]
    ++ validator.checkField "CreatedAt" [("required", decide (h.CreatedAt ≠ 0))]
    ++ validator.checkField "ExpiresAt" [("required", decide (h.ExpiresAt ≠ 0))]
    ++ validator.checkField "RequestIP"
      [("required", decide (h.RequestIP ≠ "")), ("ip", validator.isIP h.RequestIP)]

/-- Modelled from the spec: `webcontext.Validator()`, whose file is not part of
the sources at hand, taken as the validator of go-playground with its stock
tags `required`, `uuid` and `ip` ("validate each field against its expected
shape"). The call `webcontext.Validator().StructCtx(ctx, hash)`: nil when no
tag of `InviteHash` fails, the field errors otherwise. -/
def InviteHash.StructCtx (h : InviteHash) : Option GoError :=
  if h.fieldErrors = [] then none else some (.fieldErrors h.fieldErrors)

/-- The plaintext `NewInviteHash` encrypts: `hashStr`. -/
def hashStr (userID accountID requestIp : String) (ttl : Duration) (now : Time) : String :=
  strings.Join
    [userID, accountID, strconv.Itoa now.UTC.Unix, strconv.Itoa (now.UTC.Add ttl).Unix, requestIp]
    "|"

/-- The function `NewInviteHash`. -/
def NewInviteHash (cr : Symcrypto) (entropy : List Nat)
    (secretKey userID accountID requestIp : String) (ttl : Duration) (now : Time) :
    Except GoError String :=
  match cr.New secretKey with
  | some err => .error (.withStack err)
  | none =>
    match cr.Encrypt secretKey entropy (hashStr userID accountID requestIp ttl now) with
    | .error err => .error (.withStack err)
    | .ok encrypted => .ok encrypted

/-- The fields of `ParseInviteHash`: the hash filled from the pieces when there
are exactly five of them, the zero hash otherwise. Errors of `Atoi` are dropped. -/
def hashOfParts (hashPts : List String) : InviteHash :=
  match hashPts with
  | [p0, p1, p2, p3, p4] =>
    { UserID := p0
      AccountID := p1
      CreatedAt := (strconv.Atoi p2).1
      ExpiresAt := (strconv.Atoi p3).1
      RequestIP := p4 }
  | _ => {}

/-- The part of `ParseInviteHash` after decryption: split, validate, check expiry. -/
def parsePlain (hashStr : String) (now : Time) : Except GoError InviteHash :=
  let hash := hashOfParts (strings.Split hashStr '|')
  match hash.StructCtx with
  | some err => .error err
  | none =>
    if hash.ExpiresAt < now.UTC.Unix then
      .error (.withMessage ErrInviteExpired "Invite has expired.")
    else .ok hash

/-- The function `ParseInviteHash`. -/
def ParseInviteHash (cr : Symcrypto) (encrypted secretKey : String) (now : Time) :
    Except GoError InviteHash :=
  match cr.New secretKey with
  | some err => .error (.withStack err)
  | none =>
    match cr.Decrypt secretKey encrypted with
    | .error err => .error (.withStack err)
    | .ok hashStr => parsePlain hashStr now

end invite

/-- A cipher for examples: every secret but the empty one is accepted,
encryption writes one decimal digit for each nonce byte, a `#` sign and the
plaintext; decryption removes everything up to the first `#` sign. -/
def demoCipher : Symcrypto where
  New := fun k => if k = "" then some (.errorf "symcrypto: bad secret" []) else none
  Encrypt := fun _ entropy pt =>
    .ok ⟨(entropy.map fun b => strconv.digitChar (b % 10)) ++ '#' :: pt.data⟩
  Decrypt := fun _ ct =>
    match ct.data.dropWhile (fun c => c != '#') with
    | [] => .error (.errorf "symcrypto: message authentication failed" [])
    | _ :: pt => .ok ⟨pt⟩

/-! ## the token codec -/

namespace auth

/-- Modelled from the spec: the implementation behind the interface
`TokenGenerator` (`GenerateToken`, `ParseClaims`), which is not part of the
sources at hand. The spec calls it a bidirectional mapping between a Claims
value and an opaque signed string: `encode` serializes the Claims and applies
the signature, `decode` verifies the signature and decodes the payload. -/
structure TokenCodec where
  encode : Claims → String
  decode : String → Except GoError Claims

/-- Modelled from the spec: the error kind `InvalidClaims` of the token codec. -/
def ErrInvalidClaims : GoError := .sentinel "InvalidClaims"

/-- Modelled from the spec: the error kind `TokenExpired` of the token codec. -/
def ErrTokenExpired : GoError := .sentinel "TokenExpired"

/-- Whether an error of `Claims.Valid` reports an expired token: its cause is a
jwt validation error with the bit `ValidationErrorExpired` set. -/
def isExpiredError (err : GoError) : Bool :=
  match err.Cause with
  | .jwtValidation e => e.Errors &&& jwt.ValidationErrorExpired != 0
  | _ => false

/-- Modelled from the spec: `GenerateToken` of the token codec, which is not
part of the sources at hand: serializes the Claims and applies a signature,
and fails if the Claims are structurally invalid (a role outside the
enumeration). -/
def GenerateToken (K : TokenCodec) (c : Claims) : Except GoError String :=
  match checkRoles c.Roles with
  | some _ => .error ErrInvalidClaims
  | none => .ok (K.encode c)

/-- Modelled from the spec: `ParseClaims` of the token codec, which is not
part of the sources at hand: verifies the signature and decodes the payload,
then runs the claim check `Claims.Valid` at the clock reading `now`; an
expired token and otherwise invalid claims are different errors. -/
def ParseClaims (K : TokenCodec) (tokenString : String) (now : Int) : Except GoError Claims :=
  match K.decode tokenString with
  | .error err => .error err
  | .ok c =>
    match c.Valid now with
    | none => .ok c
    | some err => if isExpiredError err then .error ErrTokenExpired else .error ErrInvalidClaims

end auth

/-- A codec for examples, which has issued one token: the token `"token"`
decodes to the Claims `c0`, every other string is malformed. -/
def demoCodec (c0 : auth.Claims) : auth.TokenCodec where
  encode := fun _ => "token"
  decode := fun s => if s = "token" then .ok c0 else .error (.sentinel "TokenMalformed")

/-! ## package time: zero time and truncation -/

/-- Go `time.Millisecond`. -/
def Millisecond : Duration := 1000000

/-- The zero `time.Time`, January 1 of year 1, 00:00:00 UTC, in nanoseconds
since the Unix epoch. -/
def zeroTimeNanos : Int := -62135596800 * 1000000000

/-- Go `Time.IsZero`. -/
def Time.IsZero (t : Time) : Bool := t.nanos == zeroTimeNanos

/-- Go `Time.Truncate`: `t` rounded down to a multiple of `d` since the zero
time; `t` itself when `d ≤ 0`. -/
def Time.Truncate (t : Time) (d : Duration) : Time :=
  if d ≤ 0 then t else ⟨t.nanos - (t.nanos - zeroTimeNanos) % d⟩

/-! ## the store: the table `users_accounts` and the statements sent to it

The database behind `*sqlx.DB` and the builders of
`github.com/huandu/go-sqlbuilder` are modelled by what they mean: a table is
the list of its rows, an expression the builder makes from a column and an
argument is a condition on a row, and a statement is run by filtering or
rewriting the rows. A text of the caller is written into the `WHERE` clause as
it is, and is read the way the database reads it. -/

namespace sqlbuilder

/-- A value of a column or of a statement argument. -/
inductive Value where
  | null
  | text (s : String)
  | strings (l : List String)
  | time (t : Time)
  deriving DecidableEq, Repr

/-- An expression of a `WHERE` clause, as the builder methods make it:
`Equal`, `IsNull`, `And`, `Or`, `In` with a nested select of one column, and
text supplied by the caller. -/
inductive Cond where
  | equal (field value : String)
  | isNull (field : String)
  | raw (expr : String)
  | and (cs : List Cond)
  | or (cs : List Cond)
  | inSelect (field col table : String) (wheres : List Cond)
  deriving Repr

/-- The state of a `SelectBuilder`: the default value is `NewSelectBuilder()`,
in which `limit` and `offset` are -1. -/
structure SelectBuilder where
  selectCols : List String := []
  table : String := ""
  whereExprs : List Cond := []
  orderByCols : List String := []
  limit : Int := -1
  offset : Int := -1
  deriving Repr

/-- The method `Select`. -/
def SelectBuilder.Select (b : SelectBuilder) (cols : List String) : SelectBuilder :=
  { b with selectCols := cols }

/-- The method `From`. -/
def SelectBuilder.From (b : SelectBuilder) (table : String) : SelectBuilder :=
  { b with table := table }

/-- The method `Where`: the expressions are added to those already there, and
the clause is their conjunction. -/
def SelectBuilder.Where (b : SelectBuilder) (exprs : List Cond) : SelectBuilder :=
  { b with whereExprs := b.whereExprs ++ exprs }

/-- The method `OrderBy`. -/
def SelectBuilder.OrderBy (b : SelectBuilder) (cols : List String) : SelectBuilder :=
  { b with orderByCols := cols }

/-- The method `Limit`. -/
def SelectBuilder.Limit (b : SelectBuilder) (n : Int) : SelectBuilder :=
  { b with limit := n }

/-- The method `Offset`. -/
def SelectBuilder.Offset (b : SelectBuilder) (n : Int) : SelectBuilder :=
  { b with offset := n }

/-- The conversion `int(u)` of a `uint` on a 64-bit platform: the same bits read
as a signed number. -/
def uintToInt (u : Nat) : Int :=
  if u % 18446744073709551616 < 9223372036854775808 then ((u % 18446744073709551616 : Nat) : Int)
  else ((u % 18446744073709551616 : Nat) : Int) - 18446744073709551616

/-! ### The text of a condition as the database reads it

The builder writes the `WHERE` clause as text: its expressions joined by
` AND `, where `And(e...)` is `(` + the expressions joined by ` AND ` + `)`.
The values the builder compares with are passed as arguments, apart from the
text; a text supplied by the caller is written into the clause as it is. What
follows is the lexical structure the database sees in such a text:
parentheses, the words `AND` and `OR`, quoted strings and names, and comments.
Everything else is part of a condition, which the database evaluates. Escapes
with a backslash, dollar-quoted strings and comments inside comments are not
part of this structure; what is proved of a text of the caller is proved of
texts without them (`plainText`). -/

/-- The character `'`, which opens and closes a string. -/
def apostrophe : Char := Char.ofNat 39

/-- The character `"`, which opens and closes a quoted name. -/
def doubleQuote : Char := Char.ofNat 34

/-- The character of a new line. -/
def newLine : Char := Char.ofNat 10

/-- A character of white space: a space, a tab, a new line or a carriage
return. -/
def isSpace (c : Char) : Bool :=
  c == ' ' || c == Char.ofNat 9 || c == newLine || c == Char.ofNat 13

/-- A piece of a text, with the characters it is made of: a parenthesis, white
space or a closed comment, a word, a quoted string or name with its quotes, a
line comment that is not ended by a new line in the text (it runs to the end
of the statement), and a quote or block comment that is left open. -/
inductive Lexeme where
  | lp
  | rp
  | blank (text : List Char)
  | word (text : List Char)
  | quoted (text : List Char)
  | lineComment
  | unclosed
  deriving DecidableEq, Repr

/-- Where the lexer is: in plain text, after a `-` or a `/` that may start a
comment, inside single or double quotes, inside a line comment, inside a block
comment, or inside a block comment after a `*` that may end it. -/
inductive LexMode where
  | normal
  | dash
  | slash
  | single
  | double
  | line
  | block
  | blockStar
  deriving DecidableEq, Repr

/-- The state of the lexer: the mode, the characters of the piece being read
(last first), and the pieces read (last first). -/
structure LexState where
  mode : LexMode := .normal
  cur : List Char := []
  out : List Lexeme := []
  deriving Repr

/-- The pieces read, with the word being read, if any, added. -/
def LexState.flush (st : LexState) : List Lexeme :=
  if st.cur.isEmpty then st.out else Lexeme.word st.cur.reverse :: st.out

/-- One character in plain text. -/
def lexNormal (st : LexState) (c : Char) : LexState :=
  if c = '(' then { mode := .normal, cur := [], out := Lexeme.lp :: st.flush }
  else if c = ')' then { mode := .normal, cur := [], out := Lexeme.rp :: st.flush }
  else if isSpace c then
    { mode := .normal, cur := [], out := Lexeme.blank [c] :: st.flush }
  else if c = apostrophe then { mode := .single, cur := [c], out := st.flush }
  else if c = doubleQuote then { mode := .double, cur := [c], out := st.flush }
  else if c = '-' then { st with mode := .dash }
  else if c = '/' then { st with mode := .slash }
  else { st with mode := .normal, cur := c :: st.cur }

/-- One character of the text. -/
def lexStep (st : LexState) (c : Char) : LexState :=
  match st.mode with
  | .normal => lexNormal st c
  | .dash =>
    if c = '-' then { mode := .line, cur := ['-', '-'], out := st.flush }
    else lexNormal { st with mode := .normal, cur := '-' :: st.cur } c
  | .slash =>
    if c = '*' then { mode := .block, cur := ['*', '/'], out := st.flush }
    else lexNormal { st with mode := .normal, cur := '/' :: st.cur } c
  | .single =>
    if c = apostrophe then
      { mode := .normal, cur := [], out := Lexeme.quoted (c :: st.cur).reverse :: st.out }
    else { st with cur := c :: st.cur }
  | .double =>
    if c = doubleQuote then
      { mode := .normal, cur := [], out := Lexeme.quoted (c :: st.cur).reverse :: st.out }
    else { st with cur := c :: st.cur }
  | .line =>
    if c = newLine then
      { mode := .normal, cur := [], out := Lexeme.blank (c :: st.cur).reverse :: st.out }
    else { st with cur := c :: st.cur }
  | .block =>
    if c = '*' then { st with mode := .blockStar, cur := c :: st.cur }
    else { st with cur := c :: st.cur }
  | .blockStar =>
    if c = '/' then
      { mode := .normal, cur := [], out := Lexeme.blank (c :: st.cur).reverse :: st.out }
    else if c = '*' then { st with cur := c :: st.cur }
    else { st with mode := .block, cur := c :: st.cur }

/-- The pieces at the end of the text. -/
def lexFinish (st : LexState) : List Lexeme :=
  match st.mode with
  | .normal => st.flush.reverse
  | .dash => ({ st with cur := '-' :: st.cur } : LexState).flush.reverse
  | .slash => ({ st with cur := '/' :: st.cur } : LexState).flush.reverse
  | .line => (Lexeme.lineComment :: st.out).reverse
  | _ => (Lexeme.unclosed :: st.out).reverse

/-- The pieces of a text. -/
def lexText (text : String) : List Lexeme :=
  lexFinish (text.data.foldl lexStep {})

/-- The characters of a piece. -/
def Lexeme.chars : Lexeme → List Char
  | .lp => ['(']
  | .rp => [')']
  | .blank t => t
  | .word t => t
  | .quoted t => t
  | .lineComment => []
  | .unclosed => []

/-- A text without the white space at its two ends. -/
def trimSpace (t : List Char) : List Char :=
  ((t.dropWhile isSpace).reverse.dropWhile isSpace).reverse

/-- How the database reads a clause that starts with a text: the clause is the
`OR` of `disjuncts`, each of them the `AND` of the conditions whose texts it
lists. `continues` says that what the builder writes after the text belongs to
the last of them, joined by `AND`; it is false when a line comment in the text
hides the rest of the statement. -/
structure WhereReading where
  disjuncts : List (List String)
  continues : Bool
  deriving DecidableEq, Repr

/-- The scan of the pieces of a clause for the `AND` and `OR` that are outside
every parenthesis: `depth` counts the open parentheses, `cur` holds the
characters of the condition being read (last first), `conj` the conditions of
the disjunct being read and `disj` the disjuncts read (both last first).
`none` is a syntax error: a `)` that closes nothing, a parenthesis, quote or
comment left open, or a missing condition. -/
def scanTop : List Lexeme → Nat → List Char → List String → List (List String) →
    Option WhereReading
  | [], depth, cur, conj, disj =>
    if depth ≠ 0 ∨ (trimSpace cur.reverse).isEmpty then none
    else some ⟨((String.mk (trimSpace cur.reverse) :: conj).reverse :: disj).reverse, true⟩
  | .lineComment :: _, depth, cur, conj, disj =>
    if depth ≠ 0 ∨ (trimSpace cur.reverse).isEmpty then none
    else some ⟨((String.mk (trimSpace cur.reverse) :: conj).reverse :: disj).reverse, false⟩
  | .unclosed :: _, _, _, _, _ => none
  | .lp :: ls, depth, cur, conj, disj => scanTop ls (depth + 1) ('(' :: cur) conj disj
  | .rp :: ls, depth, cur, conj, disj =>
    if depth = 0 then none else scanTop ls (depth - 1) (')' :: cur) conj disj
  | .word t :: ls, depth, cur, conj, disj =>
    if depth = 0 ∧ t.map Char.toLower = ['a', 'n', 'd'] then
      if (trimSpace cur.reverse).isEmpty then none
      else scanTop ls 0 [] (String.mk (trimSpace cur.reverse) :: conj) disj
    else if depth = 0 ∧ t.map Char.toLower = ['o', 'r'] then
      if (trimSpace cur.reverse).isEmpty then none
      else scanTop ls 0 [] [] ((String.mk (trimSpace cur.reverse) :: conj).reverse :: disj)
    else scanTop ls depth (t.reverse ++ cur) conj disj
  | l :: ls, depth, cur, conj, disj => scanTop ls depth (l.chars.reverse ++ cur) conj disj

/-- The reading of the clause that starts with `(` + `text` + `)`, which is
how `And(text)` writes a text of the caller. -/
def readWhere (text : String) : Option WhereReading :=
  scanTop (Lexeme.lp :: lexText text ++ [Lexeme.rp]) 0 [] [] []

/-- Whether the character `a` comes right before the character `b` somewhere
in a text. -/
def hasPair (a b : Char) : List Char → Bool
  | [] => false
  | x :: rest => (x == a && rest.head? == some b) || hasPair a b rest

/-- A text made of characters that every reader takes the same way: no
backslash (an escape inside some strings of the database), no dollar sign (a
dollar-quoted string of the database, an argument of the builder), and neither
`--` nor `/*` (the start of a comment, which the database may nest). -/
def plainText (text : String) : Bool :=
  text.data.all (fun c => !(c == Char.ofNat 92 || c == '$'))
    && !hasPair '-' '-' text.data && !hasPair '/' '*' text.data

/-- A text that stays inside the parentheses `And` puts around it: a plain
text for which the clause reads as the one condition `(text)`, with the rest of
the statement after it. -/
def selfContained (text : String) : Bool :=
  plainText text && readWhere text == some ⟨[["(" ++ text ++ ")"]], true⟩

/-- The value of a clause read this way, from the values `ev` of its conditions
and the value `rest` of what the builder writes after the text. -/
def WhereReading.eval (rd : WhereReading) (ev : String → Bool) (rest : Bool) : Bool :=
  match rd.disjuncts.reverse with
  | [] => false
  | last :: before =>
    before.any (fun conj => conj.all ev) || (last.all ev && (!rd.continues || rest))

end sqlbuilder

namespace user_account

open sqlbuilder

/-- The variable `ErrNotFound`. -/
def ErrNotFound : GoError := .sentinel "user_account.ErrNotFound"

/-- The variable `ErrForbidden`. -/
def ErrForbidden : GoError := .sentinel "user_account.ErrForbidden"

/-- The variable `ErrNotFound` of package account, whose declaration is not
part of the sources at hand. -/
def accountErrNotFound : GoError := .sentinel "account.ErrNotFound"

/-- The variable `ErrForbidden` of package account, whose declaration is not
part of the sources at hand. -/
def accountErrForbidden : GoError := .sentinel "account.ErrForbidden"

/-- The constant `userAccountTableName`. -/
def userAccountTableName : String := "users_accounts"

/-- The variable `userAccountMapColumns`. -/
def userAccountMapColumns : List String :=
  ["user_id,account_id,roles,status,created_at,updated_at,archived_at"]

/-- A row of the table `users_accounts`, with the columns this package reads
and writes; `archived_at` is `none` when the column is NULL. -/
structure Row where
  id : String
  user_id : String
  account_id : String
  roles : List String
  status : String
  created_at : Time
  updated_at : Time
  archived_at : Option Time
  deriving DecidableEq, Repr

/-- The value of a column of a row; NULL for a name that is no column. -/
def Row.column (r : Row) (field : String) : Value :=
  if field = "id" then .text r.id
  else if field = "user_id" then .text r.user_id
  else if field = "account_id" then .text r.account_id
  else if field = "roles" then .strings r.roles
  else if field = "status" then .text r.status
  else if field = "created_at" then .time r.created_at
  else if field = "updated_at" then .time r.updated_at
  else if field = "archived_at" then
    (match r.archived_at with
     | some t => .time t
     | none => .null)
  else .null

/-- The row after `SET field = v`; a value of the wrong type for the column
leaves the row as it is. -/
def Row.assign (r : Row) (field : String) (v : Value) : Row :=
  if field = "roles" then
    (match v with
     | .strings l => { r with roles := l }
     | _ => r)
  else if field = "status" then
    (match v with
     | .text s => { r with status := s }
     | _ => r)
  else if field = "updated_at" then
    (match v with
     | .time t => { r with updated_at := t }
     | _ => r)
  else if field = "archived_at" then
    (match v with
     | .time t => { r with archived_at := some t }
     | .null => { r with archived_at := none }
     | _ => r)
  else r

/-- The rows of a table of the database, by name: this model holds the one
table `users_accounts`. -/
def tableRows (rows : List Row) (table : String) : List Row :=
  if table = userAccountTableName then rows else []

mutual
/-- Whether a row satisfies an expression of a `WHERE` clause, in a database
whose table `users_accounts` holds `rows`. `evalRaw` is the reading the
database gives a text of the caller with its arguments. A comparison with NULL
is not satisfied. -/
def evalCond (evalRaw : String → List String → Row → Bool) (args : List String)
    (rows : List Row) : Cond → Row → Bool
  | .equal field value, r => r.column field == .text value
  | .isNull field, r => r.column field == .null
  | .raw expr, r => evalRaw expr args r
  | .and cs, r => evalAll evalRaw args rows cs r
  | .or cs, r => evalAny evalRaw args rows cs r
  | .inSelect field col table wheres, r =>
    (tableRows rows table).any fun r2 =>
      evalAll evalRaw args rows wheres r2
        && (r2.column col != .null && r2.column col == r.column field)
/-- Whether a row satisfies every expression of a list. -/
def evalAll (evalRaw : String → List String → Row → Bool) (args : List String)
    (rows : List Row) : List Cond → Row → Bool
  | [], _ => true
  | c :: cs, r => evalCond evalRaw args rows c r && evalAll evalRaw args rows cs r
/-- Whether a row satisfies some expression of a list. -/
def evalAny (evalRaw : String → List String → Row → Bool) (args : List String)
    (rows : List Row) : List Cond → Row → Bool
  | [], _ => false
  | c :: cs, r => evalCond evalRaw args rows c r || evalAny evalRaw args rows cs r
end

/-- The text of the caller at the head of a clause, as `findRequestQuery`
writes it with `And(req.Where)`, and the expressions after it; `none` for a
clause that starts with an expression the builder made. -/
def splicedText : List Cond → Option (String × List Cond)
  | Cond.and [Cond.raw text] :: rest => some (text, rest)
  | _ => none

/-- Whether the database can read the clause: a clause that starts with a text
of the caller must scan without a syntax error. -/
def whereSyntaxOK (exprs : List Cond) : Bool :=
  match splicedText exprs with
  | some (text, _) => (readWhere text).isSome
  | none => true

/-- Whether a line comment in the text of the caller hides the rest of the
statement: the expressions the builder wrote after it, `ORDER BY` and `LIMIT`. -/
def cutByComment (exprs : List Cond) : Bool :=
  match splicedText exprs with
  | some (text, _) =>
    (match readWhere text with
     | some rd => !rd.continues
     | none => false)
  | none => false

/-- Whether a row satisfies the `WHERE` clause made of the expressions joined
by `AND`. A clause that starts with a text of the caller is read as the
database reads the text written into it; the conditions of the text are
evaluated by `evalRaw`. -/
def evalWhere (evalRaw : String → List String → Row → Bool) (args : List String)
    (rows : List Row) (exprs : List Cond) (r : Row) : Bool :=
  match splicedText exprs with
  | some (text, rest) =>
    (match readWhere text with
     | some rd => rd.eval (fun t => evalRaw t args r) (evalAll evalRaw args rows rest r)
     | none => false)
  | none => evalAll evalRaw args rows exprs r

/-- A statement sent to the database by this package. -/
inductive Stmt where
  | select (query : SelectBuilder) (args : List String)
  | insert (row : Row)
  | update (sets : List (String × Value)) (wheres : List Cond)
  | delete (wheres : List Cond)
  deriving Repr

/-- Whether a statement writes to the table. -/
def Stmt.isWrite : Stmt → Bool
  | .select _ _ => false
  | _ => true

/-- The connection `repo.DbConn`: the rows of `users_accounts` and the
statements sent so far, oldest first. -/
structure DB where
  rows : List Row
  log : List Stmt := []

/-- Modelled from the spec: the struct `UserAccount` (the membership record),
declared in a file that is not part of the sources at hand; its fields are the
seven columns `mapRowsToUserAccount` scans. -/
structure UserAccount where
  UserID : String := ""
  AccountID : String := ""
  Roles : List String := []
  Status : String := ""
  CreatedAt : Time := ⟨zeroTimeNanos⟩
  UpdatedAt : Time := ⟨zeroTimeNanos⟩
  ArchivedAt : Option Time := none
  deriving DecidableEq, Repr

/-- Modelled from the spec: the constant `UserAccountStatus_Active`, declared
in a file that is not part of the sources at hand: the status `active`. -/
def UserAccountStatus_Active : String := "active"

/-- Modelled from the spec: the struct `UserAccountFindRequest`, declared in a
file that is not part of the sources at hand; the fields `findRequestQuery` and
`Find` read. -/
structure UserAccountFindRequest where
  Where : String := ""
  Args : List String := []
  Order : List String := []
  Limit : Option Nat := none
  Offset : Option Nat := none
  IncludeArchived : Bool := false
  deriving DecidableEq, Repr

/-- Modelled from the spec: the struct `UserAccountCreateRequest`, declared in
a file that is not part of the sources at hand; the fields `Create` reads. -/
structure UserAccountCreateRequest where
  UserID : String := ""
  AccountID : String := ""
  Roles : List String := []
  Status : Option String := none
  deriving DecidableEq, Repr

/-- Modelled from the spec: the struct `UserAccountReadRequest`, declared in a
file that is not part of the sources at hand; the fields `Read` reads. -/
structure UserAccountReadRequest where
  UserID : String := ""
  AccountID : String := ""
  IncludeArchived : Bool := false
  deriving DecidableEq, Repr

/-- Modelled from the spec: the struct `UserAccountUpdateRequest`, declared in
a file that is not part of the sources at hand; the fields `Update` and
`Create` use. `unArchive` is not exported: a caller outside the package leaves
it false. -/
structure UserAccountUpdateRequest where
  UserID : String := ""
  AccountID : String := ""
  Roles : Option (List String) := none
  Status : Option String := none
  unArchive : Bool := false
  deriving DecidableEq, Repr

/-- Modelled from the spec: the struct `UserAccountArchiveRequest`, declared in
a file that is not part of the sources at hand; the fields `Archive` reads. -/
structure UserAccountArchiveRequest where
  UserID : String := ""
  AccountID : String := ""
  deriving DecidableEq, Repr

/-- Modelled from the spec: the struct `UserAccountDeleteRequest`, declared in
a file that is not part of the sources at hand; the fields `Delete` reads. -/
structure UserAccountDeleteRequest where
  UserID : String := ""
  AccountID : String := ""
  deriving DecidableEq, Repr

/-- What the repository depends on and this file does not define: the checks of
package account, the validator's verdict on each request, the clock, and the
database's behaviour on a statement (its reading of caller text, the order of
`ORDER BY`, and whether the statement fails). -/
structure Env where
  /-- `account.CanReadAccount(ctx, claims, dbConn, accountID)` -/
  accountCanRead : auth.Claims → List Row → String → Option GoError
  /-- `account.CanModifyAccount(ctx, claims, dbConn, accountID)` -/
  accountCanModify : auth.Claims → List Row → String → Option GoError
  /-- `webcontext.Validator().Struct(req)` on a create request -/
  validateCreate : UserAccountCreateRequest → Option GoError
  /-- `webcontext.Validator().Struct(req)` on a read request -/
  validateRead : UserAccountReadRequest → Option GoError
  /-- `webcontext.Validator().Struct(req)` on an update request -/
  validateUpdate : UserAccountUpdateRequest → Option GoError
  /-- `webcontext.Validator().Struct(req)` on an archive request -/
  validateArchive : UserAccountArchiveRequest → Option GoError
  /-- `webcontext.Validator().Struct(req)` on a delete request -/
  validateDelete : UserAccountDeleteRequest → Option GoError
  /-- `time.Now()` -/
  timeNow : Time
  /-- the database's reading of a `WHERE` text of the caller with its arguments -/
  evalRaw : String → List String → Row → Bool
  /-- the rows in the order `ORDER BY cols` gives them -/
  orderBy : List String → List Row → List Row
  /-- ordering rearranges the rows and does nothing else -/
  orderBy_perm : ∀ cols rows, (orderBy cols rows).Perm rows
  /-- the error of `QueryContext` on a select, if it fails on the table as it is -/
  queryError : List Row → SelectBuilder → Option GoError
  /-- the error of `ExecContext` on a statement, if it fails on the table as it
  is (a constraint of the schema, a lost connection) -/
  execError : List Row → Stmt → Option GoError

/-- The function `mapRowsToUserAccount`: the seven columns of a row. -/
def mapRowsToUserAccount (r : Row) : UserAccount :=
  { UserID := r.user_id
    AccountID := r.account_id
    Roles := r.roles
    Status := r.status
    CreatedAt := r.created_at
    UpdatedAt := r.updated_at
    ArchivedAt := r.archived_at }

/-- The function `mapAccountError`. -/
def mapAccountError (err : Option GoError) : Option GoError :=
  match err with
  | none => none
  | some e =>
    if e.Cause = accountErrNotFound then some ErrNotFound
    else if e.Cause = accountErrForbidden then some ErrForbidden
    else some e

/-- The method `Repository.CanReadAccount`. -/
def CanReadAccount (env : Env) (db : DB) (claims : auth.Claims) (accountID : String) :
    Option GoError :=
  mapAccountError (env.accountCanRead claims db.rows accountID)

/-- The method `Repository.CanModifyAccount`. -/
def CanModifyAccount (env : Env) (db : DB) (claims : auth.Claims) (accountID : String) :
    Option GoError :=
  mapAccountError (env.accountCanModify claims db.rows accountID)

/-- The function `applyClaimsSelect`: the error and the query after the call. -/
def applyClaimsSelect (claims : auth.Claims) (query : SelectBuilder) :
    Option GoError × SelectBuilder :=
  if claims.Audience = "" ∧ claims.Subject = "" then (none, query)
  else
    let or1 : List Cond :=
      if claims.Audience ≠ "" then [Cond.equal "account_id" claims.Audience] else []
    let or2 : List Cond :=
      if claims.Subject ≠ "" then or1 ++ [Cond.equal "user_id" claims.Subject] else or1
    if or2.length > 0 then
      (none, query.Where [Cond.inSelect "id" "id" userAccountTableName [Cond.or or2]])
    else (none, query)

/-- The function `selectQuery`. -/
def selectQuery : SelectBuilder :=
  (({} : SelectBuilder).Select userAccountMapColumns).From userAccountTableName

/-- The function `findRequestQuery`. -/
def findRequestQuery (req : UserAccountFindRequest) : SelectBuilder × List String :=
  let query := selectQuery
  let query := if req.Where ≠ "" then query.Where [Cond.and [Cond.raw req.Where]] else query
  let query := if req.Order.length > 0 then query.OrderBy req.Order else query
  let query := match req.Limit with
    | some n => query.Limit (uintToInt n)
    | none => query
  let query := match req.Offset with
    | some n => query.Offset (uintToInt n)
    | none => query
  (query, req.Args)

/-- The effect of `LIMIT` and `OFFSET` on the rows in order: the builder writes
`LIMIT` when the limit is not negative, and `OFFSET` only together with
`LIMIT` and when the offset is not negative. -/
def limitRows (query : SelectBuilder) (sorted : List Row) : List Row :=
  if query.limit ≥ 0 then
    (if query.offset ≥ 0 then sorted.drop query.offset.toNat else sorted).take query.limit.toNat
  else sorted

/-- The rows a select returns: the rows of the table that satisfy the `WHERE`
clause, in the order of `ORDER BY`, cut by `LIMIT` and `OFFSET`. When a line
comment hides the rest of the statement there is no `ORDER BY` and no `LIMIT`. -/
def runSelect (env : Env) (rows : List Row) (query : SelectBuilder) (args : List String) :
    List Row :=
  let hit := (tableRows rows query.table).filter
    fun r => evalWhere env.evalRaw args rows query.whereExprs r
  if cutByComment query.whereExprs then env.orderBy [] hit
  else limitRows query (env.orderBy query.orderByCols hit)

/-- The rows after a statement that did not fail. -/
def applyStmt (env : Env) (rows : List Row) : Stmt → List Row
  | .select _ _ => rows
  | .insert row => rows ++ [row]
  | .update sets wheres =>
    rows.map fun r =>
      if evalAll env.evalRaw [] rows wheres r then
        sets.foldl (fun acc s => acc.assign s.1 s.2) r
      else r
  | .delete wheres => rows.filter fun r => !evalAll env.evalRaw [] rows wheres r

/-- The call `repo.DbConn.ExecContext`: the statement is logged; it fails with
the database's error and no effect, or takes effect. -/
def DB.exec (env : Env) (db : DB) (s : Stmt) : Option GoError × DB :=
  match env.execError db.rows s with
  | some err => (some err, { db with log := db.log ++ [s] })
  | none => (none, { rows := applyStmt env db.rows s, log := db.log ++ [s] })

/-- The error of the database for a statement it cannot read. -/
def pqSyntaxError : GoError := .errorf "pq: syntax error" []

/-- The function `find`. A statement whose `WHERE` clause the database cannot
read fails with its syntax error. -/
def find (env : Env) (claims : auth.Claims) (db : DB) (query : SelectBuilder)
    (args : List String) (includedArchived : Bool) : Except GoError (List UserAccount) × DB :=
  let query := (query.Select userAccountMapColumns).From userAccountTableName
  let query := if !includedArchived then query.Where [Cond.isNull "archived_at"] else query
  match applyClaimsSelect claims query with
  | (some err, _) => (.error err, db)
  | (none, query) =>
    let db : DB := { db with log := db.log ++ [Stmt.select query args] }
    if whereSyntaxOK query.whereExprs = false then
      (.error (.withMessage (pqSyntaxError.Wrap "query - %s") "find user accounts failed"), db)
    else
      match env.queryError db.rows query with
      | some err =>
        (.error (.withMessage (err.Wrap "query - %s") "find user accounts failed"), db)
      | none => (.ok ((runSelect env db.rows query args).map mapRowsToUserAccount), db)

/-- The condition `applyClaimsSelect` adds for Claims that are not empty:
`id IN (SELECT id FROM users_accounts WHERE (account_id = ? OR user_id = ?))`,
with the comparison of an empty Audience or Subject left out. -/
def aclCond (claims : auth.Claims) : Cond :=
  Cond.inSelect "id" "id" userAccountTableName
    [Cond.or ((if claims.Audience ≠ "" then [Cond.equal "account_id" claims.Audience] else [])
      ++ (if claims.Subject ≠ "" then [Cond.equal "user_id" claims.Subject] else []))]

/-- Whether a row matches the Claims: its account is the Audience, when there
is one, or its user is the Subject, when there is one. -/
def claimsMatch (claims : auth.Claims) (r : Row) : Bool :=
  decide ((claims.Audience ≠ "" ∧ r.account_id = claims.Audience)
    ∨ (claims.Subject ≠ "" ∧ r.user_id = claims.Subject))

/-- Whether `find` lets a row through, apart from the expressions of the
caller: the row is not archived unless archived rows are asked for, and the
Claims are empty or the condition of `applyClaimsSelect` holds of the row. -/
def findAdmits (env : Env) (claims : auth.Claims) (rows : List Row) (args : List String)
    (includedArchived : Bool) (r : Row) : Bool :=
  (includedArchived || r.archived_at.isNone)
    && (decide (claims.Audience = "" ∧ claims.Subject = "")
      || evalCond env.evalRaw args rows (aclCond claims) r)

/-- The rows `find` reads for a condition `base` of the caller: the rows of the
table that satisfy it and that `find` lets through, in the order of
`ORDER BY cols`. -/
def findRows (env : Env) (claims : auth.Claims) (rows : List Row) (args : List String)
    (base : Row → Bool) (includedArchived : Bool) (cols : List String) : List Row :=
  env.orderBy cols
    (rows.filter fun r => base r && findAdmits env claims rows args includedArchived r)

/-- The condition a find request puts on a row: none when its text is empty,
else the database's reading of the text in parentheses. -/
def findRequestBase (env : Env) (req : UserAccountFindRequest) (r : Row) : Bool :=
  decide (req.Where = "") || env.evalRaw ("(" ++ req.Where ++ ")") req.Args r

/-- The query `find` sends for the query, the Claims and the flag it is given. -/
def findQuery (claims : auth.Claims) (query : SelectBuilder) (includedArchived : Bool) :
    SelectBuilder :=
  { query with
    selectCols := userAccountMapColumns
    table := userAccountTableName
    whereExprs := query.whereExprs
      ++ (if includedArchived then [] else [Cond.isNull "archived_at"])
      ++ (if claims.Audience = "" ∧ claims.Subject = "" then [] else [aclCond claims]) }

/-- The method `Repository.Find`. -/
def Find (env : Env) (db : DB) (claims : auth.Claims) (req : UserAccountFindRequest) :
    Except GoError (List UserAccount) × DB :=
  find env claims db (findRequestQuery req).1 (findRequestQuery req).2 req.IncludeArchived

/-- The method `Repository.FindByUserID`. -/
def FindByUserID (env : Env) (db : DB) (claims : auth.Claims) (userID : String)
    (includedArchived : Bool) : Except GoError (List UserAccount) × DB :=
  let query := (({} : SelectBuilder).Where [Cond.equal "user_id" userID]).OrderBy ["created_at"]
  match find env claims db query [] includedArchived with
  | (.error err, db) => (.error err, db)
  | (.ok res, db) =>
    if res.length = 0 then
      (.error (.withMessage ErrNotFound "no accounts for user %s found"), db)
    else (.ok res, db)

/-- The method `Repository.Read`. -/
def Read (env : Env) (db : DB) (claims : auth.Claims) (req : UserAccountReadRequest) :
    Except GoError UserAccount × DB :=
  match env.validateRead req with
  | some err => (.error err, db)
  | none =>
    let query := selectQuery.Where
      [Cond.and [Cond.equal "user_id" req.UserID, Cond.equal "account_id" req.AccountID]]
    match find env claims db query [] req.IncludeArchived with
    | (.error err, db) => (.error err, db)
    | (.ok res, db) =>
      match res with
      | [] => (.error (.withMessage ErrNotFound "entry for user %s account %s not found"), db)
      | u :: _ => (.ok u, db)

/-- The time the writes store: the clock when `now` is the zero time, in UTC,
truncated to the millisecond. -/
def storedTime (env : Env) (now : Time) : Time :=
  ((if now.IsZero then env.timeNow else now).UTC).Truncate Millisecond

/-- The method `Repository.Update`. -/
def Update (env : Env) (db : DB) (claims : auth.Claims) (req : UserAccountUpdateRequest)
    (now : Time) : Option GoError × DB :=
  match env.validateUpdate req with
  | some err => (some err, db)
  | none =>
    match CanModifyAccount env db claims req.AccountID with
    | some err => (some err, db)
    | none =>
      let now := storedTime env now
      let fields : List (String × Value) := []
      let fields := match req.Roles with
        | some roles => fields ++ [("roles", Value.strings roles)]
        | none => fields
      let fields := match req.Status with
        | some status => fields ++ [("status", Value.text status)]
        | none => fields
      let fields := if req.unArchive then fields ++ [("archived_at", Value.null)] else fields
      if fields.length = 0 then (none, db)
      else
        let fields := fields ++ [("updated_at", Value.time now)]
        match db.exec env (Stmt.update fields
            [Cond.and [Cond.equal "user_id" req.UserID, Cond.equal "account_id" req.AccountID]]) with
        | (some err, db) =>
          (some (.withMessage (err.Wrap "query - %s") "update account %s for user %s failed"), db)
        | (none, db) => (none, db)

/-- The assignments `Update` collects from a request, before `updated_at` is
added: `roles`, `status` and the clearing of `archived_at`, each when asked for. -/
def updateFields (req : UserAccountUpdateRequest) : List (String × Value) :=
  (match req.Roles with
    | some roles => [("roles", Value.strings roles)]
    | none => [])
  ++ (match req.Status with
    | some status => [("status", Value.text status)]
    | none => [])
  ++ (if req.unArchive then [("archived_at", Value.null)] else [])

/-- The statement `Update` sends for a request with something to change, at
the stored time `t`. -/
def updateStmt (req : UserAccountUpdateRequest) (t : Time) : Stmt :=
  Stmt.update (updateFields req ++ [("updated_at", Value.time t)])
    [Cond.and [Cond.equal "user_id" req.UserID, Cond.equal "account_id" req.AccountID]]

/-- The update request `upReq` that `Create` builds over an existing
membership: the roles of the create request, and `unArchive` set. -/
def upReq (req : UserAccountCreateRequest) : UserAccountUpdateRequest :=
  { UserID := req.UserID, AccountID := req.AccountID, Roles := some req.Roles, unArchive := true }

/-- The query `existQuery` with which `Create` looks for a membership of the
user in the account. -/
def existQuery (req : UserAccountCreateRequest) : SelectBuilder :=
  selectQuery.Where
    [Cond.and [Cond.equal "account_id" req.AccountID, Cond.equal "user_id" req.UserID]]

/-- The row `Create` inserts for a request, with the id `uaID`, at the stored
time `t`. -/
def insertRow (uaID : String) (req : UserAccountCreateRequest) (t : Time) : Row :=
  { id := uaID, user_id := req.UserID, account_id := req.AccountID, roles := req.Roles,
    status := req.Status.getD UserAccountStatus_Active, created_at := t, updated_at := t,
    archived_at := none }

/-- The method `Repository.Create`; `uaID` is the string `uuid.NewRandom()`
gives when a row is inserted. -/
def Create (env : Env) (db : DB) (uaID : String) (claims : auth.Claims)
    (req : UserAccountCreateRequest) (now : Time) : Except GoError UserAccount × DB :=
  match env.validateCreate req with
  | some err => (.error err, db)
  | none =>
    match CanModifyAccount env db claims req.AccountID with
    | some err => (.error err, db)
    | none =>
      let now := storedTime env now
      let existQuery := selectQuery.Where
        [Cond.and [Cond.equal "account_id" req.AccountID, Cond.equal "user_id" req.UserID]]
      match find env claims db existQuery [] true with
      | (.error err, db) => (.error err, db)
      | (.ok existing, db) =>
        match existing with
        | first :: _ =>
          let upReq : UserAccountUpdateRequest :=
            { UserID := req.UserID, AccountID := req.AccountID, Roles := some req.Roles,
              unArchive := true }
          match Update env db claims upReq now with
          | (some err, db) => (.error err, db)
          | (none, db) =>
            (.ok { first with Roles := req.Roles, UpdatedAt := now, ArchivedAt := none }, db)
        | [] =>
          let ua : UserAccount :=
            { UserID := req.UserID, AccountID := req.AccountID, Roles := req.Roles,
              Status := UserAccountStatus_Active, CreatedAt := now, UpdatedAt := now }
          let ua : UserAccount := match req.Status with
            | some status => { ua with Status := status }
            | none => ua
          match db.exec env (Stmt.insert
              { id := uaID, user_id := ua.UserID, account_id := ua.AccountID, roles := ua.Roles,
                status := ua.Status, created_at := ua.CreatedAt, updated_at := ua.UpdatedAt,
                archived_at := none }) with
          | (some err, db) =>
            (.error (.withMessage (err.Wrap "query - %s") "add account %s to user %s failed"), db)
          | (none, db) => (.ok ua, db)

/-- The method `Repository.Archive`. -/
def Archive (env : Env) (db : DB) (claims : auth.Claims) (req : UserAccountArchiveRequest)
    (now : Time) : Option GoError × DB :=
  match env.validateArchive req with
  | some err => (some err, db)
  | none =>
    match CanModifyAccount env db claims req.AccountID with
    | some err => (some err, db)
    | none =>
      let now := storedTime env now
      match db.exec env (Stmt.update [("archived_at", Value.time now)]
          [Cond.and [Cond.equal "user_id" req.UserID, Cond.equal "account_id" req.AccountID]]) with
      | (some err, db) =>
        (some (.withMessage (err.Wrap "query - %s") "archive account %s from user %s failed"), db)
      | (none, db) => (none, db)

/-- The method `Repository.Delete`. -/
def Delete (env : Env) (db : DB) (claims : auth.Claims) (req : UserAccountDeleteRequest) :
    Option GoError × DB :=
  match env.validateDelete req with
  | some err => (some err, db)
  | none =>
    match CanModifyAccount env db claims req.AccountID with
    | some err => (some err, db)
    | none =>
      match db.exec env (Stmt.delete
          [Cond.and [Cond.equal "user_id" req.UserID, Cond.equal "account_id" req.AccountID]]) with
      | (some err, db) =>
        (some (.withMessage (err.Wrap "query - %s") "delete account %s for user %s failed"), db)
      | (none, db) => (none, db)

end user_account

namespace user_account

/-- The connection after a first `Create` of a membership and, when `between`
gives a time, an `Archive` of it at that time. -/
def createThenArchive (env : Env) (db : DB) (claims : auth.Claims)
    (req : UserAccountCreateRequest) (id1 : String) (now1 : Time) (between : Option Time) : DB :=
  match between with
  | none => (Create env db id1 claims req now1).2
  | some t =>
    (Archive env (Create env db id1 claims req now1).2 claims
      { UserID := req.UserID, AccountID := req.AccountID } t).2

/-- Two calls of `Create` for the same request in sequence, with an `Archive`
of the record in between when `between` gives its time: the result of the
second call. -/
def createTwice (env : Env) (db : DB) (claims : auth.Claims) (req : UserAccountCreateRequest)
    (id1 id2 : String) (now1 now2 : Time) (between : Option Time) :
    Except GoError UserAccount × DB :=
  Create env (createThenArchive env db claims req id1 now1 between) id2 claims req now2

/-- Whether a row is the membership of the user in the account. -/
def Row.isPair (userID accountID : String) (r : Row) : Bool :=
  decide (r.user_id = userID ∧ r.account_id = accountID)

end user_account

/-- A reading of condition texts for examples: without its parentheses and
spaces, `1=0` is false, `status=` followed by a string compares the status of
the row with the string, and every other condition is true. -/
def demoEvalRaw (text : String) (_args : List String) (r : user_account.Row) : Bool :=
  let t := text.data.filter fun c => !(c == '(' || c == ')' || c == ' ')
  if t = ['1', '=', '0'] then false
  else if t.take 7 = ['s', 't', 'a', 't', 'u', 's', '='] then
    t.drop 7 == sqlbuilder.apostrophe :: (r.status.data ++ [sqlbuilder.apostrophe])
  else true

/-- An environment for examples. The account checks let empty Claims through
and otherwise ask for the admin role and a membership of the account (its own
account, or a row of the subject); requests are valid when both ids have the
shape of a UUID; the database reads the conditions of a caller text with
`demoEvalRaw`, keeps the order of the table, and never fails. -/
def demoEnv : user_account.Env where
  accountCanRead := fun claims rows accountID =>
    if claims.Audience = "" then none
    else if claims.Audience = accountID
        ∨ rows.any (fun r => r.account_id == accountID && r.user_id == claims.Subject) then none
    else some (.withStack user_account.accountErrForbidden)
  accountCanModify := fun claims rows accountID =>
    if claims.Audience = "" then none
    else if (claims.Audience = accountID
        ∨ rows.any (fun r => r.account_id == accountID && r.user_id == claims.Subject))
        ∧ claims.HasRole [auth.RoleAdmin] then none
    else some (.withStack user_account.accountErrForbidden)
  validateCreate := fun req =>
    if validator.isUUID req.UserID ∧ validator.isUUID req.AccountID then none
    else some (.fieldErrors [⟨"UserID", "uuid"⟩])
  validateRead := fun req =>
    if validator.isUUID req.UserID ∧ validator.isUUID req.AccountID then none
    else some (.fieldErrors [⟨"UserID", "uuid"⟩])
  validateUpdate := fun req =>
    if validator.isUUID req.UserID ∧ validator.isUUID req.AccountID then none
    else some (.fieldErrors [⟨"UserID", "uuid"⟩])
  validateArchive := fun req =>
    if validator.isUUID req.UserID ∧ validator.isUUID req.AccountID then none
    else some (.fieldErrors [⟨"UserID", "uuid"⟩])
  validateDelete := fun req =>
    if validator.isUUID req.UserID ∧ validator.isUUID req.AccountID then none
    else some (.fieldErrors [⟨"UserID", "uuid"⟩])
  timeNow := ⟨1568050163000000000⟩
  evalRaw := demoEvalRaw
  orderBy := fun _ rows => rows
  orderBy_perm := fun _ rows => List.Perm.refl rows
  queryError := fun _ _ => none
  execError := fun _ _ => none

/-- A user id for examples. -/
def demoUser1 : String := "d69bdef7-173f-4d29-b52c-3edc60baf6a2"

/-- A second user id for examples. -/
def demoUser2 : String := "7e5a1d9f-0c2b-4b6e-9a3d-5f1c2e7b8a90"

/-- An account id for examples. -/
def demoAccountA : String := "c4653bf9-5978-48b7-89c5-95704aebb7e2"

/-- A second account id for examples. -/
def demoAccountB : String := "0b1c2d3e-4f5a-4b6c-8d7e-9f0a1b2c3d4e"

/-- A membership row for examples: the given id, user, account, status and
archive time, with the role `user`. -/
def demoRow (id user account status : String) (archived : Option Time) : user_account.Row :=
  { id := id, user_id := user, account_id := account, roles := [auth.RoleUser],
    status := status, created_at := ⟨1568000000000000000⟩, updated_at := ⟨1568000000000000000⟩,
    archived_at := archived }

/-- Claims for examples: the tenant scope is account A, the subject is user 1. -/
def demoClaims : auth.Claims := { Audience := demoAccountA, Subject := demoUser1 }

/-- A table for examples, of four memberships: user 1 in account A, user 2 in
account B, user 1 in account B, and, archived, user 2 in account A. -/
def demoTable : List user_account.Row :=
  [demoRow "m1" demoUser1 demoAccountA "active" none,
    demoRow "m2" demoUser2 demoAccountB "active" none,
    demoRow "m3" demoUser1 demoAccountB "active" none,
    demoRow "m4" demoUser2 demoAccountA "disabled" (some ⟨1568040000000000000⟩)]

/-! ## package account: the status of an account (models.go) -/

namespace validator

/-- The tag `oneof=...` on a string: the value is one of the words of the
parameter, which are separated by a space. -/
def isOneOf (param value : String) : Bool :=
  (strings.Split param ' ').contains value

/-- The call `validate.Var(s, "required,oneof=<param>")` on a string: the
tags run in order on the one unnamed field. -/
def VarRequiredOneOf (param value : String) : Option GoError :=
  match checkField "" [("required", decide (value ≠ "")), ("oneof", isOneOf param value)] with
  | [] => none
  | es => some (.fieldErrors es)

end validator

namespace account

/-- The type `AccountStatus`, a string. -/
abbrev AccountStatus : Type := String

/-- The constant `AccountStatus_Active`. -/
def AccountStatus_Active : AccountStatus := "active"

/-- The constant `AccountStatus_Pending`. -/
def AccountStatus_Pending : AccountStatus := "pending"

/-- The constant `AccountStatus_Disabled`. -/
def AccountStatus_Disabled : AccountStatus := "disabled"

/-- The variable `AccountStatus_Values`. -/
def AccountStatus_Values : List AccountStatus :=
  [AccountStatus_Active, AccountStatus_Pending, AccountStatus_Disabled]

/-- The method `AccountStatus.Value`: the string to store, or the error of the
validator. -/
def AccountStatus.Value (s : AccountStatus) : Except GoError String :=
  match validator.VarRequiredOneOf "active invited disabled" s with
  | some errs => .error errs
  | none => .ok s

end account

/-! ## package geonames: country_timezones.go -/

namespace geonames

/-- The struct `CountryTimezone`, with the two columns the query scans. -/
structure CountryTimezone where
  CountryCode : String := ""
  TimezoneId : String := ""
  deriving DecidableEq, Repr

/-- The database behind `repo.DbConn`, for the table `country_timezones`: the
rows a select with the given `ORDER BY` and `WHERE` texts and arguments
returns, already scanned, or the error of the query. -/
structure Store where
  queryContext : String → String → List String → Except GoError (List CountryTimezone)

/-- The method `Repository.FindCountryTimezones`: rows with an empty country
code or an empty timezone id are skipped. -/
def FindCountryTimezones (st : Store) (orderBy where_ : String) (args : List String) :
    Except GoError (List CountryTimezone) :=
  let orderBy := if orderBy = "" then "timezone_id" else orderBy
  match st.queryContext orderBy where_ args with
  | .error err =>
    .error (.withMessage (err.Wrap "query - %s") "find country timezones failed")
  | .ok rows =>
    .ok (rows.filter fun v => !(v.CountryCode == "" || v.TimezoneId == ""))

/-- One turn of the outer loop of `ListTimezones`: the inner loop looks for the
timezone id in `resp`, and the id is appended when it is not there. -/
def appendTimezone (resp : List String) (ct : CountryTimezone) : List String :=
  let exists_ := resp.any fun t => ct.TimezoneId == t
  if !exists_ then resp ++ [ct.TimezoneId] else resp

/-- The method `Repository.ListTimezones`. -/
def ListTimezones (st : Store) : Except GoError (List String) :=
  match FindCountryTimezones st "timezone_id" "" [] with
  | .error err => .error err
  | .ok res => .ok (res.foldl appendTimezone [])

end geonames

/-! ## package webcontext: context.go -/

namespace webcontext

/-- The type `Env`, a string. -/
abbrev Env : Type := String

/-- The struct `Values`. -/
structure Values where
  Now : Time := ⟨zeroTimeNanos⟩
  TraceID : Nat := 0
  SpanID : Nat := 0
  StatusCode : Int := 0
  Env : Env := ""
  RequestIP : String := ""
  deriving DecidableEq, Repr

/-- The variable `ErrContextRequired`. -/
def ErrContextRequired : GoError := .sentinel "webcontext.ErrContextRequired"

/-- What `ctx.Value(key)` returns, an `interface{}`: the nil interface when the
context holds nothing for the key, a `*Values` (a pointer, which may be nil),
or a value of another type. -/
inductive Iface where
  | nil
  | valuesPtr (p : Option Values)
  | other (typeName : String)
  deriving DecidableEq, Repr

/-- A `context.Context`, by what it holds for the key `KeyValues`. -/
structure Context where
  keyValues : Iface

/-- The context `context.Background()`, which holds no value. -/
def Background : Context := ⟨.nil⟩

/-- The context `context.WithValue(parent, KeyValues, v)`. -/
def WithValues (_parent : Context) (v : Option Values) : Context := ⟨.valuesPtr v⟩

/-- How a call of a Go function ends: it returns, or a run-time panic unwinds it. -/
inductive Run (α : Type) where
  | returns (a : α)
  | panics (msg : String)
  deriving DecidableEq, Repr

/-- The function `ContextValues`: the assertion in the form `v, ok := x.(T)`
does not fail; without a `*Values` it gives a pointer to fresh zero Values and
the error. -/
def ContextValues (ctx : Context) : Option Values × Option GoError :=
  match ctx.keyValues with
  | .valuesPtr v => (v, none)
  | _ => (some {}, some ErrContextRequired)

/-- The function `ContextEnv`: the assertion in the form `x.(T)` is a run-time
panic when `x` is not a `*Values`, the nil interface included. -/
def ContextEnv (ctx : Context) : Run String :=
  match ctx.keyValues with
  | .valuesPtr cv =>
    (match cv with
     | some v => .returns v.Env
     | none => .returns "")
  | .nil => .panics "interface conversion: interface {} is nil, not *webcontext.Values"
  | .other typeName =>
    .panics ("interface conversion: interface {} is " ++ typeName ++ ", not *webcontext.Values")

end webcontext

/-- A store of country timezones for examples: five rows, ordered by timezone
id, one of them with no country code. -/
def geonames.demoStore : geonames.Store :=
  ⟨fun _ _ _ => .ok [⟨"US", "America/Anchorage"⟩, ⟨"US", "America/Chicago"⟩,
    ⟨"CA", "America/Chicago"⟩, ⟨"", "Europe/Paris"⟩, ⟨"FR", "Europe/Paris"⟩]⟩

/-! ## theorems: Claims -/

namespace auth

theorem checkRoles_eq_none_iff (rs : List String) :
    checkRoles rs = none ↔ ∀ r ∈ rs, r = RoleAdmin ∨ r = RoleUser := by
  induction rs with
  | nil => simp [checkRoles]
  | cons r rs ih =>
    by_cases h : r = RoleAdmin ∨ r = RoleUser
    · simp [checkRoles, h, ih]
    · simp only [checkRoles, if_neg h, List.mem_cons, forall_eq_or_imp]
      constructor
      · intro h2; cases h2
      · intro h2; exact absurd h2.1 h

theorem Claims.valid_eq_none_iff (c : Claims) (now : Int) :
    c.Valid now = none ↔
      checkRoles c.Roles = none ∧ c.toStandardClaims.Valid now = none := by
  unfold Claims.Valid
  cases h1 : checkRoles c.Roles with
  | some e => simp
  | none =>
    cases h2 : c.toStandardClaims.Valid now with
    | some e => simp
    | none => simp

end auth

namespace jwt

theorem StandardClaims.valid_nil_iff_window (c : StandardClaims) (now : Int) :
    c.Valid now = none ↔
      (c.ExpiresAt = 0 ∨ now ≤ c.ExpiresAt) ∧ (c.IssuedAt = 0 ∨ c.IssuedAt ≤ now)
        ∧ (c.NotBefore = 0 ∨ c.NotBefore ≤ now) := by
  unfold StandardClaims.Valid verifyExp verifyIat verifyNbf ValidationError.valid
  by_cases h1 : c.ExpiresAt = 0 <;> by_cases h2 : c.IssuedAt = 0 <;>
    by_cases h3 : c.NotBefore = 0 <;> by_cases h4 : now ≤ c.ExpiresAt <;>
    by_cases h5 : c.IssuedAt ≤ now <;> by_cases h6 : c.NotBefore ≤ now <;>
    simp [h1, h2, h3, h4, h5, h6, ValidationErrorExpired, ValidationErrorIssuedAt,
      ValidationErrorNotValidYet]

end jwt

namespace auth

/-- C1. `Claims.Valid` returns nil exactly when every role is `admin` or `user`
and the standard time-window check of the embedded `StandardClaims` passes; a
role outside the two makes it fail at every clock reading. -/
theorem Claims.valid_nil_iff_roles_and_window (c : Claims) (now : Int) :
    (c.Valid now = none ↔
        (∀ r ∈ c.Roles, r = RoleAdmin ∨ r = RoleUser) ∧ c.toStandardClaims.Valid now = none)
      ∧ ((∃ r ∈ c.Roles, r ≠ RoleAdmin ∧ r ≠ RoleUser) → c.Valid now ≠ none) := by
  have key := Claims.valid_eq_none_iff c now
  rw [checkRoles_eq_none_iff] at key
  refine ⟨key, ?_⟩
  rintro ⟨r, hr, hne⟩ hv
  rcases (key.mp hv).1 r hr with h | h
  · exact hne.1 h
  · exact hne.2 h

end auth

namespace auth

/-- C2, as stated, fails: with roles inside the enumeration, a Claims whose
`ExpiresAt` equals the clock reading is accepted, and so is one whose
`ExpiresAt` is unset (0) however late the clock reading is. -/
theorem Claims.valid_expiresAt_not_strict :
    ({ Roles := [RoleAdmin], ExpiresAt := 100 } : Claims).Valid 100 = none
      ∧ ({ Roles := [RoleUser], ExpiresAt := 0 } : Claims).Valid 100 = none := by
  decide

/-- C2, amended. For Claims whose roles are all `admin` or `user`, `Valid` at the
clock reading `t` returns nil exactly when each of `ExpiresAt`, `IssuedAt`,
`NotBefore` is unset (0) or in order with `t` (`t ≤ ExpiresAt`, `IssuedAt ≤ t`,
`NotBefore ≤ t`). So a set `ExpiresAt` strictly before `t` is an error, and a
set `IssuedAt` later than `t` is an error. -/
theorem Claims.valid_window (c : Claims) (t : Int)
    (hroles : ∀ r ∈ c.Roles, r = RoleAdmin ∨ r = RoleUser) :
    (c.Valid t = none ↔
        (c.ExpiresAt = 0 ∨ t ≤ c.ExpiresAt) ∧ (c.IssuedAt = 0 ∨ c.IssuedAt ≤ t)
          ∧ (c.NotBefore = 0 ∨ c.NotBefore ≤ t))
      ∧ (c.ExpiresAt ≠ 0 → c.ExpiresAt < t → c.Valid t ≠ none)
      ∧ (c.IssuedAt ≠ 0 → t < c.IssuedAt → c.Valid t ≠ none) := by
  have key : c.Valid t = none ↔
      (c.ExpiresAt = 0 ∨ t ≤ c.ExpiresAt) ∧ (c.IssuedAt = 0 ∨ c.IssuedAt ≤ t)
        ∧ (c.NotBefore = 0 ∨ c.NotBefore ≤ t) := by
    rw [Claims.valid_eq_none_iff, jwt.StandardClaims.valid_nil_iff_window]
    simp [(checkRoles_eq_none_iff c.Roles).mpr hroles]
  refine ⟨key, ?_, ?_⟩
  · intro h0 hlt hv
    rcases (key.mp hv).1 with h | h
    · exact h0 h
    · omega
  · intro h0 hlt hv
    rcases (key.mp hv).2.1 with h | h
    · exact h0 h
    · omega

/-- The amended C2 at a concrete Claims: expired one second ago, and issued one
second in the future. -/
theorem Claims.valid_window_witness :
    ({ Roles := [RoleAdmin], ExpiresAt := 99, IssuedAt := 101 } : Claims).Valid 100 ≠ none :=
  (Claims.valid_window { Roles := [RoleAdmin], ExpiresAt := 99, IssuedAt := 101 } 100
    (by decide)).2.1 (by decide) (by decide)

/-- C4. `HasRole` is true exactly when some role of the Claims is among the
candidates; it is false for Claims without roles and for an empty candidate list. -/
theorem Claims.hasRole_iff_inter (c : Claims) (candidates : List String) :
    (c.HasRole candidates = true ↔ ∃ r, r ∈ c.Roles ∧ r ∈ candidates)
      ∧ ({ c with Roles := [] } : Claims).HasRole candidates = false
      ∧ c.HasRole [] = false := by
  refine ⟨?_, ?_, ?_⟩
  · simp only [Claims.HasRole, List.any_eq_true, beq_iff_eq]
    constructor
    · rintro ⟨has, hh, want, hw, rfl⟩
      exact ⟨has, hh, hw⟩
    · rintro ⟨r, hr, hc⟩
      exact ⟨r, hr, r, hc, rfl⟩
  · simp [Claims.HasRole]
  · simp [Claims.HasRole]

/-- C5. `HasAuth` is true exactly when the subject is not the empty string; the
zero Claims have `HasAuth` false. -/
theorem Claims.hasAuth_iff_subject (c : Claims) :
    (c.HasAuth = true ↔ c.Subject ≠ "") ∧ ({} : Claims).HasAuth = false := by
  refine ⟨?_, by decide⟩
  unfold Claims.HasAuth
  by_cases h : c.Subject = "" <;> simp [h]

/-- C6. `NewClaims` stamps `IssuedAt` with `now.Unix()` and `ExpiresAt` with
`now.Add(ttl).Unix()`, sets `RootUserID` and `Subject` to the user,
`RootAccountID` and `Audience` to the account, and copies the account ids, the
roles and the preferences as given, whatever the roles are. -/
theorem NewClaims_fields (userID accountID : String) (accountIDs roles : List String)
    (prefs : ClaimPreferences) (now : Time) (ttl : Duration) :
    let c := NewClaims userID accountID accountIDs roles prefs now ttl
    c.IssuedAt = now.Unix ∧ c.ExpiresAt = (now.Add ttl).Unix
      ∧ c.RootUserID = userID ∧ c.Subject = userID
      ∧ c.RootAccountID = accountID ∧ c.Audience = accountID
      ∧ c.AccountIDs = accountIDs ∧ c.Roles = roles ∧ c.Preferences = prefs
      ∧ c.NotBefore = 0 ∧ c.Id = "" ∧ c.Issuer = "" :=
  ⟨rfl, rfl, rfl, rfl, rfl, rfl, rfl, rfl, rfl, rfl, rfl, rfl⟩

end auth

namespace jwt

theorem StandardClaims.valid_expired_only (c : StandardClaims) (now : Int)
    (h0 : c.ExpiresAt ≠ 0) (hlt : c.ExpiresAt < now)
    (hiat : c.IssuedAt = 0 ∨ c.IssuedAt ≤ now) (hnbf : c.NotBefore = 0 ∨ c.NotBefore ≤ now) :
    c.Valid now = some ⟨.expiredBy (now - c.ExpiresAt), ValidationErrorExpired⟩ := by
  have h1 : ¬ now ≤ c.ExpiresAt := by omega
  unfold StandardClaims.Valid verifyExp verifyIat verifyNbf ValidationError.valid
  by_cases h2 : c.IssuedAt = 0 <;> by_cases h3 : c.NotBefore = 0 <;>
    by_cases h5 : c.IssuedAt ≤ now <;> by_cases h6 : c.NotBefore ≤ now <;>
    first
      | (exfalso; omega)
      | simp [h0, h1, h2, h3, h5, h6, ValidationErrorExpired]

end jwt

namespace auth

/-- C3, as stated, fails: Claims minted one second before the Unix epoch with a
ttl of one second have `ExpiresAt = 0`, which the claim check reads as unset, so
the token still parses one second after `now + ttl`. -/
theorem token_round_trip_never_expires :
    ParseClaims (demoCodec (NewClaims "u" "a" ["a"] [RoleAdmin] {} ⟨-1000000000⟩ Second))
        "token" ((Time.Add (Time.Add ⟨-1000000000⟩ Second) Second).Unix)
      = .ok (NewClaims "u" "a" ["a"] [RoleAdmin] {} ⟨-1000000000⟩ Second) := by
  decide

/-- C3, amended. For Claims `c` minted by `NewClaims` with roles inside the
enumeration and `ttl` of at least one second, and a codec that decodes the token
of `c` to `c`: `GenerateToken` gives a token, `ParseClaims` of it at
`now + ttl - 1s` gives `c` back, and, when `(now + ttl).Unix()` is not 0,
`ParseClaims` at `now + ttl + 1s` fails with the token-expired error. -/
theorem token_round_trip (K : TokenCodec) (userID accountID : String)
    (accountIDs roles : List String) (prefs : ClaimPreferences) (now : Time) (ttl : Duration)
    (hroles : ∀ r ∈ roles, r = RoleAdmin ∨ r = RoleUser) (httl : Second ≤ ttl)
    (hK : K.decode (K.encode (NewClaims userID accountID accountIDs roles prefs now ttl))
      = .ok (NewClaims userID accountID accountIDs roles prefs now ttl)) :
    GenerateToken K (NewClaims userID accountID accountIDs roles prefs now ttl)
        = .ok (K.encode (NewClaims userID accountID accountIDs roles prefs now ttl))
      ∧ ParseClaims K (K.encode (NewClaims userID accountID accountIDs roles prefs now ttl))
          ((now.Add ttl).Add (-Second)).Unix
        = .ok (NewClaims userID accountID accountIDs roles prefs now ttl)
      ∧ ((now.Add ttl).Unix ≠ 0 →
          ParseClaims K (K.encode (NewClaims userID accountID accountIDs roles prefs now ttl))
            ((now.Add ttl).Add Second).Unix
          = .error ErrTokenExpired) := by
  have hr : checkRoles (NewClaims userID accountID accountIDs roles prefs now ttl).Roles = none :=
    (checkRoles_eq_none_iff _).mpr hroles
  have httl2 : (1000000000 : Int) ≤ ttl := httl
  refine ⟨?_, ?_, ?_⟩
  · simp only [GenerateToken, hr]
  · have hv : (NewClaims userID accountID accountIDs roles prefs now ttl).Valid
        ((now.Add ttl).Add (-Second)).Unix = none := by
      rw [Claims.valid_eq_none_iff, jwt.StandardClaims.valid_nil_iff_window]
      refine ⟨hr, ?_, ?_, Or.inl rfl⟩
      · right
        show (now.nanos + ttl + -1000000000) / 1000000000 ≤ (now.nanos + ttl) / 1000000000
        omega
      · right
        show now.nanos / 1000000000 ≤ (now.nanos + ttl + -1000000000) / 1000000000
        omega
    simp only [ParseClaims, hK, hv]
  · intro hexp
    have hexp2 : (now.nanos + ttl) / 1000000000 ≠ 0 := hexp
    have hs := jwt.StandardClaims.valid_expired_only
      (NewClaims userID accountID accountIDs roles prefs now ttl).toStandardClaims
      ((now.Add ttl).Add Second).Unix hexp
      (by
        show (now.nanos + ttl) / 1000000000 < (now.nanos + ttl + 1000000000) / 1000000000
        omega)
      (by
        right
        show now.nanos / 1000000000 ≤ (now.nanos + ttl + 1000000000) / 1000000000
        omega)
      (Or.inl rfl)
    have hv : (NewClaims userID accountID accountIDs roles prefs now ttl).Valid
        ((now.Add ttl).Add Second).Unix
        = some ((GoError.jwtValidation
            ⟨.expiredBy (((now.Add ttl).Add Second).Unix - (now.Add ttl).Unix),
              jwt.ValidationErrorExpired⟩).Wrap "validating standard claims") := by
      simp only [Claims.Valid, hr, hs]
      rfl
    have he : isExpiredError ((GoError.jwtValidation
        ⟨.expiredBy (((now.Add ttl).Add Second).Unix - (now.Add ttl).Unix),
          jwt.ValidationErrorExpired⟩).Wrap "validating standard claims") = true := by
      simp only [isExpiredError, GoError.Wrap, GoError.Cause]
      decide
    simp only [ParseClaims, hK, hv, he, if_true]

/-- The amended C3 at concrete Claims: minted at second 1568050163 with a ttl of
one hour. -/
theorem token_round_trip_witness :
    ParseClaims (demoCodec (NewClaims "u" "a" ["a"] [RoleAdmin] {} ⟨1568050163000000000⟩ Hour))
        "token" ((Time.Add (Time.Add ⟨1568050163000000000⟩ Hour) (-Second)).Unix)
      = .ok (NewClaims "u" "a" ["a"] [RoleAdmin] {} ⟨1568050163000000000⟩ Hour)
    ∧ ParseClaims (demoCodec (NewClaims "u" "a" ["a"] [RoleAdmin] {} ⟨1568050163000000000⟩ Hour))
        "token" ((Time.Add (Time.Add ⟨1568050163000000000⟩ Hour) Second).Unix)
      = .error ErrTokenExpired :=
  have h := token_round_trip
    (demoCodec (NewClaims "u" "a" ["a"] [RoleAdmin] {} ⟨1568050163000000000⟩ Hour))
    "u" "a" ["a"] [RoleAdmin] {} ⟨1568050163000000000⟩ Hour (by decide) (by decide) (by decide)
  ⟨h.2.1, h.2.2 (by decide)⟩

end auth


/-! ## theorems: the library routines -/

namespace strconv

theorem digitChar_facts : ∀ m, m < 10 →
    ('0' ≤ digitChar m ∧ digitChar m ≤ '9') ∧ (digitChar m).toNat - 48 = m
      ∧ digitChar m ≠ '|' ∧ digitChar m ≠ '-' ∧ digitChar m ≠ '+' := by
  decide

theorem formatDigits_acc (fuel : Nat) : ∀ (n : Nat) (acc : List Char),
    formatDigits fuel n acc = formatDigits fuel n [] ++ acc := by
  induction fuel with
  | zero => intro n acc; simp [formatDigits]
  | succ fuel ih =>
    intro n acc
    by_cases h : n < 10
    · simp [formatDigits, h]
    · simp only [formatDigits, if_neg h]
      rw [ih (n / 10) (digitChar (n % 10) :: acc), ih (n / 10) [digitChar (n % 10)]]
      simp

theorem parseDigits_digitChar (m : Nat) (hm : m < 10) (cs : List Char) (k : Nat) :
    parseDigits (digitChar m :: cs) k = parseDigits cs (k * 10 + m) := by
  have h := digitChar_facts m hm
  simp only [parseDigits, h.1, and_self, if_true, h.2.1]

/-- Reading back the digits `formatDigits` wrote: with enough fuel, the digits of
`n` in front of `cs` parse to `k * p + n` for a power `p` of ten above `n`. -/
theorem parseDigits_formatDigits (fuel : Nat) : ∀ n, n < fuel →
    ∃ p, n < p ∧ ∀ (k : Nat) (cs : List Char),
      parseDigits (formatDigits fuel n [] ++ cs) k = parseDigits cs (k * p + n) := by
  induction fuel with
  | zero => intro n h; omega
  | succ fuel ih =>
    intro n hn
    by_cases h : n < 10
    · refine ⟨10, h, fun k cs => ?_⟩
      simp only [formatDigits, if_pos h, List.singleton_append, List.cons_append, List.nil_append]
      exact parseDigits_digitChar n h cs k
    · obtain ⟨p, hp, hrec⟩ := ih (n / 10) (by omega)
      refine ⟨p * 10, by omega, fun k cs => ?_⟩
      simp only [formatDigits, if_neg h]
      rw [formatDigits_acc, List.append_assoc, hrec, List.singleton_append,
        parseDigits_digitChar _ (Nat.mod_lt _ (by decide))]
      congr 1
      have := Nat.div_add_mod n 10
      nlinarith [Nat.div_add_mod n 10]

theorem formatDigits_head (fuel n : Nat) (hn : n < fuel) :
    ∃ d cs, d < 10 ∧ formatDigits fuel n [] = digitChar d :: cs := by
  induction fuel generalizing n with
  | zero => omega
  | succ fuel ih =>
    by_cases h : n < 10
    · exact ⟨n, [], h, by simp [formatDigits, h]⟩
    · obtain ⟨d, cs, hd, hcs⟩ := ih (n / 10) (by omega)
      refine ⟨d, cs ++ [digitChar (n % 10)], hd, ?_⟩
      simp only [formatDigits, if_neg h]
      rw [formatDigits_acc, hcs]
      simp

theorem formatDigits_no_bar (fuel : Nat) : ∀ n, '|' ∉ formatDigits fuel n [] := by
  induction fuel with
  | zero => intro n; simp [formatDigits]
  | succ fuel ih =>
    intro n
    by_cases h : n < 10
    · simp only [formatDigits, if_pos h, List.mem_singleton]
      exact fun hc => (digitChar_facts n h).2.2.1 hc.symm
    · simp only [formatDigits, if_neg h]
      rw [formatDigits_acc]
      simp only [List.mem_append, List.mem_singleton, not_or]
      exact ⟨ih _, fun hc => (digitChar_facts _ (Nat.mod_lt n (by decide))).2.2.1 hc.symm⟩

theorem Itoa_no_bar (i : Int) : '|' ∉ (Itoa i).data := by
  unfold Itoa
  by_cases h : i < 0
  · simp only [if_pos h, List.mem_cons, not_or]
    exact ⟨by decide, formatDigits_no_bar _ _⟩
  · simp only [if_neg h]
    exact formatDigits_no_bar _ _

end strconv
namespace strconv

theorem parseDigits_eq_some (cs : List Char) : ∀ (k v : Nat), parseDigits cs k = some v →
    (cs.all fun c => decide ('0' ≤ c ∧ c ≤ '9')) = true
      ∧ v = k * 10 ^ cs.length + Nat.ofDigits 10 (cs.reverse.map fun c => c.toNat - 48) := by
  induction cs with
  | nil =>
    intro k v h
    simp only [parseDigits, Option.some.injEq] at h
    simp [h]
  | cons c cs ih =>
    intro k v h
    by_cases hd : '0' ≤ c ∧ c ≤ '9'
    · simp only [parseDigits, if_pos hd] at h
      obtain ⟨h1, h2⟩ := ih _ _ h
      refine ⟨by rw [List.all_cons, h1]; simp [hd], ?_⟩
      rw [h2, List.reverse_cons, List.map_append, Nat.ofDigits_append, List.map_singleton,
        Nat.ofDigits_singleton, List.length_map, List.length_reverse, List.length_cons]
      ring
    · simp [parseDigits, hd] at h

end strconv
namespace strconv

theorem parseDigits_le (cs : List Char) : ∀ (k v : Nat), parseDigits cs k = some v → k ≤ v := by
  induction cs with
  | nil =>
    intro k v h
    simp only [parseDigits, Option.some.injEq] at h
    omega
  | cons c cs ih =>
    intro k v h
    by_cases hd : '0' ≤ c ∧ c ≤ '9'
    · simp only [parseDigits, if_pos hd] at h
      have := ih _ _ h
      omega
    · simp [parseDigits, hd] at h

theorem parseDigits_prefixValue (cs : List Char) : ∀ (k v : Nat), parseDigits cs k = some v →
    prefixValue cs k = v := by
  induction cs with
  | nil =>
    intro k v h
    simpa [parseDigits, prefixValue] using h
  | cons c cs ih =>
    intro k v h
    by_cases hd : '0' ≤ c ∧ c ≤ '9'
    · simp only [parseDigits, if_pos hd] at h
      simp only [prefixValue, if_pos hd]
      exact ih _ _ h
    · simp [parseDigits, hd] at h

theorem prefixValue_ge (cs : List Char) : ∀ k : Nat, k ≤ prefixValue cs k := by
  induction cs with
  | nil => intro k; simp [prefixValue]
  | cons c cs ih =>
    intro k
    by_cases hd : '0' ≤ c ∧ c ≤ '9'
    · simp only [prefixValue, if_pos hd]
      have := ih (k * 10 + (c.toNat - 48))
      omega
    · simp [prefixValue, hd]

/-- The three ways the loop of `ParseUint` ends: with the number all the digits
denote, with a syntax error, or with a range error at digits that already
denote more than the largest `uint64`. -/
theorem parseUintLoop_cases (cs : List Char) : ∀ k : Nat,
    (∃ v, parseUintLoop cs k = (v, none) ∧ parseDigits cs k = some v ∧ v ≤ maxUint64)
      ∨ parseUintLoop cs k = (0, some ErrSyntax)
      ∨ (parseUintLoop cs k = (maxUint64, some ErrRange) ∧ prefixValue cs k > maxUint64)
      ∨ k > maxUint64 := by
  induction cs with
  | nil =>
    intro k
    by_cases hk : k ≤ maxUint64
    · exact Or.inl ⟨k, rfl, rfl, hk⟩
    · exact Or.inr (Or.inr (Or.inr (by omega)))
  | cons c cs ih =>
    intro k
    by_cases hd : '0' ≤ c ∧ c ≤ '9'
    · by_cases h1 : k ≥ maxUint64 / 10 + 1
      · refine Or.inr (Or.inr (Or.inl ⟨by simp only [parseUintLoop, if_pos hd, if_pos h1], ?_⟩))
        simp only [prefixValue, if_pos hd]
        have := prefixValue_ge cs (k * 10 + (c.toNat - 48))
        unfold maxUint64 at *
        omega
      · by_cases h2 : k * 10 + (c.toNat - 48) > maxUint64
        · refine Or.inr (Or.inr (Or.inl
            ⟨by simp only [parseUintLoop, if_pos hd, if_neg h1, if_pos h2], ?_⟩))
          simp only [prefixValue, if_pos hd]
          have := prefixValue_ge cs (k * 10 + (c.toNat - 48))
          omega
        · have hstep : parseUintLoop (c :: cs) k = parseUintLoop cs (k * 10 + (c.toNat - 48)) := by
            simp only [parseUintLoop, if_pos hd, if_neg h1, if_neg h2]
          rw [hstep]
          simp only [parseDigits, prefixValue, if_pos hd]
          rcases ih (k * 10 + (c.toNat - 48)) with h | h | h | h
          · exact Or.inl h
          · exact Or.inr (Or.inl h)
          · exact Or.inr (Or.inr (Or.inl h))
          · exact absurd h h2
    · exact Or.inr (Or.inl (by simp only [parseUintLoop, if_neg hd]))

/-- Digits that denote a number a `uint64` can hold are read by the loop of
`ParseUint` as that number. -/
theorem parseUintLoop_of_parseDigits (cs : List Char) : ∀ (k v : Nat),
    parseDigits cs k = some v → v ≤ maxUint64 → parseUintLoop cs k = (v, none) := by
  induction cs with
  | nil =>
    intro k v h _
    simp only [parseDigits, Option.some.injEq] at h
    simp [parseUintLoop, h]
  | cons c cs ih =>
    intro k v h hv
    by_cases hd : '0' ≤ c ∧ c ≤ '9'
    · simp only [parseDigits, if_pos hd] at h
      have hle := parseDigits_le _ _ _ h
      have h1 : ¬ k ≥ maxUint64 / 10 + 1 := by
        unfold maxUint64 at *
        omega
      have h2 : ¬ k * 10 + (c.toNat - 48) > maxUint64 := by omega
      simp only [parseUintLoop, if_pos hd, if_neg h1, if_neg h2]
      exact ih _ _ h hv
    · simp [parseDigits, hd] at h

end strconv
namespace strconv

theorem ParseUint_of_parseDigits (body : List Char) (un : Nat) (hne : body ≠ [])
    (hp : parseDigits body 0 = some un) (hle : un ≤ maxUint64) :
    ParseUint body = (un, none) := by
  cases body with
  | nil => exact absurd rfl hne
  | cons a l =>
    simp only [ParseUint, List.isEmpty_cons, Bool.false_eq_true, if_false]
    exact parseUintLoop_of_parseDigits _ _ _ hp hle

/-- The result of `Atoi` on a sign and digits that denote a number in range,
whichever of its two paths the length of the string selects. -/
theorem Atoi_digits (s : String) (c : Char) (cs : List Char) (un : Nat) (hs : s.data = c :: cs)
    (hne : (if c = '-' ∨ c = '+' then cs else c :: cs) ≠ [])
    (hp : parseDigits (if c = '-' ∨ c = '+' then cs else c :: cs) 0 = some un)
    (hfit : if c = '-' then un ≤ 9223372036854775808 else un ≤ 9223372036854775807) :
    Atoi s = (if c = '-' then -(un : Int) else (un : Int), none) := by
  have hbody : (if c = '+' ∨ c = '-' then cs else c :: cs)
      = (if c = '-' ∨ c = '+' then cs else c :: cs) := by
    by_cases h1 : c = '-' <;> by_cases h2 : c = '+' <;> simp [h1, h2]
  by_cases hfast : 0 < s.utf8ByteSize ∧ s.utf8ByteSize < 19
  · have hlen : ¬ (if c = '-' ∨ c = '+' then cs else c :: cs).length < 1 := by
      cases hb : (if c = '-' ∨ c = '+' then cs else c :: cs) with
      | nil => exact absurd hb hne
      | cons a l => simp
    simp only [Atoi, if_pos hfast, hs, if_neg hlen, hp]
  · have hle : un ≤ maxUint64 := by
      unfold maxUint64
      by_cases hc : c = '-'
      · rw [if_pos hc] at hfit; omega
      · rw [if_neg hc] at hfit; omega
    have hpu := ParseUint_of_parseDigits _ un hne hp hle
    simp only [Atoi, if_neg hfast, ParseInt, hs, hbody, hpu, Option.isSome_none,
      Bool.false_eq_true, false_and, if_false]
    by_cases hc : c = '-'
    · subst hc
      rw [if_pos rfl] at hfit
      have h2 : ¬ un > 9223372036854775808 := by omega
      simp [h2]
    · rw [if_neg hc] at hfit
      have hbeq : (c == '-') = false := by simpa using hc
      have h1 : ¬ un ≥ 9223372036854775808 := by omega
      simp [hbeq, hc, h1]

/-- Reading back what `Itoa` wrote: `Atoi (Itoa i)` is `i`, without error, for
every `i` a Go `int` can hold. -/
theorem Atoi_Itoa (i : Int) (hlo : minInt ≤ i) (hhi : i ≤ maxInt) :
    Atoi (Itoa i) = (i, none) := by
  obtain ⟨p, _, hp⟩ := parseDigits_formatDigits (i.natAbs + 1) i.natAbs (by omega)
  have hparse : parseDigits (formatDigits (i.natAbs + 1) i.natAbs []) 0 = some i.natAbs := by
    have := hp 0 []
    simpa [parseDigits] using this
  obtain ⟨d, cs, hd, hcs⟩ := formatDigits_head (i.natAbs + 1) i.natAbs (by omega)
  have hf := digitChar_facts d hd
  unfold minInt at hlo
  unfold maxInt at hhi
  by_cases h : i < 0
  · have hne : formatDigits (i.natAbs + 1) i.natAbs [] ≠ [] := by rw [hcs]; simp
    have hdata : (Itoa i).data = '-' :: formatDigits (i.natAbs + 1) i.natAbs [] := by
      simp only [Itoa, if_pos h]
    have hres := Atoi_digits (Itoa i) '-' _ i.natAbs hdata (by simpa using hne)
      (by simpa using hparse) (by simp only [if_true]; omega)
    have h3 : -(i.natAbs : Int) = i := by omega
    rw [hres, if_pos rfl, h3]
  · have hsign : ¬ (digitChar d = '-' ∨ digitChar d = '+') := by
      simp [hf.2.2.2.1, hf.2.2.2.2]
    have hdata : (Itoa i).data = digitChar d :: cs := by
      simp only [Itoa, if_neg h, hcs]
    have hres := Atoi_digits (Itoa i) (digitChar d) cs i.natAbs hdata
      (by rw [if_neg hsign]; simp)
      (by rw [if_neg hsign, ← hcs]; exact hparse)
      (by rw [if_neg hf.2.2.2.1]; omega)
    rw [hres, if_neg hf.2.2.2.1]
    have h3 : (i.natAbs : Int) = i := by omega
    rw [h3]

end strconv
namespace strconv

/-- The text of a numeral: its sign and digits, and the number the digits denote. -/
theorem IsNumeral_data (s : String) (hn : IsNumeral s = true) :
    ∃ c cs un, s.data = c :: cs
      ∧ (if c = '-' ∨ c = '+' then cs else c :: cs) ≠ []
      ∧ parseDigits (if c = '-' ∨ c = '+' then cs else c :: cs) 0 = some un
      ∧ numeralValue s = (if c = '-' then -(un : Int) else (un : Int)) := by
  cases hs : s.data with
  | nil => simp [IsNumeral, numeralDigits, hs] at hn
  | cons c cs =>
    have hnd : numeralDigits s = (if c = '-' ∨ c = '+' then cs else c :: cs) := by
      simp [numeralDigits, hs]
    simp only [IsNumeral, hnd, Bool.and_eq_true, Bool.not_eq_true', List.isEmpty_eq_false] at hn
    have hall : ∀ l : List Char, (l.all fun c => decide ('0' ≤ c ∧ c ≤ '9')) = true →
        ∀ k, ∃ v, parseDigits l k = some v := by
      intro l
      induction l with
      | nil => intro _ k; exact ⟨k, rfl⟩
      | cons a l ih =>
        intro h k
        simp only [List.all_cons, Bool.and_eq_true, decide_eq_true_eq] at h
        obtain ⟨v, hv⟩ := ih h.2 (k * 10 + (a.toNat - 48))
        exact ⟨v, by simp only [parseDigits, if_pos h.1, hv]⟩
    obtain ⟨un, hun⟩ := hall _ hn.2 0
    obtain ⟨_, hv⟩ := parseDigits_eq_some _ _ _ hun
    simp only [Nat.zero_mul, Nat.zero_add] at hv
    refine ⟨c, cs, un, rfl, ?_, hun, ?_⟩
    · intro he
      rw [he] at hn
      simp at hn
    · simp only [numeralValue, hs, hnd, ← hv, List.head?_cons, Option.some.injEq]

/-- A decimal numeral that denotes an integer a Go `int` can hold is decoded by
`Atoi` to exactly that integer, without error. -/
theorem Atoi_numeral (s : String) (hn : IsNumeral s = true)
    (hlo : minInt ≤ numeralValue s) (hhi : numeralValue s ≤ maxInt) :
    Atoi s = (numeralValue s, none) := by
  obtain ⟨c, cs, un, hs, hne, hp, hval⟩ := IsNumeral_data s hn
  rw [hval] at hlo hhi ⊢
  unfold minInt at hlo
  unfold maxInt at hhi
  refine Atoi_digits s c cs un hs hne hp ?_
  by_cases hc : c = '-'
  · rw [if_pos hc] at hlo hhi ⊢
    omega
  · rw [if_neg hc] at hlo hhi ⊢
    omega

/-- What a non-zero result of `Atoi` says of its argument: it is a decimal
numeral that denotes a non-zero integer, or it starts, after an optional sign,
with digits that already denote more than the largest `uint64`. -/
theorem Atoi_ne_zero (s : String) (h : (Atoi s).1 ≠ 0) :
    (IsNumeral s = true ∧ numeralValue s ≠ 0) ∨ OverflowsUint64 s = true := by
  cases hs : s.data with
  | nil =>
    exfalso
    apply h
    unfold Atoi ParseInt
    rw [hs]
    split <;> rfl
  | cons c cs =>
    have hnd : numeralDigits s = (if c = '-' ∨ c = '+' then cs else c :: cs) := by
      simp [numeralDigits, hs]
    have hbody : (if c = '+' ∨ c = '-' then cs else c :: cs)
        = (if c = '-' ∨ c = '+' then cs else c :: cs) := by
      by_cases h1 : c = '-' <;> by_cases h2 : c = '+' <;> simp [h1, h2]
    -- digits that parse give a numeral
    have hnum : ∀ un, parseDigits (if c = '-' ∨ c = '+' then cs else c :: cs) 0 = some un →
        (if c = '-' ∨ c = '+' then cs else c :: cs) ≠ [] →
        IsNumeral s = true ∧ numeralValue s = (if c = '-' then -(un : Int) else (un : Int)) := by
      intro un hp hb
      obtain ⟨hall, hv⟩ := parseDigits_eq_some _ _ _ hp
      simp only [Nat.zero_mul, Nat.zero_add] at hv
      refine ⟨?_, ?_⟩
      · simp only [IsNumeral, hnd, Bool.and_eq_true, hall, and_true]
        cases hl : (if c = '-' ∨ c = '+' then cs else c :: cs) with
        | nil => exact absurd hl hb
        | cons a l => rfl
      · simp only [numeralValue, hs, hnd, ← hv, List.head?_cons, Option.some.injEq]
    by_cases hfast : 0 < s.utf8ByteSize ∧ s.utf8ByteSize < 19
    · simp only [Atoi, if_pos hfast, hs] at h
      by_cases hb : (if c = '-' ∨ c = '+' then cs else c :: cs).length < 1
      · simp [hb] at h
      · rw [if_neg hb] at h
        have hb2 : (if c = '-' ∨ c = '+' then cs else c :: cs) ≠ [] := by
          intro he
          rw [he] at hb
          simp at hb
        cases hp : parseDigits (if c = '-' ∨ c = '+' then cs else c :: cs) 0 with
        | none => simp [hp] at h
        | some un =>
          obtain ⟨h1, h2⟩ := hnum un hp hb2
          simp only [hp] at h
          exact Or.inl ⟨h1, by rw [h2]; exact h⟩
    · simp only [Atoi, if_neg hfast, ParseInt, hs, hbody] at h
      by_cases hb : (if c = '-' ∨ c = '+' then cs else c :: cs) = []
      · simp only [hb, ParseUint, List.isEmpty_nil, if_true] at h
        exact absurd (by simp [ErrSyntax, ErrRange]) h
      · have hpu : ParseUint (if c = '-' ∨ c = '+' then cs else c :: cs)
            = parseUintLoop (if c = '-' ∨ c = '+' then cs else c :: cs) 0 := by
          cases hl : (if c = '-' ∨ c = '+' then cs else c :: cs) with
          | nil => exact absurd hl hb
          | cons a l => simp [ParseUint]
        rw [hpu] at h
        rcases parseUintLoop_cases (if c = '-' ∨ c = '+' then cs else c :: cs) 0
          with ⟨v, hv, hp, hle⟩ | hsyn | ⟨hr, hov⟩ | h0
        · obtain ⟨h1, h2⟩ := hnum v hp hb
          refine Or.inl ⟨h1, ?_⟩
          rw [h2]
          intro hz
          have hv0 : v = 0 := by
            by_cases hc : c = '-'
            · rw [if_pos hc] at hz; omega
            · rw [if_neg hc] at hz; omega
          apply h
          rw [hv, hv0]
          by_cases hc : c = '-'
          · subst hc; simp
          · have hbeq : (c == '-') = false := by simpa using hc
            simp [hbeq]
        · rw [hsyn] at h
          exact absurd (by simp [ErrSyntax, ErrRange]) h
        · right
          simp only [OverflowsUint64, hnd, decide_eq_true_eq]
          exact hov
        · exact absurd h0 (by decide)

end strconv
namespace net

theorem parseIPv4FieldsLoop_bar : ∀ (s : List Char) (val pos digLen : Nat) (first prevDot : Bool),
    parseIPv4FieldsLoop s val pos digLen first prevDot = true → '|' ∉ s := by
  intro s
  induction s with
  | nil => intro _ _ _ _ _ _; simp
  | cons c cs ih =>
    intro val pos digLen first prevDot h
    by_cases hd : '0' ≤ c ∧ c ≤ '9'
    · simp only [parseIPv4FieldsLoop, if_pos hd] at h
      have hc : c ≠ '|' := by
        intro he
        rw [he] at hd
        exact absurd hd (by decide)
      split at h
      · cases h
      · split at h
        · cases h
        · simp only [List.mem_cons, not_or]
          exact ⟨fun he => hc he.symm, ih _ _ _ _ _ h⟩
    · simp only [parseIPv4FieldsLoop, if_neg hd] at h
      by_cases hdot : c = '.'
      · rw [if_pos hdot] at h
        split at h
        · cases h
        · split at h
          · cases h
          · simp only [List.mem_cons, not_or]
            exact ⟨by rw [hdot]; decide, ih _ _ _ _ _ h⟩
      · rw [if_neg hdot] at h
        cases h

theorem hexGroup_bar : ∀ (s : List Char) (off acc o a : Nat) (r : List Char),
    hexGroup s off acc = some (o, a, r) → '|' ∈ s → '|' ∈ r := by
  intro s
  induction s with
  | nil => intro _ _ _ _ _ _ hm; simp at hm
  | cons c cs ih =>
    intro off acc o a r h hm
    cases hv : hexVal c with
    | none =>
      simp only [hexGroup, hv, Option.some.injEq, Prod.mk.injEq] at h
      rw [← h.2.2]
      exact hm
    | some d =>
      simp only [hexGroup, hv] at h
      have hc : c ≠ '|' := by
        intro he
        rw [he] at hv
        have hn : hexVal '|' = none := by decide
        rw [hn] at hv
        cases hv
      split at h
      · cases h
      · split at h
        · cases h
        · rcases List.mem_cons.mp hm with he | he
          · exact absurd he.symm hc
          · exact ih _ _ _ _ _ h he

theorem parseIPv6End_nil (i : Nat) (e : Option Nat) (s : List Char)
    (h : parseIPv6End i e s = true) : s = [] := by
  cases s with
  | nil => rfl
  | cons c cs => simp [parseIPv6End] at h

theorem parseIPv6Loop_bar : ∀ (fuel i : Nat) (e : Option Nat) (s : List Char),
    parseIPv6Loop fuel i e s = true → '|' ∉ s := by
  intro fuel
  induction fuel with
  | zero =>
    intro i e s h
    simp only [parseIPv6Loop] at h
    rw [parseIPv6End_nil i e s h]
    simp
  | succ fuel ih =>
    intro i e s h hm
    simp only [parseIPv6Loop] at h
    split at h
    · rw [parseIPv6End_nil i e s h] at hm
      simp at hm
    · cases hg : hexGroup s 0 0 with
      | none => simp [hg] at h
      | some res =>
        obtain ⟨off, a, r⟩ := res
        have hr := hexGroup_bar s 0 0 off a r hg hm
        simp only [hg] at h
        split at h
        · cases h
        · split at h
          · split at h
            · cases h
            · split at h
              · cases h
              · split at h
                · cases h
                · rename_i hv4
                  have hv : parseIPv4Fields s = true := by
                    cases hp : parseIPv4Fields s with
                    | true => rfl
                    | false => exact absurd hp hv4
                  exact parseIPv4FieldsLoop_bar s 0 0 0 true false hv hm
          · split at h
            · rename_i hemp
              cases r with
              | nil => simp at hr
              | cons x xs => simp at hemp
            · cases r with
              | nil => simp at hr
              | cons c1 r1 =>
                simp only at h
                split at h
                · cases h
                · rename_i hc1
                  have hc1' : c1 = ':' := by
                    by_contra hne
                    exact hc1 hne
                  have hr1 : '|' ∈ r1 := by
                    rcases List.mem_cons.mp hr with he | he
                    · rw [hc1'] at he
                      exact absurd he (by decide)
                    · exact he
                  split at h
                  · cases h
                  · split at h
                    · have hr2 := (List.mem_cons.mp hr1).resolve_left (by decide)
                      split at h
                      · cases h
                      · split at h
                        · rename_i hemp
                          rw [List.isEmpty_iff.mp hemp] at hr2
                          simp at hr2
                        · exact ih _ _ _ h hr2
                    · exact ih _ _ _ h hr1

end net
namespace net

theorem parseIPv6_bar (s : List Char) (h : parseIPv6 s = true) : '|' ∉ s := by
  unfold parseIPv6 at h
  simp only at h
  split at h
  · cases h
  · rename_i hz
    rw [Bool.and_eq_true] at h
    obtain ⟨hp, hzone⟩ := h
    have hno : s.contains '%' = false := by
      cases hc : s.contains '%' with
      | false => rfl
      | true => exact absurd ⟨hc, hzone⟩ hz
    have hall : ∀ c ∈ s, (c != '%') = true := by
      intro c hc
      by_contra hne
      have hceq : c = '%' := by simpa using hne
      rw [hceq] at hc
      have : s.contains '%' = true := by simpa using hc
      rw [hno] at this
      cases this
    have htake : (s.takeWhile fun c => c != '%') = s := List.takeWhile_eq_self_iff.mpr hall
    rw [htake] at hp
    split at hp
    · rename_i r
      split at hp
      · rename_i hemp
        rw [List.isEmpty_iff.mp hemp]
        decide
      · have := parseIPv6Loop_bar 16 0 (some 0) r hp
        simp only [List.mem_cons, not_or]
        exact ⟨by decide, by decide, this⟩
    · exact parseIPv6Loop_bar 16 0 none s hp

theorem parseAddrScan_bar (whole : List Char) :
    ∀ s, parseAddrScan whole s = true → '|' ∉ whole := by
  intro s
  induction s with
  | nil => intro h; simp [parseAddrScan] at h
  | cons c cs ih =>
    intro h
    simp only [parseAddrScan] at h
    split at h
    · exact parseIPv4FieldsLoop_bar whole 0 0 0 true false h
    · split at h
      · exact parseIPv6_bar whole h
      · split at h
        · cases h
        · exact ih h

/-- A text `ParseIP` accepts has no `|`. -/
theorem ParseIP_no_bar (s : String) (h : ParseIP s = true) : '|' ∉ s.data :=
  parseAddrScan_bar s.data s.data h

end net

namespace validator

theorem uuidShape_bar : ∀ (s : List Char) (i : Nat), uuidShape i s = true → '|' ∉ s := by
  intro s
  induction s with
  | nil => intro i _ hx; simp at hx
  | cons c cs ih =>
    intro i h hx
    simp only [uuidShape, Bool.and_eq_true] at h
    rcases List.mem_cons.mp hx with h1 | h1
    · subst h1
      have h2 := h.1
      split at h2
      · exact absurd h2 (by decide)
      · exact absurd h2 (by decide)
    · exact ih _ h.2 h1

/-- A string with the shape of a UUID has no `|` in it. -/
theorem isUUID_no_bar (s : String) (h : isUUID s = true) : '|' ∉ s.data :=
  uuidShape_bar s.data 0 h

theorem isUUID_ne_empty (s : String) (h : isUUID s = true) : s ≠ "" := by
  rintro rfl
  exact absurd h (by decide)

theorem isIP_ne_empty (s : String) (h : isIP s = true) : s ≠ "" := by
  rintro rfl
  exact absurd h (by decide)

end validator

namespace strconv

/-- What `Itoa` writes is a decimal numeral, and the integer it denotes is the
argument. -/
theorem Itoa_numeral (i : Int) : IsNumeral (Itoa i) = true ∧ numeralValue (Itoa i) = i := by
  obtain ⟨p, _, hp⟩ := parseDigits_formatDigits (i.natAbs + 1) i.natAbs (by omega)
  have hparse : parseDigits (formatDigits (i.natAbs + 1) i.natAbs []) 0 = some i.natAbs := by
    have := hp 0 []
    simpa [parseDigits] using this
  obtain ⟨hall, hval⟩ := parseDigits_eq_some _ _ _ hparse
  simp only [Nat.zero_mul, Nat.zero_add] at hval
  obtain ⟨d, cs, hd, hcs⟩ := formatDigits_head (i.natAbs + 1) i.natAbs (by omega)
  have hf := digitChar_facts d hd
  have hne : (formatDigits (i.natAbs + 1) i.natAbs []).isEmpty = false := by
    rw [hcs]
    rfl
  by_cases h : i < 0
  · have hdata : (Itoa i).data = '-' :: formatDigits (i.natAbs + 1) i.natAbs [] := by
      simp only [Itoa, if_pos h]
    have hnd : numeralDigits (Itoa i) = formatDigits (i.natAbs + 1) i.natAbs [] := by
      simp [numeralDigits, hdata]
    refine ⟨by simp only [IsNumeral, hnd, hne, hall]; rfl, ?_⟩
    simp only [numeralValue, hnd, hdata, List.head?_cons, if_true, ← hval]
    omega
  · have hdata : (Itoa i).data = digitChar d :: cs := by
      simp only [Itoa, if_neg h, hcs]
    have hnd : numeralDigits (Itoa i) = formatDigits (i.natAbs + 1) i.natAbs [] := by
      simp [numeralDigits, hdata, hf.2.2.2.1, hf.2.2.2.2, hcs]
    refine ⟨by simp only [IsNumeral, hnd, hne, hall]; rfl, ?_⟩
    have hhead : ¬ ((Itoa i).data.head? = some '-') := by
      rw [hdata]
      simp [hf.2.2.2.1]
    simp only [numeralValue, hnd, if_neg hhead, ← hval]
    omega

end strconv

/-! ## theorems: invite hashes -/

theorem demoCipher_inverse (k : String) (entropy : List Nat) (pt : String) :
    ∃ ct, demoCipher.Encrypt k entropy pt = .ok ct ∧ demoCipher.Decrypt k ct = .ok pt := by
  refine ⟨_, rfl, ?_⟩
  have hdrop : ∀ l : List Nat,
      List.dropWhile (fun c => c != '#') ((l.map fun b => strconv.digitChar (b % 10)) ++ '#' :: pt.data)
        = '#' :: pt.data := by
    intro l
    induction l with
    | nil => simp [List.dropWhile]
    | cons b l ih =>
      have hf := (strconv.digitChar_facts (b % 10) (Nat.mod_lt b (by decide))).1.1
      have hne : strconv.digitChar (b % 10) ≠ '#' := by
        intro he
        rw [he] at hf
        exact absurd hf (by decide)
      have hb : (strconv.digitChar (b % 10) != '#') = true := by simpa using hne
      simp only [List.map_cons, List.cons_append, List.dropWhile, hb]
      exact ih
  simp only [demoCipher, hdrop]

namespace invite

theorem checkField_two (f t1 t2 : String) (b1 b2 : Bool) :
    validator.checkField f [(t1, b1), (t2, b2)] = [] ↔ b1 = true ∧ b2 = true := by
  cases b1 <;> cases b2 <;> simp [validator.checkField]

theorem checkField_one (f t1 : String) (b1 : Bool) :
    validator.checkField f [(t1, b1)] = [] ↔ b1 = true := by
  cases b1 <;> simp [validator.checkField]

/-- The validator accepts an `InviteHash` exactly when both ids have the shape
of a UUID, both timestamps are not 0, and the IP address parses. -/
theorem InviteHash.structCtx_eq_none_iff (h : InviteHash) :
    h.StructCtx = none ↔
      validator.isUUID h.UserID = true ∧ validator.isUUID h.AccountID = true
        ∧ h.CreatedAt ≠ 0 ∧ h.ExpiresAt ≠ 0 ∧ validator.isIP h.RequestIP = true := by
  have hmain : h.fieldErrors = [] ↔
      validator.isUUID h.UserID = true ∧ validator.isUUID h.AccountID = true
        ∧ h.CreatedAt ≠ 0 ∧ h.ExpiresAt ≠ 0 ∧ validator.isIP h.RequestIP = true := by
    simp only [InviteHash.fieldErrors, List.append_eq_nil, checkField_two, checkField_one,
      decide_eq_true_eq]
    constructor
    · rintro ⟨⟨⟨⟨⟨_, h1⟩, ⟨_, h2⟩⟩, h3⟩, h4⟩, ⟨_, h5⟩⟩
      exact ⟨h1, h2, h3, h4, h5⟩
    · rintro ⟨h1, h2, h3, h4, h5⟩
      exact ⟨⟨⟨⟨⟨validator.isUUID_ne_empty _ h1, h1⟩, ⟨validator.isUUID_ne_empty _ h2, h2⟩⟩, h3⟩,
        h4⟩, ⟨validator.isIP_ne_empty _ h5, h5⟩⟩
  unfold InviteHash.StructCtx
  by_cases he : h.fieldErrors = []
  · simp only [if_pos he, true_iff]
    exact hmain.mp he
  · simp only [if_neg he, reduceCtorEq, false_iff]
    exact fun hc => he (hmain.mpr hc)

/-- Splitting the joined five pieces gives the five pieces back, when none of
them holds the delimiter. -/
theorem split_join_five (a b c d e : String)
    (ha : '|' ∉ a.data) (hb : '|' ∉ b.data) (hc : '|' ∉ c.data) (hd : '|' ∉ d.data)
    (he : '|' ∉ e.data) :
    strings.Split (strings.Join [a, b, c, d, e] "|") '|' = [a, b, c, d, e] := by
  have hsplit : List.splitOn '|' (['|'].intercalate [a.data, b.data, c.data, d.data, e.data])
      = [a.data, b.data, c.data, d.data, e.data] :=
    List.splitOn_intercalate [a.data, b.data, c.data, d.data, e.data] '|'
    (by
      intro l hl
      simp only [List.mem_cons, List.mem_singleton, List.not_mem_nil, or_false] at hl
      rcases hl with rfl | rfl | rfl | rfl | rfl <;> assumption)
    (by simp)
  show List.map String.mk
    (List.splitOn '|' (['|'].intercalate [a.data, b.data, c.data, d.data, e.data])) = _
  rw [hsplit]
  rfl

theorem ParseInviteHash_of_decrypt (cr : Symcrypto) (encrypted secretKey payload : String)
    (now : Time) (hnew : cr.New secretKey = none)
    (hdec : cr.Decrypt secretKey encrypted = .ok payload) :
    ParseInviteHash cr encrypted secretKey now = parsePlain payload now := by
  simp only [ParseInviteHash, hnew, hdec]

/-- The fields `ParseInviteHash` reads from the plaintext `NewInviteHash` wrote,
when both ids have the shape of a UUID, the address is a valid IP address and
both timestamps fit a Go `int`: the five fields. -/
theorem hashOfParts_hashStr (userID accountID ip : String) (ttl : Duration) (now : Time)
    (huser : validator.isUUID userID = true) (hacc : validator.isUUID accountID = true)
    (hip : validator.isIP ip = true)
    (hfit1 : strconv.fitsInt now.Unix = true)
    (hfit2 : strconv.fitsInt (now.Add ttl).Unix = true) :
    hashOfParts (strings.Split (hashStr userID accountID ip ttl now) '|')
      = { UserID := userID, AccountID := accountID, CreatedAt := now.Unix,
          ExpiresAt := (now.Add ttl).Unix, RequestIP := ip } := by
  simp only [strconv.fitsInt, decide_eq_true_eq] at hfit1 hfit2
  unfold hashStr
  rw [split_join_five _ _ _ _ _ (validator.isUUID_no_bar _ huser)
    (validator.isUUID_no_bar _ hacc) (strconv.Itoa_no_bar _) (strconv.Itoa_no_bar _)
    (net.ParseIP_no_bar _ hip)]
  simp only [hashOfParts, Time.UTC]
  rw [strconv.Atoi_Itoa _ hfit1.1 hfit1.2, strconv.Atoi_Itoa _ hfit2.1 hfit2.2]

/-- Parsing the plaintext `NewInviteHash` wrote when its fields do not pass the
validator: the validation error, at every time. -/
theorem parsePlain_hashStr_invalid (userID accountID ip : String) (ttl : Duration)
    (now t : Time)
    (huser : validator.isUUID userID = true) (hacc : validator.isUUID accountID = true)
    (hip : validator.isIP ip = true)
    (hfit1 : strconv.fitsInt now.Unix = true)
    (hfit2 : strconv.fitsInt (now.Add ttl).Unix = true)
    (hzero : now.Unix = 0 ∨ (now.Add ttl).Unix = 0) :
    parsePlain (hashStr userID accountID ip ttl now) t
      = .error (.fieldErrors
          ({ UserID := userID, AccountID := accountID, CreatedAt := now.Unix,
             ExpiresAt := (now.Add ttl).Unix, RequestIP := ip } : InviteHash).fieldErrors) := by
  have hctx : ∀ h : InviteHash, (h.CreatedAt = 0 ∨ h.ExpiresAt = 0) →
      h.StructCtx = some (.fieldErrors h.fieldErrors) := by
    intro h hz
    have hne : h.StructCtx ≠ none := by
      intro hc
      obtain ⟨_, _, h3, h4, _⟩ := (InviteHash.structCtx_eq_none_iff h).mp hc
      rcases hz with hz | hz
      · exact h3 hz
      · exact h4 hz
    unfold InviteHash.StructCtx at hne ⊢
    split
    · rename_i he
      rw [if_pos he] at hne
      exact absurd rfl hne
    · rfl
  simp only [parsePlain,
    hashOfParts_hashStr userID accountID ip ttl now huser hacc hip hfit1 hfit2]
  rw [hctx ⟨userID, accountID, now.Unix, (now.Add ttl).Unix, ip⟩ hzero]

/-- Parsing the plaintext `NewInviteHash` wrote, at the time `t`: when the five
fields pass the validator and both timestamps fit a Go `int`, the result is the
expiry error if `t` is past the expiry second, and the five fields otherwise. -/
theorem parsePlain_hashStr (userID accountID ip : String) (ttl : Duration) (now t : Time)
    (hwf : ({ UserID := userID, AccountID := accountID, CreatedAt := now.Unix,
              ExpiresAt := (now.Add ttl).Unix, RequestIP := ip } : InviteHash).StructCtx = none)
    (hfit1 : strconv.fitsInt now.Unix = true)
    (hfit2 : strconv.fitsInt (now.Add ttl).Unix = true) :
    parsePlain (hashStr userID accountID ip ttl now) t =
      if (now.Add ttl).Unix < t.Unix then
        .error (.withMessage ErrInviteExpired "Invite has expired.")
      else .ok { UserID := userID, AccountID := accountID, CreatedAt := now.Unix,
                 ExpiresAt := (now.Add ttl).Unix, RequestIP := ip } := by
  have hw := (InviteHash.structCtx_eq_none_iff _).mp hwf
  simp only [strconv.fitsInt, decide_eq_true_eq] at hfit1 hfit2
  have hparts : hashOfParts (strings.Split (hashStr userID accountID ip ttl now) '|')
      = { UserID := userID, AccountID := accountID, CreatedAt := now.Unix,
          ExpiresAt := (now.Add ttl).Unix, RequestIP := ip } := by
    unfold hashStr
    rw [split_join_five _ _ _ _ _ (validator.isUUID_no_bar _ hw.1)
      (validator.isUUID_no_bar _ hw.2.1) (strconv.Itoa_no_bar _) (strconv.Itoa_no_bar _)
      (net.ParseIP_no_bar _ hw.2.2.2.2)]
    simp only [hashOfParts, Time.UTC]
    rw [strconv.Atoi_Itoa _ hfit1.1 hfit1.2, strconv.Atoi_Itoa _ hfit2.1 hfit2.2]
  simp only [parsePlain, hparts, hwf, Time.UTC]

end invite

namespace invite

/-- C7, as stated, fails: an invite made in the first second of the Unix epoch
has `CreatedAt = 0`, which the validator rejects as a missing required field, so
the round trip at the same `now` returns an error. -/
theorem invite_round_trip_fails_at_epoch :
    NewInviteHash demoCipher [7] "secret" "d69bdef7-173f-4d29-b52c-3edc60baf6a2" "c4653bf9-5978-48b7-89c5-95704aebb7e2" "69.56.104.36" Hour ⟨0⟩
        = .ok "7#d69bdef7-173f-4d29-b52c-3edc60baf6a2|c4653bf9-5978-48b7-89c5-95704aebb7e2|0|3600|69.56.104.36"
      ∧ ParseInviteHash demoCipher
          "7#d69bdef7-173f-4d29-b52c-3edc60baf6a2|c4653bf9-5978-48b7-89c5-95704aebb7e2|0|3600|69.56.104.36"
          "secret" ⟨0⟩
        = .error (.fieldErrors [⟨"CreatedAt", "required"⟩]) := by
  decide

/-- C7, amended. For a secret the cipher accepts, with `Decrypt` the inverse of
`Encrypt`, ids with the shape of a UUID, a valid IP address, `ttl ≥ 0`, and a
time `now` for which `now.Unix()` and `(now + ttl).Unix()` are not 0 and fit a
Go `int`: `NewInviteHash` gives a string, and `ParseInviteHash` of that string
at `now` gives the five fields back. -/
theorem invite_round_trip (cr : Symcrypto) (entropy : List Nat)
    (secretKey userID accountID ip : String) (ttl : Duration) (now : Time)
    (hnew : cr.New secretKey = none)
    (hinv : ∀ e pt, ∃ ct, cr.Encrypt secretKey e pt = .ok ct ∧ cr.Decrypt secretKey ct = .ok pt)
    (huser : validator.isUUID userID = true) (hacc : validator.isUUID accountID = true)
    (hip : validator.isIP ip = true) (httl : 0 ≤ ttl)
    (hcreated : now.Unix ≠ 0) (hexpires : (now.Add ttl).Unix ≠ 0)
    (hfit1 : strconv.fitsInt now.Unix = true)
    (hfit2 : strconv.fitsInt (now.Add ttl).Unix = true) :
    ∃ enc, NewInviteHash cr entropy secretKey userID accountID ip ttl now = .ok enc
      ∧ ParseInviteHash cr enc secretKey now
        = .ok { UserID := userID, AccountID := accountID, CreatedAt := now.Unix,
                ExpiresAt := (now.Add ttl).Unix, RequestIP := ip } := by
  obtain ⟨ct, henc, hdec⟩ := hinv entropy (hashStr userID accountID ip ttl now)
  refine ⟨ct, by simp only [NewInviteHash, hnew, henc], ?_⟩
  have hwf : ({ UserID := userID, AccountID := accountID, CreatedAt := now.Unix,
                ExpiresAt := (now.Add ttl).Unix, RequestIP := ip } : InviteHash).StructCtx
      = none :=
    (InviteHash.structCtx_eq_none_iff _).mpr ⟨huser, hacc, hcreated, hexpires, hip⟩
  rw [ParseInviteHash_of_decrypt cr ct secretKey _ now hnew hdec,
    parsePlain_hashStr userID accountID ip ttl now now hwf hfit1 hfit2]
  have httl2 : (0 : Int) ≤ ttl := httl
  have hle : ¬ (now.Add ttl).Unix < now.Unix := by
    show ¬ (now.nanos + ttl) / 1000000000 < now.nanos / 1000000000
    omega
  rw [if_neg hle]

/-- The amended C7 at a concrete invite: made at second 1568050163 with a ttl of
one hour. -/
theorem invite_round_trip_witness :
    ∃ enc, NewInviteHash demoCipher [7] "secret" "d69bdef7-173f-4d29-b52c-3edc60baf6a2" "c4653bf9-5978-48b7-89c5-95704aebb7e2" "69.56.104.36" Hour ⟨1568050163000000000⟩ = .ok enc
      ∧ ParseInviteHash demoCipher enc "secret" ⟨1568050163000000000⟩
        = .ok { UserID := "d69bdef7-173f-4d29-b52c-3edc60baf6a2", AccountID := "c4653bf9-5978-48b7-89c5-95704aebb7e2", CreatedAt := 1568050163,
                ExpiresAt := 1568053763, RequestIP := "69.56.104.36" } :=
  invite_round_trip demoCipher [7] "secret" "d69bdef7-173f-4d29-b52c-3edc60baf6a2" "c4653bf9-5978-48b7-89c5-95704aebb7e2" "69.56.104.36" Hour ⟨1568050163000000000⟩
    (by decide) (demoCipher_inverse "secret") (by decide) (by decide) (by decide) (by decide)
    (by decide) (by decide) (by decide) (by decide)

/-- C8, as stated, fails: an invite made in the first second of the Unix epoch
with well-formed ids, a valid IP address and a ttl of one hour has
`CreatedAt = 0`, which the validator rejects as a missing required field. At
`now + 59m` the parse does not succeed, and at `now + 1h + 1s` it fails with
the validation error, whose cause is not `ErrInviteExpired`. -/
theorem invite_expiry_fails_at_epoch :
    validator.isUUID "d69bdef7-173f-4d29-b52c-3edc60baf6a2" = true
      ∧ validator.isUUID "c4653bf9-5978-48b7-89c5-95704aebb7e2" = true
      ∧ validator.isIP "69.56.104.36" = true
      ∧ NewInviteHash demoCipher [7] "secret" "d69bdef7-173f-4d29-b52c-3edc60baf6a2"
          "c4653bf9-5978-48b7-89c5-95704aebb7e2" "69.56.104.36" Hour ⟨0⟩
        = .ok "7#d69bdef7-173f-4d29-b52c-3edc60baf6a2|c4653bf9-5978-48b7-89c5-95704aebb7e2|0|3600|69.56.104.36"
      ∧ ParseInviteHash demoCipher
          "7#d69bdef7-173f-4d29-b52c-3edc60baf6a2|c4653bf9-5978-48b7-89c5-95704aebb7e2|0|3600|69.56.104.36"
          "secret" (Time.Add ⟨0⟩ (59 * Minute))
        = .error (.fieldErrors [⟨"CreatedAt", "required"⟩])
      ∧ ParseInviteHash demoCipher
          "7#d69bdef7-173f-4d29-b52c-3edc60baf6a2|c4653bf9-5978-48b7-89c5-95704aebb7e2|0|3600|69.56.104.36"
          "secret" (Time.Add (Time.Add ⟨0⟩ Hour) Second)
        = .error (.fieldErrors [⟨"CreatedAt", "required"⟩])
      ∧ (GoError.fieldErrors [⟨"CreatedAt", "required"⟩]).Cause ≠ ErrInviteExpired := by
  decide

/-- C8, amended. For an invite made by `NewInviteHash` at `now` with
`ttl = 1h`, ids with the shape of a UUID and a valid IP address (and
timestamps that fit a Go `int`): when the Unix seconds of `now` and of
`now + 1h` are not 0, `ParseInviteHash` fails one second after the hour with an
error whose cause is `ErrInviteExpired`, and returns the five fields at
`now + 59m`; when one of the two is 0, it fails at every time with the
validation error, whose cause is not `ErrInviteExpired`. In general, for a
decrypted payload whose fields pass the validator, `ParseInviteHash` at `t`
fails with cause `ErrInviteExpired` exactly when `expiresAt < t.Unix()`, and
returns the hash otherwise. -/
theorem invite_expiry_boundary (cr : Symcrypto) (entropy : List Nat)
    (secretKey userID accountID ip : String) (now : Time)
    (hnew : cr.New secretKey = none)
    (hinv : ∀ e pt, ∃ ct, cr.Encrypt secretKey e pt = .ok ct ∧ cr.Decrypt secretKey ct = .ok pt)
    (huser : validator.isUUID userID = true) (hacc : validator.isUUID accountID = true)
    (hip : validator.isIP ip = true)
    (hfit1 : strconv.fitsInt now.Unix = true)
    (hfit2 : strconv.fitsInt (now.Add Hour).Unix = true) :
    (now.Unix ≠ 0 → (now.Add Hour).Unix ≠ 0 →
      ∃ enc, NewInviteHash cr entropy secretKey userID accountID ip Hour now = .ok enc
        ∧ (∃ err, ParseInviteHash cr enc secretKey ((now.Add Hour).Add Second) = .error err
            ∧ err.Cause = ErrInviteExpired)
        ∧ ParseInviteHash cr enc secretKey (now.Add (59 * Minute))
            = .ok { UserID := userID, AccountID := accountID, CreatedAt := now.Unix,
                    ExpiresAt := (now.Add Hour).Unix, RequestIP := ip })
    ∧ (now.Unix = 0 ∨ (now.Add Hour).Unix = 0 →
      ∃ enc, NewInviteHash cr entropy secretKey userID accountID ip Hour now = .ok enc
        ∧ ∀ t : Time, ∃ err, ParseInviteHash cr enc secretKey t = .error err
            ∧ err.Cause ≠ ErrInviteExpired)
    ∧ (∀ (encrypted payload : String) (t : Time),
        cr.Decrypt secretKey encrypted = .ok payload →
        (hashOfParts (strings.Split payload '|')).StructCtx = none →
        ((∃ err, ParseInviteHash cr encrypted secretKey t = .error err
            ∧ err.Cause = ErrInviteExpired)
          ↔ (hashOfParts (strings.Split payload '|')).ExpiresAt < t.Unix)
        ∧ (¬ (hashOfParts (strings.Split payload '|')).ExpiresAt < t.Unix →
            ParseInviteHash cr encrypted secretKey t
              = .ok (hashOfParts (strings.Split payload '|')))) := by
  obtain ⟨ct, henc, hdec⟩ := hinv entropy (hashStr userID accountID ip Hour now)
  refine ⟨?_, ?_, ?_⟩
  · intro hcreated hexpires
    have hwf : ({ UserID := userID, AccountID := accountID, CreatedAt := now.Unix,
                  ExpiresAt := (now.Add Hour).Unix, RequestIP := ip } : InviteHash).StructCtx
        = none :=
      (InviteHash.structCtx_eq_none_iff _).mpr ⟨huser, hacc, hcreated, hexpires, hip⟩
    refine ⟨ct, by simp only [NewInviteHash, hnew, henc], ?_, ?_⟩
    · refine ⟨.withMessage ErrInviteExpired "Invite has expired.", ?_, rfl⟩
      rw [ParseInviteHash_of_decrypt cr ct secretKey _ _ hnew hdec,
        parsePlain_hashStr userID accountID ip Hour now _ hwf hfit1 hfit2]
      have hlt : (now.Add Hour).Unix < ((now.Add Hour).Add Second).Unix := by
        show (now.nanos + 60 * (60 * 1000000000)) / 1000000000
          < (now.nanos + 60 * (60 * 1000000000) + 1000000000) / 1000000000
        omega
      rw [if_pos hlt]
    · rw [ParseInviteHash_of_decrypt cr ct secretKey _ _ hnew hdec,
        parsePlain_hashStr userID accountID ip Hour now _ hwf hfit1 hfit2]
      have hle : ¬ (now.Add Hour).Unix < (now.Add (59 * Minute)).Unix := by
        show ¬ (now.nanos + 60 * (60 * 1000000000)) / 1000000000
          < (now.nanos + 59 * (60 * 1000000000)) / 1000000000
        omega
      rw [if_neg hle]
  · intro hzero
    refine ⟨ct, by simp only [NewInviteHash, hnew, henc], ?_⟩
    intro t
    rw [ParseInviteHash_of_decrypt cr ct secretKey _ _ hnew hdec,
      parsePlain_hashStr_invalid userID accountID ip Hour now t huser hacc hip hfit1 hfit2
        hzero]
    exact ⟨_, rfl, by simp [GoError.Cause, ErrInviteExpired]⟩
  · intro encrypted payload t hdec hvalid
    rw [ParseInviteHash_of_decrypt cr encrypted secretKey payload t hnew hdec]
    by_cases hlt : (hashOfParts (strings.Split payload '|')).ExpiresAt < t.Unix
    · have hlt2 : (hashOfParts (strings.Split payload '|')).ExpiresAt < t.UTC.Unix := hlt
      have hp : parsePlain payload t
          = .error (.withMessage ErrInviteExpired "Invite has expired.") := by
        simp only [parsePlain, hvalid, if_pos hlt2]
      rw [hp]
      exact ⟨⟨fun _ => hlt, fun _ => ⟨_, rfl, rfl⟩⟩, fun hn => absurd hlt hn⟩
    · have hlt2 : ¬ (hashOfParts (strings.Split payload '|')).ExpiresAt < t.UTC.Unix := hlt
      have hp : parsePlain payload t = .ok (hashOfParts (strings.Split payload '|')) := by
        simp only [parsePlain, hvalid, if_neg hlt2]
      rw [hp]
      refine ⟨⟨?_, fun h => absurd h hlt⟩, fun _ => rfl⟩
      rintro ⟨err, herr, _⟩
      cases herr

/-- The amended C8 at a concrete invite: made at second 1568050163 with a ttl
of one hour, read one second after the hour and at 59 minutes. -/
theorem invite_expiry_boundary_witness :
    ∃ enc, NewInviteHash demoCipher [7] "secret" "d69bdef7-173f-4d29-b52c-3edc60baf6a2" "c4653bf9-5978-48b7-89c5-95704aebb7e2" "69.56.104.36" Hour ⟨1568050163000000000⟩ = .ok enc
      ∧ (∃ err, ParseInviteHash demoCipher enc "secret"
            (Time.Add (Time.Add ⟨1568050163000000000⟩ Hour) Second) = .error err
          ∧ err.Cause = ErrInviteExpired)
      ∧ ParseInviteHash demoCipher enc "secret" (Time.Add ⟨1568050163000000000⟩ (59 * Minute))
          = .ok { UserID := "d69bdef7-173f-4d29-b52c-3edc60baf6a2", AccountID := "c4653bf9-5978-48b7-89c5-95704aebb7e2", CreatedAt := 1568050163,
                  ExpiresAt := 1568053763, RequestIP := "69.56.104.36" } :=
  (invite_expiry_boundary demoCipher [7] "secret" "d69bdef7-173f-4d29-b52c-3edc60baf6a2" "c4653bf9-5978-48b7-89c5-95704aebb7e2" "69.56.104.36" ⟨1568050163000000000⟩
    (by decide) (demoCipher_inverse "secret") (by decide) (by decide) (by decide) (by decide)
    (by decide)).1 (by decide) (by decide)

end invite

namespace invite

theorem hashOfParts_of_length_ne (l : List String) (h : l.length ≠ 5) : hashOfParts l = {} := by
  unfold hashOfParts
  split
  · simp at h
  · rfl

/-- C9. When the decrypted plaintext does not split on `|` into exactly five
pieces, `ParseInviteHash` returns, at every time `now`, the validation error of
the zero hash (all five fields missing) and no `InviteHash`; that error is not
`ErrInviteExpired` and does not wrap it. -/
theorem invite_wrong_field_count (cr : Symcrypto) (encrypted secretKey payload : String)
    (now : Time) (hnew : cr.New secretKey = none)
    (hdec : cr.Decrypt secretKey encrypted = .ok payload)
    (hlen : (strings.Split payload '|').length ≠ 5) :
    ParseInviteHash cr encrypted secretKey now
        = .error (.fieldErrors [⟨"UserID", "required"⟩, ⟨"AccountID", "required"⟩,
            ⟨"CreatedAt", "required"⟩, ⟨"ExpiresAt", "required"⟩, ⟨"RequestIP", "required"⟩])
      ∧ (∀ h, ParseInviteHash cr encrypted secretKey now ≠ .ok h)
      ∧ GoError.fieldErrors [⟨"UserID", "required"⟩, ⟨"AccountID", "required"⟩,
            ⟨"CreatedAt", "required"⟩, ⟨"ExpiresAt", "required"⟩, ⟨"RequestIP", "required"⟩]
          ≠ ErrInviteExpired
      ∧ (GoError.fieldErrors [⟨"UserID", "required"⟩, ⟨"AccountID", "required"⟩,
            ⟨"CreatedAt", "required"⟩, ⟨"ExpiresAt", "required"⟩, ⟨"RequestIP", "required"⟩]).Cause
          ≠ ErrInviteExpired := by
  have hres : ParseInviteHash cr encrypted secretKey now
      = .error (.fieldErrors [⟨"UserID", "required"⟩, ⟨"AccountID", "required"⟩,
          ⟨"CreatedAt", "required"⟩, ⟨"ExpiresAt", "required"⟩, ⟨"RequestIP", "required"⟩]) := by
    rw [ParseInviteHash_of_decrypt cr encrypted secretKey payload now hnew hdec]
    have hzero : ({} : InviteHash).StructCtx
        = some (.fieldErrors [⟨"UserID", "required"⟩, ⟨"AccountID", "required"⟩,
            ⟨"CreatedAt", "required"⟩, ⟨"ExpiresAt", "required"⟩, ⟨"RequestIP", "required"⟩]) := by
      decide
    simp only [parsePlain, hashOfParts_of_length_ne _ hlen, hzero]
  refine ⟨hres, ?_, by decide, by decide⟩
  intro h hok
  rw [hres] at hok
  cases hok

/-- C9 at a concrete plaintext of two pieces. -/
theorem invite_wrong_field_count_witness :
    ParseInviteHash demoCipher "#d69bdef7-173f-4d29-b52c-3edc60baf6a2|69.56.104.36" "secret" ⟨0⟩
      = .error (.fieldErrors [⟨"UserID", "required"⟩, ⟨"AccountID", "required"⟩,
          ⟨"CreatedAt", "required"⟩, ⟨"ExpiresAt", "required"⟩, ⟨"RequestIP", "required"⟩]) :=
  (invite_wrong_field_count demoCipher "#d69bdef7-173f-4d29-b52c-3edc60baf6a2|69.56.104.36" "secret" "d69bdef7-173f-4d29-b52c-3edc60baf6a2|69.56.104.36" ⟨0⟩
    (by decide) (by decide) (by decide)).1

/-- C10, as stated, fails: a plaintext of five pieces whose two timestamps are
the numeral 99999999999999999999, which no Go `int` can hold, is accepted, and
the timestamps of the result are the largest `int`, not the integer the
numeral denotes; and a plaintext whose timestamps are 99999999999999999999x,
which is no numeral, is accepted as well, since `Atoi` stops reading at the
digit that takes the number over the largest `uint64`. -/
theorem invite_accepts_unrepresentable_timestamp :
    ParseInviteHash demoCipher
        "#d69bdef7-173f-4d29-b52c-3edc60baf6a2|c4653bf9-5978-48b7-89c5-95704aebb7e2|99999999999999999999|99999999999999999999|69.56.104.36"
        "secret" ⟨1568050163000000000⟩
      = .ok { UserID := "d69bdef7-173f-4d29-b52c-3edc60baf6a2", AccountID := "c4653bf9-5978-48b7-89c5-95704aebb7e2", CreatedAt := 9223372036854775807,
              ExpiresAt := 9223372036854775807, RequestIP := "69.56.104.36" }
      ∧ strconv.IsNumeral "99999999999999999999" = true
      ∧ strconv.numeralValue "99999999999999999999" = 99999999999999999999
      ∧ strconv.fitsInt 99999999999999999999 = false
      ∧ ParseInviteHash demoCipher
          "#d69bdef7-173f-4d29-b52c-3edc60baf6a2|c4653bf9-5978-48b7-89c5-95704aebb7e2|99999999999999999999x|99999999999999999999x|69.56.104.36"
          "secret" ⟨1568050163000000000⟩
        = .ok { UserID := "d69bdef7-173f-4d29-b52c-3edc60baf6a2", AccountID := "c4653bf9-5978-48b7-89c5-95704aebb7e2", CreatedAt := 9223372036854775807,
                ExpiresAt := 9223372036854775807, RequestIP := "69.56.104.36" }
      ∧ strconv.IsNumeral "99999999999999999999x" = false := by
  decide

/-- C10, amended. For a decrypted plaintext of exactly five pieces,
`ParseInviteHash` accepts it only if pieces 1 and 2 have the shape of a UUID,
pieces 3 and 4 each are a decimal numeral that denotes an integer other than
0, or a text that starts, after an optional sign, with digits that already
denote more than the largest `uint64`, and piece 5 is a valid IP address; the
ids and the address of the result are the pieces, its timestamps are the
values `Atoi` gives for pieces 3 and 4, and a timestamp is the integer its
piece denotes when the piece is a numeral of an integer that fits a Go `int`.
A plaintext in which a piece fails its shape (a timestamp that is neither
among them) is rejected with an error. -/
theorem invite_field_shapes (cr : Symcrypto) (encrypted secretKey payload : String)
    (f1 f2 f3 f4 f5 : String) (now : Time) (hnew : cr.New secretKey = none)
    (hdec : cr.Decrypt secretKey encrypted = .ok payload)
    (hsplit : strings.Split payload '|' = [f1, f2, f3, f4, f5]) :
    (∀ h, ParseInviteHash cr encrypted secretKey now = .ok h →
        validator.isUUID f1 = true ∧ validator.isUUID f2 = true
          ∧ ((strconv.IsNumeral f3 = true ∧ strconv.numeralValue f3 ≠ 0)
            ∨ strconv.OverflowsUint64 f3 = true)
          ∧ ((strconv.IsNumeral f4 = true ∧ strconv.numeralValue f4 ≠ 0)
            ∨ strconv.OverflowsUint64 f4 = true)
          ∧ validator.isIP f5 = true
          ∧ h.UserID = f1 ∧ h.AccountID = f2 ∧ h.RequestIP = f5
          ∧ h.CreatedAt = (strconv.Atoi f3).1 ∧ h.ExpiresAt = (strconv.Atoi f4).1
          ∧ (strconv.IsNumeral f3 = true → strconv.fitsInt (strconv.numeralValue f3) = true
              → h.CreatedAt = strconv.numeralValue f3)
          ∧ (strconv.IsNumeral f4 = true → strconv.fitsInt (strconv.numeralValue f4) = true
              → h.ExpiresAt = strconv.numeralValue f4))
      ∧ (¬ (validator.isUUID f1 = true ∧ validator.isUUID f2 = true
            ∧ ((strconv.IsNumeral f3 = true ∧ strconv.numeralValue f3 ≠ 0)
              ∨ strconv.OverflowsUint64 f3 = true)
            ∧ ((strconv.IsNumeral f4 = true ∧ strconv.numeralValue f4 ≠ 0)
              ∨ strconv.OverflowsUint64 f4 = true)
            ∧ validator.isIP f5 = true)
          → ∃ err, ParseInviteHash cr encrypted secretKey now = .error err) := by
  have hparts : hashOfParts (strings.Split payload '|')
      = { UserID := f1, AccountID := f2, CreatedAt := (strconv.Atoi f3).1,
          ExpiresAt := (strconv.Atoi f4).1, RequestIP := f5 } := by
    rw [hsplit]
    rfl
  have hfirst : ∀ h, ParseInviteHash cr encrypted secretKey now = .ok h →
      validator.isUUID f1 = true ∧ validator.isUUID f2 = true
        ∧ ((strconv.IsNumeral f3 = true ∧ strconv.numeralValue f3 ≠ 0)
          ∨ strconv.OverflowsUint64 f3 = true)
        ∧ ((strconv.IsNumeral f4 = true ∧ strconv.numeralValue f4 ≠ 0)
          ∨ strconv.OverflowsUint64 f4 = true)
        ∧ validator.isIP f5 = true
        ∧ h.UserID = f1 ∧ h.AccountID = f2 ∧ h.RequestIP = f5
        ∧ h.CreatedAt = (strconv.Atoi f3).1 ∧ h.ExpiresAt = (strconv.Atoi f4).1
        ∧ (strconv.IsNumeral f3 = true → strconv.fitsInt (strconv.numeralValue f3) = true
            → h.CreatedAt = strconv.numeralValue f3)
        ∧ (strconv.IsNumeral f4 = true → strconv.fitsInt (strconv.numeralValue f4) = true
            → h.ExpiresAt = strconv.numeralValue f4) := by
    intro h hok
    rw [ParseInviteHash_of_decrypt cr encrypted secretKey payload now hnew hdec] at hok
    simp only [parsePlain, hparts] at hok
    split at hok
    · cases hok
    · rename_i hvalid
      split at hok
      · cases hok
      · simp only [Except.ok.injEq] at hok
        subst hok
        obtain ⟨h1, h2, h3, h4, h5⟩ := (InviteHash.structCtx_eq_none_iff _).mp hvalid
        refine ⟨h1, h2, strconv.Atoi_ne_zero f3 h3, strconv.Atoi_ne_zero f4 h4, h5,
          rfl, rfl, rfl, rfl, rfl, ?_, ?_⟩
        · intro hn hfit
          simp only [strconv.fitsInt, decide_eq_true_eq] at hfit
          show (strconv.Atoi f3).1 = _
          rw [strconv.Atoi_numeral f3 hn hfit.1 hfit.2]
        · intro hn hfit
          simp only [strconv.fitsInt, decide_eq_true_eq] at hfit
          show (strconv.Atoi f4).1 = _
          rw [strconv.Atoi_numeral f4 hn hfit.1 hfit.2]
  refine ⟨hfirst, ?_⟩
  intro hbad
  cases hres : ParseInviteHash cr encrypted secretKey now with
  | error err => exact ⟨err, rfl⟩
  | ok h =>
    obtain ⟨h1, h2, h3, h4, h5, _⟩ := hfirst h hres
    exact absurd ⟨h1, h2, h3, h4, h5⟩ hbad

/-- The amended C10 at two concrete plaintexts: one whose first timestamp,
`15x`, is neither a numeral nor over the largest `uint64` is rejected; of one
that is accepted, the timestamps are the integers the numerals denote. -/
theorem invite_field_shapes_witness :
    (∃ err, ParseInviteHash demoCipher "#d69bdef7-173f-4d29-b52c-3edc60baf6a2|c4653bf9-5978-48b7-89c5-95704aebb7e2|15x|1568053763|69.56.104.36" "secret"
      ⟨1568050163000000000⟩ = .error err)
    ∧ (∀ h, ParseInviteHash demoCipher "#d69bdef7-173f-4d29-b52c-3edc60baf6a2|c4653bf9-5978-48b7-89c5-95704aebb7e2|1568050163|1568053763|69.56.104.36" "secret"
        ⟨1568050163000000000⟩ = .ok h → h.CreatedAt = 1568050163 ∧ h.ExpiresAt = 1568053763) :=
  ⟨(invite_field_shapes demoCipher "#d69bdef7-173f-4d29-b52c-3edc60baf6a2|c4653bf9-5978-48b7-89c5-95704aebb7e2|15x|1568053763|69.56.104.36" "secret"
      "d69bdef7-173f-4d29-b52c-3edc60baf6a2|c4653bf9-5978-48b7-89c5-95704aebb7e2|15x|1568053763|69.56.104.36" "d69bdef7-173f-4d29-b52c-3edc60baf6a2" "c4653bf9-5978-48b7-89c5-95704aebb7e2" "15x" "1568053763" "69.56.104.36" ⟨1568050163000000000⟩
      (by decide) (by decide) (by decide)).2 (by decide),
    fun h hok =>
      ⟨((invite_field_shapes demoCipher "#d69bdef7-173f-4d29-b52c-3edc60baf6a2|c4653bf9-5978-48b7-89c5-95704aebb7e2|1568050163|1568053763|69.56.104.36" "secret"
          "d69bdef7-173f-4d29-b52c-3edc60baf6a2|c4653bf9-5978-48b7-89c5-95704aebb7e2|1568050163|1568053763|69.56.104.36" "d69bdef7-173f-4d29-b52c-3edc60baf6a2" "c4653bf9-5978-48b7-89c5-95704aebb7e2" "1568050163" "1568053763"
          "69.56.104.36" ⟨1568050163000000000⟩
          (by decide) (by decide) (by decide)).1 h hok).2.2.2.2.2.2.2.2.2.2.1
          (by decide) (by decide),
        ((invite_field_shapes demoCipher "#d69bdef7-173f-4d29-b52c-3edc60baf6a2|c4653bf9-5978-48b7-89c5-95704aebb7e2|1568050163|1568053763|69.56.104.36" "secret"
          "d69bdef7-173f-4d29-b52c-3edc60baf6a2|c4653bf9-5978-48b7-89c5-95704aebb7e2|1568050163|1568053763|69.56.104.36" "d69bdef7-173f-4d29-b52c-3edc60baf6a2" "c4653bf9-5978-48b7-89c5-95704aebb7e2" "1568050163" "1568053763"
          "69.56.104.36" ⟨1568050163000000000⟩
          (by decide) (by decide) (by decide)).1 h hok).2.2.2.2.2.2.2.2.2.2.2
          (by decide) (by decide)⟩⟩

end invite


/-! ## theorems: invite hashes, continued -/

namespace invite

theorem parsePlain_of_length_ne (payload : String) (now : Time)
    (hlen : (strings.Split payload '|').length ≠ 5) :
    parsePlain payload now
      = .error (.fieldErrors [⟨"UserID", "required"⟩, ⟨"AccountID", "required"⟩,
          ⟨"CreatedAt", "required"⟩, ⟨"ExpiresAt", "required"⟩, ⟨"RequestIP", "required"⟩]) := by
  have hzero : ({} : InviteHash).StructCtx
      = some (.fieldErrors [⟨"UserID", "required"⟩, ⟨"AccountID", "required"⟩,
          ⟨"CreatedAt", "required"⟩, ⟨"ExpiresAt", "required"⟩, ⟨"RequestIP", "required"⟩]) := by
    decide
  simp only [parsePlain, hashOfParts_of_length_ne _ hlen, hzero]

theorem length_splitOn_bar (l : List Char) : (l.splitOn '|').length = l.count '|' + 1 := by
  induction l with
  | nil => simp
  | cons c cs ih =>
    simp only [List.splitOn] at ih ⊢
    rw [List.splitOnP_cons]
    by_cases h : c = '|'
    · subst h
      simp [ih]
    · have hb : (c == '|') = false := by simpa using h
      simp [hb, ih, List.count_cons]

/-- The number of pieces of the plaintext of `NewInviteHash`: five, and one
more for each `|` in the user id, the account id and the IP address. -/
theorem hashStr_field_count (userID accountID requestIp : String) (ttl : Duration) (now : Time) :
    (strings.Split (hashStr userID accountID requestIp ttl now) '|').length
      = 5 + userID.data.count '|' + accountID.data.count '|' + requestIp.data.count '|' := by
  have h1 : (strconv.Itoa now.UTC.Unix).data.count '|' = 0 :=
    List.count_eq_zero.mpr (strconv.Itoa_no_bar _)
  have h2 : (strconv.Itoa (now.UTC.Add ttl).Unix).data.count '|' = 0 :=
    List.count_eq_zero.mpr (strconv.Itoa_no_bar _)
  have hsep : ("|" : String).data = ['|'] := rfl
  simp only [strings.Split, hashStr, strings.Join, List.length_map, length_splitOn_bar, hsep,
    List.map_cons, List.map_nil, List.intercalate, List.intersperse, List.flatten,
    List.count_append, List.count_cons, List.count_nil, h1, h2, List.append_nil,
    beq_self_eq_true, if_true]
  omega

/-- C11, as stated, fails: with a `|` in the user id `NewInviteHash` returns an
invite string, and its plaintext splits into six pieces. -/
theorem newInviteHash_keeps_delimiter :
    NewInviteHash demoCipher [] "secret" "a|b" demoAccountA "69.56.104.36" Hour
        ⟨1568050163000000000⟩
      = .ok "#a|b|c4653bf9-5978-48b7-89c5-95704aebb7e2|1568050163|1568053763|69.56.104.36"
    ∧ (strings.Split
        "a|b|c4653bf9-5978-48b7-89c5-95704aebb7e2|1568050163|1568053763|69.56.104.36" '|').length
      = 6 := by
  decide

/-- C11, amended. `NewInviteHash` makes no check of its fields and escapes
nothing: whenever the cipher accepts the secret and encrypts, it returns the
invite string, and the plaintext splits into five pieces plus one for each `|`
in the user id, the account id and the IP address. So the plaintext has
exactly five pieces if and only if none of the three holds a `|`, and an invite
made from a field with a `|` is rejected by `ParseInviteHash` with the
validation error. -/
theorem newInviteHash_field_count (cr : Symcrypto) (entropy : List Nat)
    (secretKey userID accountID requestIp ct : String) (ttl : Duration) (now : Time)
    (hnew : cr.New secretKey = none)
    (henc : cr.Encrypt secretKey entropy (hashStr userID accountID requestIp ttl now) = .ok ct) :
    NewInviteHash cr entropy secretKey userID accountID requestIp ttl now = .ok ct
      ∧ (strings.Split (hashStr userID accountID requestIp ttl now) '|').length
          = 5 + userID.data.count '|' + accountID.data.count '|' + requestIp.data.count '|'
      ∧ ((strings.Split (hashStr userID accountID requestIp ttl now) '|').length = 5
          ↔ '|' ∉ userID.data ∧ '|' ∉ accountID.data ∧ '|' ∉ requestIp.data)
      ∧ (cr.Decrypt secretKey ct = .ok (hashStr userID accountID requestIp ttl now) →
          ('|' ∈ userID.data ∨ '|' ∈ accountID.data ∨ '|' ∈ requestIp.data) →
          ∀ t, ∃ es, ParseInviteHash cr ct secretKey t = .error (.fieldErrors es)) := by
  have hcount := hashStr_field_count userID accountID requestIp ttl now
  have hiff : (strings.Split (hashStr userID accountID requestIp ttl now) '|').length = 5
      ↔ '|' ∉ userID.data ∧ '|' ∉ accountID.data ∧ '|' ∉ requestIp.data := by
    rw [hcount, ← List.count_eq_zero, ← List.count_eq_zero, ← List.count_eq_zero]
    omega
  refine ⟨by simp only [NewInviteHash, hnew, henc], hcount, hiff, ?_⟩
  intro hdec hbar t
  have hlen : (strings.Split (hashStr userID accountID requestIp ttl now) '|').length ≠ 5 := by
    intro h5
    obtain ⟨h1, h2, h3⟩ := hiff.mp h5
    rcases hbar with h | h | h
    · exact h1 h
    · exact h2 h
    · exact h3 h
  exact ⟨_, by
    rw [ParseInviteHash_of_decrypt cr ct secretKey _ t hnew hdec]
    exact parsePlain_of_length_ne _ t hlen⟩

/-- The amended C11 at a concrete call with a `|` in the user id. -/
theorem newInviteHash_field_count_witness :
    NewInviteHash demoCipher [] "secret" "a|b" demoAccountA "69.56.104.36" Hour
        ⟨1568050163000000000⟩
      = .ok "#a|b|c4653bf9-5978-48b7-89c5-95704aebb7e2|1568050163|1568053763|69.56.104.36"
    ∧ ∀ t, ∃ es, ParseInviteHash demoCipher
        "#a|b|c4653bf9-5978-48b7-89c5-95704aebb7e2|1568050163|1568053763|69.56.104.36"
        "secret" t = .error (.fieldErrors es) :=
  have h := newInviteHash_field_count demoCipher [] "secret" "a|b" demoAccountA "69.56.104.36"
    "#a|b|c4653bf9-5978-48b7-89c5-95704aebb7e2|1568050163|1568053763|69.56.104.36" Hour
    ⟨1568050163000000000⟩ (by decide) (by decide)
  ⟨h.1, h.2.2.2 (by decide) (by decide)⟩

/-- C12. When the cipher cannot be made from the secret, or decryption of the
invite string fails, `ParseInviteHash` returns, at every time, the cipher's
error with a stack, and no `InviteHash`: nothing is split, validated or
checked for expiry. -/
theorem parseInviteHash_unauthenticated (cr : Symcrypto) (encrypted secretKey : String)
    (e : GoError)
    (hfail : cr.New secretKey = some e
      ∨ (cr.New secretKey = none ∧ cr.Decrypt secretKey encrypted = .error e)) :
    ∀ t, ParseInviteHash cr encrypted secretKey t = .error (.withStack e)
      ∧ ∀ h, ParseInviteHash cr encrypted secretKey t ≠ .ok h := by
  intro t
  have hres : ParseInviteHash cr encrypted secretKey t = .error (.withStack e) := by
    rcases hfail with h | ⟨h1, h2⟩
    · simp only [ParseInviteHash, h]
    · simp only [ParseInviteHash, h1, h2]
  refine ⟨hres, ?_⟩
  intro h hok
  rw [hres] at hok
  cases hok

/-- C12 at a concrete invite string that the example cipher cannot decrypt. -/
theorem parseInviteHash_unauthenticated_witness :
    ParseInviteHash demoCipher "tampered" "secret" ⟨1568050163000000000⟩
        = .error (.withStack (.errorf "symcrypto: message authentication failed" []))
      ∧ ∀ h, ParseInviteHash demoCipher "tampered" "secret" ⟨1568050163000000000⟩ ≠ .ok h :=
  parseInviteHash_unauthenticated demoCipher "tampered" "secret"
    (.errorf "symcrypto: message authentication failed" []) (Or.inr ⟨by decide, by decide⟩)
    ⟨1568050163000000000⟩

end invite


/-! ## theorems: the membership repository -/

namespace user_account

open sqlbuilder

theorem Row.column_id (r : Row) : r.column "id" = .text r.id := rfl

theorem Row.column_user_id (r : Row) : r.column "user_id" = .text r.user_id := rfl

theorem Row.column_account_id (r : Row) : r.column "account_id" = .text r.account_id := rfl

theorem Row.column_archived_at_null (r : Row) :
    (r.column "archived_at" == Value.null) = true ↔ r.archived_at = none := by
  have h : r.column "archived_at"
      = (match r.archived_at with
         | some t => Value.time t
         | none => Value.null) := rfl
  rw [h]
  cases r.archived_at <;> simp

theorem evalAll_append (evalRaw : String → List String → Row → Bool) (args : List String)
    (rows : List Row) (cs ds : List Cond) (r : Row) :
    evalAll evalRaw args rows (cs ++ ds) r
      = (evalAll evalRaw args rows cs r && evalAll evalRaw args rows ds r) := by
  induction cs with
  | nil => simp [evalAll]
  | cons c cs ih => simp [evalAll, ih, Bool.and_assoc]

theorem evalAll_singleton (evalRaw : String → List String → Row → Bool) (args : List String)
    (rows : List Row) (c : Cond) (r : Row) :
    evalAll evalRaw args rows [c] r = evalCond evalRaw args rows c r := by
  simp [evalAll]

/-- A clause that does not start with a text of the caller is the conjunction
of its expressions. -/
theorem evalWhere_plain (evalRaw : String → List String → Row → Bool) (args : List String)
    (rows : List Row) (exprs : List Cond) (r : Row) (h : splicedText exprs = none) :
    evalWhere evalRaw args rows exprs r = evalAll evalRaw args rows exprs r := by
  simp only [evalWhere, h]

theorem whereSyntaxOK_plain (exprs : List Cond) (h : splicedText exprs = none) :
    whereSyntaxOK exprs = true := by
  simp only [whereSyntaxOK, h]

theorem cutByComment_plain (exprs : List Cond) (h : splicedText exprs = none) :
    cutByComment exprs = false := by
  simp only [cutByComment, h]

/-- A clause that starts with a self-contained text of the caller is the
conjunction of the text, read as one condition in parentheses, and of the
expressions after it. -/
theorem evalWhere_selfContained (evalRaw : String → List String → Row → Bool)
    (args : List String) (rows : List Row) (text : String) (rest : List Cond) (r : Row)
    (h : selfContained text = true) :
    evalWhere evalRaw args rows (Cond.and [Cond.raw text] :: rest) r
      = (evalRaw ("(" ++ text ++ ")") args r && evalAll evalRaw args rows rest r) := by
  have hr : readWhere text = some ⟨[["(" ++ text ++ ")"]], true⟩ := by
    have h2 : plainText text = true
        ∧ readWhere text = some ⟨[["(" ++ text ++ ")"]], true⟩ := by
      simpa [selfContained] using h
    exact h2.2
  simp [evalWhere, splicedText, hr, WhereReading.eval]

theorem whereSyntaxOK_selfContained (text : String) (rest : List Cond)
    (h : selfContained text = true) :
    whereSyntaxOK (Cond.and [Cond.raw text] :: rest) = true := by
  have hr : readWhere text = some ⟨[["(" ++ text ++ ")"]], true⟩ := by
    have h2 : plainText text = true
        ∧ readWhere text = some ⟨[["(" ++ text ++ ")"]], true⟩ := by
      simpa [selfContained] using h
    exact h2.2
  simp [whereSyntaxOK, splicedText, hr]

theorem cutByComment_selfContained (text : String) (rest : List Cond)
    (h : selfContained text = true) :
    cutByComment (Cond.and [Cond.raw text] :: rest) = false := by
  have hr : readWhere text = some ⟨[["(" ++ text ++ ")"]], true⟩ := by
    have h2 : plainText text = true
        ∧ readWhere text = some ⟨[["(" ++ text ++ ")"]], true⟩ := by
      simpa [selfContained] using h
    exact h2.2
  simp [cutByComment, splicedText, hr]

end user_account

namespace user_account

open sqlbuilder

/-- The pair condition `user_id = u AND account_id = a` (in either order) holds
of a row exactly when the row is of that pair. -/
theorem evalCond_pair (evalRaw : String → List String → Row → Bool) (args : List String)
    (rows : List Row) (u a : String) (r : Row) :
    (evalCond evalRaw args rows (Cond.and [Cond.equal "user_id" u, Cond.equal "account_id" a]) r
        = true ↔ r.user_id = u ∧ r.account_id = a)
      ∧ (evalCond evalRaw args rows
          (Cond.and [Cond.equal "account_id" a, Cond.equal "user_id" u]) r
        = true ↔ r.user_id = u ∧ r.account_id = a) := by
  simp only [evalCond, evalAll, Row.column_user_id, Row.column_account_id, Bool.and_true,
    Bool.and_eq_true, beq_iff_eq, Value.text.injEq]
  exact ⟨trivial, And.comm⟩

/-- What the condition of `applyClaimsSelect` says of a row: some row of the
table with the same id matches the Audience (when set) or the Subject (when set). -/
theorem evalCond_aclCond (evalRaw : String → List String → Row → Bool) (args : List String)
    (rows : List Row) (claims : auth.Claims) (r : Row) :
    evalCond evalRaw args rows (aclCond claims) r = true ↔
      ∃ r2 ∈ rows, r2.id = r.id
        ∧ ((claims.Audience ≠ "" ∧ r2.account_id = claims.Audience)
          ∨ (claims.Subject ≠ "" ∧ r2.user_id = claims.Subject)) := by
  have htab : tableRows rows userAccountTableName = rows := by simp [tableRows]
  simp only [aclCond, evalCond, htab, List.any_eq_true, Bool.and_eq_true, evalAll, Bool.and_true,
    Row.column_id, beq_iff_eq, Value.text.injEq, bne_iff_ne, ne_eq, reduceCtorEq,
    not_false_eq_true, true_and]
  have hany : ∀ r2 : Row,
      evalAny evalRaw args rows
          ((if claims.Audience ≠ "" then [Cond.equal "account_id" claims.Audience] else [])
            ++ (if claims.Subject ≠ "" then [Cond.equal "user_id" claims.Subject] else [])) r2
        = true
      ↔ ((claims.Audience ≠ "" ∧ r2.account_id = claims.Audience)
          ∨ (claims.Subject ≠ "" ∧ r2.user_id = claims.Subject)) := by
    intro r2
    by_cases ha : claims.Audience = "" <;> by_cases hs : claims.Subject = "" <;>
      simp [ha, hs, evalAny, evalCond, Row.column_user_id, Row.column_account_id]
  constructor
  · rintro ⟨r2, hr2, h1, h2⟩
    exact ⟨r2, hr2, h2, (hany r2).mp h1⟩
  · rintro ⟨r2, hr2, h2, h1⟩
    exact ⟨r2, hr2, (hany r2).mpr h1, h2⟩

/-- With ids that are unique in the table, the condition of `applyClaimsSelect`
holds of a row of the table exactly when the row itself matches. -/
theorem evalCond_aclCond_of_nodup (evalRaw : String → List String → Row → Bool)
    (args : List String) (rows : List Row) (claims : auth.Claims) (r : Row)
    (hnodup : (rows.map Row.id).Nodup) (hr : r ∈ rows) :
    evalCond evalRaw args rows (aclCond claims) r = true ↔
      ((claims.Audience ≠ "" ∧ r.account_id = claims.Audience)
        ∨ (claims.Subject ≠ "" ∧ r.user_id = claims.Subject)) := by
  rw [evalCond_aclCond]
  constructor
  · rintro ⟨r2, hr2, hid, h⟩
    have heq : r2 = r := List.inj_on_of_nodup_map hnodup hr2 hr hid
    rw [← heq]
    exact h
  · intro h
    exact ⟨r, hr, rfl, h⟩

theorem applyClaimsSelect_eq (claims : auth.Claims) (query : SelectBuilder) :
    applyClaimsSelect claims query
      = (none, if claims.Audience = "" ∧ claims.Subject = "" then query
          else query.Where [aclCond claims]) := by
  unfold applyClaimsSelect aclCond
  by_cases ha : claims.Audience = "" <;> by_cases hs : claims.Subject = "" <;> simp [ha, hs]

theorem findQuery_eq (claims : auth.Claims) (query : SelectBuilder) (inc : Bool) :
    (applyClaimsSelect claims
        (if !inc then
          ((query.Select userAccountMapColumns).From userAccountTableName).Where
            [Cond.isNull "archived_at"]
        else (query.Select userAccountMapColumns).From userAccountTableName))
      = (none, findQuery claims query inc) := by
  rw [applyClaimsSelect_eq]
  cases inc <;> by_cases h : claims.Audience = "" ∧ claims.Subject = "" <;>
    simp [h, findQuery, SelectBuilder.Where, SelectBuilder.Select, SelectBuilder.From]

/-- The function `find` in one piece: it sends the query `findQuery`; the
database fails on a clause it cannot read or for a reason of its own, and `find`
maps the rows it returns otherwise. -/
theorem find_eq_general (env : Env) (claims : auth.Claims) (db : DB) (query : SelectBuilder)
    (args : List String) (inc : Bool) :
    find env claims db query args inc
      = (if whereSyntaxOK (findQuery claims query inc).whereExprs = false then
           .error (.withMessage (pqSyntaxError.Wrap "query - %s") "find user accounts failed")
         else
           match env.queryError db.rows (findQuery claims query inc) with
           | some err =>
             .error (.withMessage (err.Wrap "query - %s") "find user accounts failed")
           | none =>
             .ok ((runSelect env db.rows (findQuery claims query inc) args).map
               mapRowsToUserAccount),
        { db with log := db.log ++ [Stmt.select (findQuery claims query inc) args] }) := by
  unfold find
  simp only [findQuery_eq]
  by_cases hs : whereSyntaxOK (findQuery claims query inc).whereExprs = false
  · simp only [hs, if_true]
  · simp only [hs, if_false]
    cases env.queryError db.rows (findQuery claims query inc) <;> rfl

/-- The function `find` for a query whose clause the database can read. -/
theorem find_eq (env : Env) (claims : auth.Claims) (db : DB) (query : SelectBuilder)
    (args : List String) (inc : Bool)
    (hsyn : whereSyntaxOK (findQuery claims query inc).whereExprs = true) :
    find env claims db query args inc
      = (match env.queryError db.rows (findQuery claims query inc) with
         | some err =>
           .error (.withMessage (err.Wrap "query - %s") "find user accounts failed")
         | none =>
           .ok ((runSelect env db.rows (findQuery claims query inc) args).map mapRowsToUserAccount),
        { db with log := db.log ++ [Stmt.select (findQuery claims query inc) args] }) := by
  rw [find_eq_general]
  simp only [hsyn, Bool.true_eq_false, if_false]

theorem find_snd (env : Env) (claims : auth.Claims) (db : DB) (query : SelectBuilder)
    (args : List String) (inc : Bool) :
    (find env claims db query args inc).2
      = { db with log := db.log ++ [Stmt.select (findQuery claims query inc) args] } := by
  rw [find_eq_general]

/-- The rows of a select whose clause does not start with a text of the
caller: the rows of the table that satisfy every expression, in order, cut by
`LIMIT` and `OFFSET`. -/
theorem runSelect_plain (env : Env) (rows : List Row) (query : SelectBuilder)
    (args : List String) (h : splicedText query.whereExprs = none) :
    runSelect env rows query args
      = limitRows query (env.orderBy query.orderByCols
          ((tableRows rows query.table).filter
            fun r => evalAll env.evalRaw args rows query.whereExprs r)) := by
  have hev : (fun r => evalWhere env.evalRaw args rows query.whereExprs r)
      = fun r => evalAll env.evalRaw args rows query.whereExprs r := by
    funext r
    exact evalWhere_plain _ _ _ _ _ h
  simp only [runSelect, cutByComment_plain _ h, Bool.false_eq_true, if_false, hev]

theorem mem_limitRows (query : SelectBuilder) (l : List Row) (r : Row)
    (h : r ∈ limitRows query l) : r ∈ l := by
  unfold limitRows at h
  split at h
  · split at h
    · exact List.mem_of_mem_drop (List.mem_of_mem_take h)
    · exact List.mem_of_mem_take h
  · exact h

theorem limitRows_of_neg (query : SelectBuilder) (l : List Row) (h : query.limit < 0) :
    limitRows query l = l := by
  unfold limitRows
  rw [if_neg (by omega)]

/-- A row a select returns is a row of the table that satisfies every
expression of the `WHERE` clause. -/
theorem mem_runSelect (env : Env) (rows : List Row) (query : SelectBuilder)
    (args : List String) (r : Row) (hp : splicedText query.whereExprs = none)
    (h : r ∈ runSelect env rows query args) :
    r ∈ rows ∧ evalAll env.evalRaw args rows query.whereExprs r = true := by
  rw [runSelect_plain env rows query args hp] at h
  have hsorted := mem_limitRows _ _ _ h
  have hfilter := (env.orderBy_perm _ _).mem_iff.mp hsorted
  rw [List.mem_filter] at hfilter
  refine ⟨?_, hfilter.2⟩
  have ht := hfilter.1
  unfold tableRows at ht
  split at ht
  · exact ht
  · simp at ht

/-- Without `LIMIT`, a select on `users_accounts` returns exactly the rows of
the table that satisfy the `WHERE` clause. -/
theorem mem_runSelect_iff (env : Env) (rows : List Row) (query : SelectBuilder)
    (args : List String) (r : Row) (hp : splicedText query.whereExprs = none)
    (htable : query.table = userAccountTableName) (hlimit : query.limit < 0) :
    r ∈ runSelect env rows query args
      ↔ r ∈ rows ∧ evalAll env.evalRaw args rows query.whereExprs r = true := by
  rw [runSelect_plain env rows query args hp, limitRows_of_neg _ _ hlimit,
    (env.orderBy_perm _ _).mem_iff, List.mem_filter]
  simp only [htable, tableRows, if_true]

theorem findQuery_whereExprs (claims : auth.Claims) (query : SelectBuilder) (inc : Bool)
    (hne : claims.Audience ≠ "" ∨ claims.Subject ≠ "") :
    (findQuery claims query inc).whereExprs
      = query.whereExprs ++ (if inc then [] else [Cond.isNull "archived_at"])
        ++ [aclCond claims] := by
  have h : ¬ (claims.Audience = "" ∧ claims.Subject = "") := by
    rintro ⟨h1, h2⟩
    rcases hne with h | h
    · exact h h1
    · exact h h2
  simp only [findQuery, if_neg h]

/-- The expressions `find` adds to a clause, as a condition on a row. -/
theorem evalAll_findQuery (env : Env) (claims : auth.Claims) (rows : List Row)
    (args : List String) (query : SelectBuilder) (inc : Bool) (r : Row) :
    evalAll env.evalRaw args rows (findQuery claims query inc).whereExprs r
      = (evalAll env.evalRaw args rows query.whereExprs r
          && findAdmits env claims rows args inc r) := by
  have harch : evalCond env.evalRaw args rows (Cond.isNull "archived_at") r
      = r.archived_at.isNone := by
    have h := Row.column_archived_at_null r
    simp only [evalCond]
    cases ha : r.archived_at with
    | none => simpa [ha] using h
    | some t =>
      rw [ha] at h
      simp only [reduceCtorEq, iff_false, Bool.not_eq_true] at h
      simpa using h
  by_cases hc : claims.Audience = "" ∧ claims.Subject = "" <;> cases inc <;>
    simp [findQuery, hc, evalAll_append, evalAll, findAdmits, harch, Bool.and_assoc]

/-- A query that does not start with a text of the caller does not start with
one after `find` has added its expressions. -/
theorem splicedText_findQuery (claims : auth.Claims) (query : SelectBuilder) (inc : Bool)
    (c : Cond) (cs : List Cond) (hq : query.whereExprs = c :: cs)
    (hc : splicedText (c :: cs) = none) :
    splicedText (findQuery claims query inc).whereExprs = none := by
  have h : ∀ l : List Cond, splicedText (c :: (cs ++ l)) = none := by
    intro l
    unfold splicedText at hc ⊢
    split at hc
    · cases hc
    · rename_i hno
      split
      · rename_i text rest heq
        simp only [List.cons.injEq] at heq
        exact absurd (by rw [heq.1]) (hno text cs)
      · rfl
  simp only [findQuery, hq, List.cons_append, List.append_assoc]
  exact h _

/-- A query with no expression of its own does not start with a text of the
caller after `find` has added its expressions. -/
theorem splicedText_findQuery_nil (claims : auth.Claims) (query : SelectBuilder) (inc : Bool)
    (hq : query.whereExprs = []) :
    splicedText (findQuery claims query inc).whereExprs = none := by
  by_cases hc : claims.Audience = "" ∧ claims.Subject = "" <;> cases inc <;>
    simp [findQuery, hq, hc, splicedText, aclCond]

end user_account

namespace user_account

open sqlbuilder

theorem findRequestQuery_fields (req : UserAccountFindRequest) :
    (findRequestQuery req).1.whereExprs
        = (if req.Where ≠ "" then [Cond.and [Cond.raw req.Where]] else [])
      ∧ (findRequestQuery req).1.orderByCols = req.Order
      ∧ (findRequestQuery req).1.table = userAccountTableName
      ∧ (findRequestQuery req).2 = req.Args := by
  cases req with
  | mk w args order limit offset inc =>
    have horder : ∀ q : SelectBuilder, q.orderByCols = [] →
        (if order.length > 0 then q.OrderBy order else q).orderByCols = order := by
      intro q hq
      cases order with
      | nil => simpa using hq
      | cons a l => simp [SelectBuilder.OrderBy]
    refine ⟨?_, ?_, ?_, rfl⟩
    · by_cases hw : w = "" <;> cases limit <;> cases offset <;>
        by_cases ho : order.length > 0 <;>
        simp [findRequestQuery, hw, ho, selectQuery, SelectBuilder.Where, SelectBuilder.Select,
          SelectBuilder.From, SelectBuilder.OrderBy, SelectBuilder.Limit, SelectBuilder.Offset]
    · have h1 := horder (if w ≠ "" then selectQuery.Where [Cond.and [Cond.raw w]] else selectQuery)
        (by by_cases hw : w = "" <;> simp [hw, selectQuery, SelectBuilder.Where,
              SelectBuilder.Select, SelectBuilder.From])
      cases limit <;> cases offset <;>
        simpa [findRequestQuery, SelectBuilder.Limit, SelectBuilder.Offset] using h1
    · by_cases hw : w = "" <;> cases limit <;> cases offset <;>
        by_cases ho : order.length > 0 <;>
        simp [findRequestQuery, hw, ho, selectQuery, SelectBuilder.Where, SelectBuilder.Select,
          SelectBuilder.From, SelectBuilder.OrderBy, SelectBuilder.Limit, SelectBuilder.Offset]

theorem limitRows_findQuery (claims : auth.Claims) (query : SelectBuilder) (inc : Bool)
    (l : List Row) : limitRows (findQuery claims query inc) l = limitRows query l := rfl

/-- The rows `find` reads with a query that does not start with a text of the
caller. -/
theorem runSelect_findQuery (env : Env) (claims : auth.Claims) (rows : List Row)
    (args : List String) (query : SelectBuilder) (inc : Bool)
    (hp : splicedText (findQuery claims query inc).whereExprs = none) :
    runSelect env rows (findQuery claims query inc) args
      = limitRows query (findRows env claims rows args
          (fun r => evalAll env.evalRaw args rows query.whereExprs r) inc query.orderByCols) := by
  rw [runSelect_plain env rows _ args hp, limitRows_findQuery]
  have htab : tableRows rows (findQuery claims query inc).table = rows := by
    simp [findQuery, tableRows]
  have hord : (findQuery claims query inc).orderByCols = query.orderByCols := rfl
  have hev : (fun r => evalAll env.evalRaw args rows (findQuery claims query inc).whereExprs r)
      = fun r => evalAll env.evalRaw args rows query.whereExprs r
          && findAdmits env claims rows args inc r := by
    funext r
    exact evalAll_findQuery env claims rows args query inc r
  rw [htab, hord, hev]
  rfl

/-- The rows `Find` reads when the text of the request is self-contained. -/
theorem runSelect_find_text (env : Env) (claims : auth.Claims) (rows : List Row)
    (req : UserAccountFindRequest) (hne : req.Where ≠ "")
    (hself : selfContained req.Where = true) :
    runSelect env rows (findQuery claims (findRequestQuery req).1 req.IncludeArchived) req.Args
      = limitRows (findRequestQuery req).1 (findRows env claims rows req.Args
          (fun r => env.evalRaw ("(" ++ req.Where ++ ")") req.Args r) req.IncludeArchived
          req.Order) := by
  obtain ⟨hw, ho, ht, _⟩ := findRequestQuery_fields req
  rw [if_pos hne] at hw
  have hexprs : (findQuery claims (findRequestQuery req).1 req.IncludeArchived).whereExprs
      = Cond.and [Cond.raw req.Where]
          :: (findQuery claims {} req.IncludeArchived).whereExprs := by
    simp only [findQuery, hw, List.cons_append, List.nil_append, List.append_assoc]
  have hev : (fun r => evalWhere env.evalRaw req.Args rows
        (findQuery claims (findRequestQuery req).1 req.IncludeArchived).whereExprs r)
      = fun r => env.evalRaw ("(" ++ req.Where ++ ")") req.Args r
          && findAdmits env claims rows req.Args req.IncludeArchived r := by
    funext r
    rw [hexprs, evalWhere_selfContained _ _ _ _ _ _ hself, evalAll_findQuery]
    simp [evalAll]
  have htab : tableRows rows
      (findQuery claims (findRequestQuery req).1 req.IncludeArchived).table = rows := by
    simp [findQuery, tableRows]
  have hcut : cutByComment
      (findQuery claims (findRequestQuery req).1 req.IncludeArchived).whereExprs = false := by
    rw [hexprs]
    exact cutByComment_selfContained _ _ hself
  have hord : (findQuery claims (findRequestQuery req).1 req.IncludeArchived).orderByCols
      = req.Order := ho
  simp only [runSelect, hcut, Bool.false_eq_true, if_false, htab, hev, hord, limitRows_findQuery]
  rfl

theorem whereSyntaxOK_find_text (claims : auth.Claims) (req : UserAccountFindRequest)
    (hne : req.Where ≠ "") (hself : selfContained req.Where = true) :
    whereSyntaxOK (findQuery claims (findRequestQuery req).1 req.IncludeArchived).whereExprs
      = true := by
  obtain ⟨hw, _, _, _⟩ := findRequestQuery_fields req
  rw [if_pos hne] at hw
  have hexprs : (findQuery claims (findRequestQuery req).1 req.IncludeArchived).whereExprs
      = Cond.and [Cond.raw req.Where]
          :: (findQuery claims {} req.IncludeArchived).whereExprs := by
    simp only [findQuery, hw, List.cons_append, List.nil_append, List.append_assoc]
  rw [hexprs]
  exact whereSyntaxOK_selfContained _ _ hself

end user_account

namespace user_account

open sqlbuilder

/-- The function `find` for a query that does not start with a text of the
caller. -/
theorem find_plain (env : Env) (claims : auth.Claims) (db : DB) (query : SelectBuilder)
    (args : List String) (inc : Bool)
    (hp : splicedText (findQuery claims query inc).whereExprs = none) :
    find env claims db query args inc
      = (match env.queryError db.rows (findQuery claims query inc) with
         | some err =>
           .error (.withMessage (err.Wrap "query - %s") "find user accounts failed")
         | none =>
           .ok ((limitRows query (findRows env claims db.rows args
              (fun r => evalAll env.evalRaw args db.rows query.whereExprs r) inc
              query.orderByCols)).map mapRowsToUserAccount),
        { db with log := db.log ++ [Stmt.select (findQuery claims query inc) args] }) := by
  rw [find_eq env claims db query args inc (whereSyntaxOK_plain _ hp),
    runSelect_findQuery env claims db.rows args query inc hp]

theorem find_ok (env : Env) (claims : auth.Claims) (db db' : DB) (query : SelectBuilder)
    (args : List String) (inc : Bool) (res : List UserAccount)
    (hp : splicedText (findQuery claims query inc).whereExprs = none)
    (h : find env claims db query args inc = (.ok res, db')) :
    res = (limitRows query (findRows env claims db.rows args
          (fun r => evalAll env.evalRaw args db.rows query.whereExprs r) inc
          query.orderByCols)).map mapRowsToUserAccount
      ∧ db' = { db with log := db.log ++ [Stmt.select (findQuery claims query inc) args] }
      ∧ env.queryError db.rows (findQuery claims query inc) = none := by
  rw [find_plain env claims db query args inc hp] at h
  cases hq : env.queryError db.rows (findQuery claims query inc) with
  | some err =>
    rw [hq] at h
    simp only [Prod.mk.injEq, reduceCtorEq, false_and] at h
  | none =>
    rw [hq] at h
    simp only [Prod.mk.injEq, Except.ok.injEq] at h
    exact ⟨h.1.symm, h.2.symm, rfl⟩

/-- A row `find` reads is a row of the table that satisfies the caller's
condition and that `find` lets through. -/
theorem mem_findRows (env : Env) (claims : auth.Claims) (rows : List Row) (args : List String)
    (base : Row → Bool) (inc : Bool) (cols : List String) (r : Row) :
    r ∈ findRows env claims rows args base inc cols
      ↔ r ∈ rows ∧ base r = true ∧ findAdmits env claims rows args inc r = true := by
  unfold findRows
  rw [(env.orderBy_perm _ _).mem_iff, List.mem_filter, Bool.and_eq_true]

theorem findAdmits_archived (env : Env) (claims : auth.Claims) (rows : List Row)
    (args : List String) (r : Row) (h : findAdmits env claims rows args false r = true) :
    r.archived_at = none := by
  simp only [findAdmits, Bool.false_or, Bool.and_eq_true] at h
  exact Option.isNone_iff_eq_none.mp h.1

theorem findAdmits_acl (env : Env) (claims : auth.Claims) (rows : List Row)
    (args : List String) (inc : Bool) (r : Row)
    (hne : claims.Audience ≠ "" ∨ claims.Subject ≠ "")
    (h : findAdmits env claims rows args inc r = true) :
    evalCond env.evalRaw args rows (aclCond claims) r = true := by
  have hnot : ¬ (claims.Audience = "" ∧ claims.Subject = "") := by
    rintro ⟨h1, h2⟩
    rcases hne with h | h
    · exact h h1
    · exact h h2
  simp only [findAdmits, Bool.and_eq_true, Bool.or_eq_true, decide_eq_true_eq] at h
  exact h.2.resolve_left hnot

/-- The rows `Find` reads for a request whose text is empty or self-contained. -/
theorem runSelect_Find (env : Env) (claims : auth.Claims) (rows : List Row)
    (req : UserAccountFindRequest)
    (hw : req.Where = "" ∨ selfContained req.Where = true) :
    runSelect env rows (findQuery claims (findRequestQuery req).1 req.IncludeArchived) req.Args
      = limitRows (findRequestQuery req).1 (findRows env claims rows req.Args
          (findRequestBase env req) req.IncludeArchived req.Order) := by
  by_cases hne : req.Where = ""
  · obtain ⟨hwe, ho, _, _⟩ := findRequestQuery_fields req
    rw [if_neg (not_not.mpr hne)] at hwe
    rw [runSelect_findQuery env claims rows req.Args _ _
      (splicedText_findQuery_nil claims _ _ hwe), ho]
    have hb : (fun r => evalAll env.evalRaw req.Args rows (findRequestQuery req).1.whereExprs r)
        = findRequestBase env req := by
      funext r
      simp [hwe, evalAll, findRequestBase, hne]
    rw [hb]
  · rw [runSelect_find_text env claims rows req hne (hw.resolve_left hne)]
    have hb : (fun r => env.evalRaw ("(" ++ req.Where ++ ")") req.Args r)
        = findRequestBase env req := by
      funext r
      simp [findRequestBase, hne]
    rw [hb]

theorem whereSyntaxOK_Find (claims : auth.Claims) (req : UserAccountFindRequest)
    (hw : req.Where = "" ∨ selfContained req.Where = true) :
    whereSyntaxOK (findQuery claims (findRequestQuery req).1 req.IncludeArchived).whereExprs
      = true := by
  by_cases hne : req.Where = ""
  · obtain ⟨hwe, _, _, _⟩ := findRequestQuery_fields req
    rw [if_neg (not_not.mpr hne)] at hwe
    exact whereSyntaxOK_plain _ (splicedText_findQuery_nil claims _ _ hwe)
  · exact whereSyntaxOK_find_text claims req hne (hw.resolve_left hne)

/-- The method `Find` in one piece, for a request whose text is empty or
self-contained. -/
theorem Find_eq (env : Env) (db : DB) (claims : auth.Claims) (req : UserAccountFindRequest)
    (hw : req.Where = "" ∨ selfContained req.Where = true) :
    Find env db claims req
      = (match env.queryError db.rows
            (findQuery claims (findRequestQuery req).1 req.IncludeArchived) with
         | some err =>
           .error (.withMessage (err.Wrap "query - %s") "find user accounts failed")
         | none =>
           .ok ((limitRows (findRequestQuery req).1 (findRows env claims db.rows req.Args
              (findRequestBase env req) req.IncludeArchived req.Order)).map
                mapRowsToUserAccount),
        { db with log := db.log
            ++ [Stmt.select (findQuery claims (findRequestQuery req).1 req.IncludeArchived)
                req.Args] }) := by
  unfold Find
  rw [find_eq env claims db _ _ _ (whereSyntaxOK_Find claims req hw),
    (findRequestQuery_fields req).2.2.2, runSelect_Find env claims db.rows req hw]

/-- The query of `FindByUserID`. -/
theorem findByUserID_plain (claims : auth.Claims) (userID : String) (inc : Bool) :
    splicedText (findQuery claims
      ((({} : SelectBuilder).Where [Cond.equal "user_id" userID]).OrderBy ["created_at"])
        inc).whereExprs = none :=
  splicedText_findQuery claims _ inc _ _ rfl rfl

/-- The query of `Read`. -/
theorem read_plain (claims : auth.Claims) (u a : String) (inc : Bool) :
    splicedText (findQuery claims
      (selectQuery.Where [Cond.and [Cond.equal "user_id" u, Cond.equal "account_id" a]])
        inc).whereExprs = none :=
  splicedText_findQuery claims _ inc _ _ rfl rfl

/-- The method `FindByUserID` in one piece. -/
theorem FindByUserID_eq (env : Env) (db : DB) (claims : auth.Claims) (userID : String)
    (inc : Bool) :
    FindByUserID env db claims userID inc
      = (match env.queryError db.rows (findQuery claims
            ((({} : SelectBuilder).Where [Cond.equal "user_id" userID]).OrderBy ["created_at"])
            inc) with
         | some err =>
           .error (.withMessage (err.Wrap "query - %s") "find user accounts failed")
         | none =>
           if findRows env claims db.rows [] (fun r => decide (r.user_id = userID)) inc
               ["created_at"] = [] then
             .error (.withMessage ErrNotFound "no accounts for user %s found")
           else
             .ok ((findRows env claims db.rows [] (fun r => decide (r.user_id = userID)) inc
               ["created_at"]).map mapRowsToUserAccount),
        { db with log := db.log ++ [Stmt.select (findQuery claims
            ((({} : SelectBuilder).Where [Cond.equal "user_id" userID]).OrderBy ["created_at"])
            inc) []] }) := by
  unfold FindByUserID
  simp only []
  rw [find_plain env claims db _ [] inc (findByUserID_plain claims userID inc)]
  have hb : (fun r => evalAll env.evalRaw [] db.rows
        ((({} : SelectBuilder).Where [Cond.equal "user_id" userID]).OrderBy
          ["created_at"]).whereExprs r)
      = fun r => decide (r.user_id = userID) := by
    funext r
    rw [Bool.eq_iff_iff]
    simp [SelectBuilder.Where, SelectBuilder.OrderBy, evalAll, evalCond, Row.column_user_id]
  have hl : ∀ l : List Row, limitRows
      ((({} : SelectBuilder).Where [Cond.equal "user_id" userID]).OrderBy ["created_at"]) l
      = l := fun l => limitRows_of_neg _ l (show (-1 : Int) < 0 by decide)
  rw [hb, hl]
  have ho : ((({} : SelectBuilder).Where [Cond.equal "user_id" userID]).OrderBy
      ["created_at"]).orderByCols = ["created_at"] := rfl
  rw [ho]
  cases env.queryError db.rows (findQuery claims
      ((({} : SelectBuilder).Where [Cond.equal "user_id" userID]).OrderBy ["created_at"])
      inc) with
  | some err => rfl
  | none =>
    simp only [List.length_map, List.length_eq_zero]
    split <;> rfl

/-- The method `Read` in one piece, for a valid request. -/
theorem Read_eq (env : Env) (db : DB) (claims : auth.Claims) (req : UserAccountReadRequest)
    (hv : env.validateRead req = none) :
    Read env db claims req
      = (match env.queryError db.rows (findQuery claims
            (selectQuery.Where
              [Cond.and [Cond.equal "user_id" req.UserID, Cond.equal "account_id" req.AccountID]])
            req.IncludeArchived) with
         | some err =>
           .error (.withMessage (err.Wrap "query - %s") "find user accounts failed")
         | none =>
           match findRows env claims db.rows []
               (fun r => decide (r.user_id = req.UserID ∧ r.account_id = req.AccountID))
               req.IncludeArchived [] with
           | [] => .error (.withMessage ErrNotFound "entry for user %s account %s not found")
           | r :: _ => .ok (mapRowsToUserAccount r),
        { db with log := db.log ++ [Stmt.select (findQuery claims
            (selectQuery.Where
              [Cond.and [Cond.equal "user_id" req.UserID, Cond.equal "account_id" req.AccountID]])
            req.IncludeArchived) []] }) := by
  unfold Read
  simp only [hv]
  rw [find_plain env claims db _ [] _ (read_plain claims req.UserID req.AccountID _)]
  have hb : (fun r => evalAll env.evalRaw [] db.rows
        (selectQuery.Where
          [Cond.and [Cond.equal "user_id" req.UserID,
            Cond.equal "account_id" req.AccountID]]).whereExprs r)
      = fun r => decide (r.user_id = req.UserID ∧ r.account_id = req.AccountID) := by
    funext r
    have h1 := (evalCond_pair env.evalRaw [] db.rows req.UserID req.AccountID r).1
    simp only [selectQuery, SelectBuilder.Where, SelectBuilder.Select, SelectBuilder.From,
      List.nil_append, evalAll, Bool.and_true]
    rw [Bool.eq_iff_iff, h1, decide_eq_true_eq]
  have hl : ∀ l : List Row, limitRows
      (selectQuery.Where
        [Cond.and [Cond.equal "user_id" req.UserID, Cond.equal "account_id" req.AccountID]]) l
      = l := fun l => limitRows_of_neg _ l (show (-1 : Int) < 0 by decide)
  rw [hb, hl]
  have ho : (selectQuery.Where
      [Cond.and [Cond.equal "user_id" req.UserID,
        Cond.equal "account_id" req.AccountID]]).orderByCols = [] := rfl
  rw [ho]
  cases env.queryError db.rows (findQuery claims
      (selectQuery.Where
        [Cond.and [Cond.equal "user_id" req.UserID, Cond.equal "account_id" req.AccountID]])
      req.IncludeArchived) with
  | some err => rfl
  | none =>
    simp only
    cases findRows env claims db.rows []
      (fun r => decide (r.user_id = req.UserID ∧ r.account_id = req.AccountID))
      req.IncludeArchived [] <;> rfl

end user_account

namespace user_account

open sqlbuilder

/-- A membership among the rows `find` reads, cut by `LIMIT` or not, is a row
of the table that satisfies the caller's condition and that `find` lets
through. -/
theorem mem_map_limitRows (env : Env) (claims : auth.Claims) (rows : List Row)
    (args : List String) (base : Row → Bool) (inc : Bool) (cols : List String)
    (query : SelectBuilder) (ua : UserAccount)
    (h : ua ∈ (limitRows query (findRows env claims rows args base inc cols)).map
      mapRowsToUserAccount) :
    ∃ r ∈ rows, ua = mapRowsToUserAccount r ∧ base r = true
      ∧ findAdmits env claims rows args inc r = true := by
  rw [List.mem_map] at h
  obtain ⟨r, hr, rfl⟩ := h
  obtain ⟨h1, h2, h3⟩ := (mem_findRows env claims rows args base inc cols r).mp
    (mem_limitRows _ _ _ hr)
  exact ⟨r, h1, rfl, h2, h3⟩

theorem Find_ok (env : Env) (db db' : DB) (claims : auth.Claims) (req : UserAccountFindRequest)
    (res : List UserAccount) (hw : req.Where = "" ∨ selfContained req.Where = true)
    (h : Find env db claims req = (.ok res, db')) :
    res = (limitRows (findRequestQuery req).1 (findRows env claims db.rows req.Args
          (findRequestBase env req) req.IncludeArchived req.Order)).map mapRowsToUserAccount
      ∧ db'.log = db.log
          ++ [Stmt.select (findQuery claims (findRequestQuery req).1 req.IncludeArchived)
              req.Args] := by
  rw [Find_eq env db claims req hw] at h
  cases hq : env.queryError db.rows
      (findQuery claims (findRequestQuery req).1 req.IncludeArchived) with
  | some err =>
    rw [hq] at h
    simp only [Prod.mk.injEq, reduceCtorEq, false_and] at h
  | none =>
    rw [hq] at h
    simp only [Prod.mk.injEq, Except.ok.injEq] at h
    exact ⟨h.1.symm, by rw [← h.2]⟩

theorem FindByUserID_ok (env : Env) (db db' : DB) (claims : auth.Claims) (userID : String)
    (inc : Bool) (res : List UserAccount)
    (h : FindByUserID env db claims userID inc = (.ok res, db')) :
    res = (findRows env claims db.rows [] (fun r => decide (r.user_id = userID)) inc
          ["created_at"]).map mapRowsToUserAccount
      ∧ db'.log = db.log ++ [Stmt.select (findQuery claims
          ((({} : SelectBuilder).Where [Cond.equal "user_id" userID]).OrderBy ["created_at"])
          inc) []] := by
  rw [FindByUserID_eq env db claims userID inc] at h
  cases hq : env.queryError db.rows (findQuery claims
      ((({} : SelectBuilder).Where [Cond.equal "user_id" userID]).OrderBy ["created_at"])
      inc) with
  | some err =>
    rw [hq] at h
    simp only [Prod.mk.injEq, reduceCtorEq, false_and] at h
  | none =>
    rw [hq] at h
    simp only [Prod.mk.injEq] at h
    obtain ⟨h1, h2⟩ := h
    split at h1
    · simp only [reduceCtorEq] at h1
    · simp only [Except.ok.injEq] at h1
      exact ⟨h1.symm, by rw [← h2]⟩

theorem Read_ok (env : Env) (db db' : DB) (claims : auth.Claims) (req : UserAccountReadRequest)
    (ua : UserAccount) (h : Read env db claims req = (.ok ua, db')) :
    env.validateRead req = none
      ∧ (∃ r rest, findRows env claims db.rows []
            (fun r => decide (r.user_id = req.UserID ∧ r.account_id = req.AccountID))
            req.IncludeArchived [] = r :: rest
          ∧ ua = mapRowsToUserAccount r)
      ∧ db'.log = db.log ++ [Stmt.select (findQuery claims
          (selectQuery.Where
            [Cond.and [Cond.equal "user_id" req.UserID, Cond.equal "account_id" req.AccountID]])
          req.IncludeArchived) []] := by
  cases hv : env.validateRead req with
  | some err =>
    simp [Read, hv] at h
  | none =>
    rw [Read_eq env db claims req hv] at h
    cases hq : env.queryError db.rows (findQuery claims
        (selectQuery.Where
          [Cond.and [Cond.equal "user_id" req.UserID, Cond.equal "account_id" req.AccountID]])
        req.IncludeArchived) with
    | some err =>
      rw [hq] at h
      simp only [Prod.mk.injEq, reduceCtorEq, false_and] at h
    | none =>
      rw [hq] at h
      simp only [Prod.mk.injEq] at h
      obtain ⟨h1, h2⟩ := h
      cases hl : findRows env claims db.rows []
          (fun r => decide (r.user_id = req.UserID ∧ r.account_id = req.AccountID))
          req.IncludeArchived [] with
      | nil =>
        rw [hl] at h1
        simp only [reduceCtorEq] at h1
      | cons r rest =>
        rw [hl] at h1
        simp only [Except.ok.injEq] at h1
        exact ⟨rfl, ⟨r, rest, rfl, h1.symm⟩, by rw [← h2]⟩

end user_account

namespace user_account

open sqlbuilder

/-- C13. For Claims that are not empty and a table whose row ids are unique:
`applyClaimsSelect` adds one condition to the query, which a row of the table
satisfies exactly when its `account_id` is the Audience (when set) or its
`user_id` is the Subject (when set); the select over the table that
`applyClaimsSelect` has restricted returns exactly the rows that match, in the
order of the database; so with both set a row is admitted exactly when it
matches the Audience or the Subject, and with one set exactly when it matches
that one. -/
theorem applyClaimsSelect_admits (env : Env) (claims : auth.Claims) (rows : List Row)
    (args : List String) (hnodup : (rows.map Row.id).Nodup)
    (hne : claims.Audience ≠ "" ∨ claims.Subject ≠ "") :
    (∀ query : SelectBuilder,
        applyClaimsSelect claims query = (none, query.Where [aclCond claims]))
      ∧ (∀ r ∈ rows, evalCond env.evalRaw args rows (aclCond claims) r = true
          ↔ ((claims.Audience ≠ "" ∧ r.account_id = claims.Audience)
            ∨ (claims.Subject ≠ "" ∧ r.user_id = claims.Subject)))
      ∧ runSelect env rows (applyClaimsSelect claims selectQuery).2 args
          = env.orderBy [] (rows.filter fun r => claimsMatch claims r)
      ∧ (claims.Audience ≠ "" → claims.Subject ≠ "" → ∀ r : Row,
          (r ∈ runSelect env rows (applyClaimsSelect claims selectQuery).2 args
            ↔ r ∈ rows ∧ (r.account_id = claims.Audience ∨ r.user_id = claims.Subject)))
      ∧ (claims.Audience ≠ "" → claims.Subject = "" → ∀ r : Row,
          (r ∈ runSelect env rows (applyClaimsSelect claims selectQuery).2 args
            ↔ r ∈ rows ∧ r.account_id = claims.Audience))
      ∧ (claims.Audience = "" → claims.Subject ≠ "" → ∀ r : Row,
          (r ∈ runSelect env rows (applyClaimsSelect claims selectQuery).2 args
            ↔ r ∈ rows ∧ r.user_id = claims.Subject)) := by
  have hnot : ¬ (claims.Audience = "" ∧ claims.Subject = "") := by
    rintro ⟨h1, h2⟩
    rcases hne with h | h
    · exact h h1
    · exact h h2
  have hq : ∀ query : SelectBuilder,
      applyClaimsSelect claims query = (none, query.Where [aclCond claims]) := by
    intro query
    rw [applyClaimsSelect_eq, if_neg hnot]
  have hrun : runSelect env rows (applyClaimsSelect claims selectQuery).2 args
      = env.orderBy [] (rows.filter fun r => claimsMatch claims r) := by
    rw [hq]
    have hp : splicedText (selectQuery.Where [aclCond claims]).whereExprs = none := rfl
    rw [runSelect_plain env rows _ args hp,
      limitRows_of_neg _ _ (show (-1 : Int) < 0 by decide)]
    have ht : tableRows rows (selectQuery.Where [aclCond claims]).table = rows := by
      simp [tableRows, selectQuery, SelectBuilder.Where, SelectBuilder.Select,
        SelectBuilder.From]
    have ho : (selectQuery.Where [aclCond claims]).orderByCols = [] := rfl
    rw [ht, ho]
    congr 1
    apply List.filter_congr
    intro r hr
    have hw : (selectQuery.Where [aclCond claims]).whereExprs = [aclCond claims] := rfl
    rw [hw, evalAll_singleton, Bool.eq_iff_iff,
      evalCond_aclCond_of_nodup env.evalRaw args rows claims r hnodup hr]
    simp [claimsMatch]
  have hmem : ∀ r : Row,
      r ∈ runSelect env rows (applyClaimsSelect claims selectQuery).2 args
        ↔ r ∈ rows ∧ ((claims.Audience ≠ "" ∧ r.account_id = claims.Audience)
          ∨ (claims.Subject ≠ "" ∧ r.user_id = claims.Subject)) := by
    intro r
    rw [hrun, (env.orderBy_perm _ _).mem_iff, List.mem_filter]
    simp [claimsMatch]
  refine ⟨hq, ?_, hrun, ?_, ?_, ?_⟩
  · intro r hr
    exact evalCond_aclCond_of_nodup env.evalRaw args rows claims r hnodup hr
  · intro ha hs r
    rw [hmem]
    simp [ha, hs]
  · intro ha hs r
    rw [hmem]
    simp [ha, hs]
  · intro ha hs r
    rw [hmem]
    simp [ha, hs]

/-- C13 on a concrete table of four rows and Claims of account A and user 1:
the restricted select returns the row of user 1 in account A, the row of user
1 in account B and the row of user 2 in account A, and not the row of user 2
in account B. -/
theorem applyClaimsSelect_admits_witness :
    runSelect demoEnv demoTable (applyClaimsSelect demoClaims selectQuery).2 []
      = [demoRow "m1" demoUser1 demoAccountA "active" none,
          demoRow "m3" demoUser1 demoAccountB "active" none,
          demoRow "m4" demoUser2 demoAccountA "disabled" (some ⟨1568040000000000000⟩)] :=
  by
  have h := (applyClaimsSelect_admits demoEnv demoClaims demoTable [] (by decide)
    (Or.inl (by decide))).2.2.1
  exact h.trans (by decide)

end user_account

namespace user_account

open sqlbuilder

/-- C14. For Claims with an empty Audience and an empty Subject,
`applyClaimsSelect` returns nil and the query as it was; for Claims with one of
the two set it returns nil and the query with one more `WHERE` expression, the
condition of the Claims. -/
theorem applyClaimsSelect_frame (claims : auth.Claims) (query : SelectBuilder) :
    (claims.Audience = "" ∧ claims.Subject = "" →
        applyClaimsSelect claims query = (none, query))
      ∧ (claims.Audience ≠ "" ∨ claims.Subject ≠ "" →
        applyClaimsSelect claims query = (none, query.Where [aclCond claims])
          ∧ (applyClaimsSelect claims query).2.whereExprs
            = query.whereExprs ++ [aclCond claims]
          ∧ (applyClaimsSelect claims query).2.whereExprs.length
            = query.whereExprs.length + 1) := by
  constructor
  · intro h
    rw [applyClaimsSelect_eq, if_pos h]
  · intro hne
    have hnot : ¬ (claims.Audience = "" ∧ claims.Subject = "") := by
      rintro ⟨h1, h2⟩
      rcases hne with h | h
      · exact h h1
      · exact h h2
    rw [applyClaimsSelect_eq, if_neg hnot]
    simp [SelectBuilder.Where]

end user_account

namespace user_account

open sqlbuilder

/-- C15, as stated, fails: `Find` puts the text of the request between
parentheses in front of the archive filter, so the text `1=1) OR (1=1` closes
the group early and the filter lands in the second operand of an `OR`. On the
table of four rows, with empty Claims and `IncludeArchived` left false, `Find`
returns all four memberships, the archived one of user 2 in account A
included. -/
theorem find_text_escapes_archive_filter :
    ({ Where := "1=1) OR (1=1" } : UserAccountFindRequest).IncludeArchived = false
      ∧ (Find demoEnv ⟨demoTable, []⟩ {} { Where := "1=1) OR (1=1" }).1
        = .ok [mapRowsToUserAccount (demoRow "m1" demoUser1 demoAccountA "active" none),
            mapRowsToUserAccount (demoRow "m2" demoUser2 demoAccountB "active" none),
            mapRowsToUserAccount (demoRow "m3" demoUser1 demoAccountB "active" none),
            mapRowsToUserAccount
              (demoRow "m4" demoUser2 demoAccountA "disabled" (some ⟨1568040000000000000⟩))]
      ∧ (mapRowsToUserAccount
          (demoRow "m4" demoUser2 demoAccountA "disabled"
            (some ⟨1568040000000000000⟩))).ArchivedAt = some ⟨1568040000000000000⟩ := by
  decide

/-- C15, amended. For `FindByUserID`, for `Read`, and for `Find` with a
request whose text is empty or self-contained (a text without backslash,
dollar sign or comment that reads as one condition between the parentheses
`Find` puts around it), a read with `IncludeArchived` false returns no
archived row: every membership returned has `ArchivedAt` nil.
When the query does not fail the reads return: `Find` the rows of the table
that satisfy the text, are not archived and pass the condition of the Claims,
in order and cut by the limit; `FindByUserID` the like rows of the user, or
the not-found error when there is none; `Read`, for a valid request, the first
like row of the pair, or the not-found error. The rows `find` reads are the
rows of the table that satisfy the caller's condition, are not archived unless
archived rows are asked for, and pass the condition of the Claims unless they
are empty. -/
theorem reads_exclude_archived (env : Env) (db : DB) (claims : auth.Claims) :
    (∀ req : UserAccountFindRequest,
        req.Where = "" ∨ selfContained req.Where = true → req.IncludeArchived = false →
        (∀ (res : List UserAccount) (db' : DB), Find env db claims req = (.ok res, db') →
            ∀ ua ∈ res, ua.ArchivedAt = none)
          ∧ (env.queryError db.rows (findQuery claims (findRequestQuery req).1 false) = none →
            (Find env db claims req).1
              = .ok ((limitRows (findRequestQuery req).1 (findRows env claims db.rows req.Args
                  (findRequestBase env req) false req.Order)).map mapRowsToUserAccount)))
      ∧ (∀ userID : String,
        (∀ (res : List UserAccount) (db' : DB),
            FindByUserID env db claims userID false = (.ok res, db') →
            ∀ ua ∈ res, ua.ArchivedAt = none)
          ∧ (env.queryError db.rows (findQuery claims
                ((({} : SelectBuilder).Where [Cond.equal "user_id" userID]).OrderBy
                  ["created_at"]) false) = none →
            (FindByUserID env db claims userID false).1
              = if findRows env claims db.rows [] (fun r => decide (r.user_id = userID)) false
                    ["created_at"] = [] then
                  .error (.withMessage ErrNotFound "no accounts for user %s found")
                else
                  .ok ((findRows env claims db.rows [] (fun r => decide (r.user_id = userID))
                    false ["created_at"]).map mapRowsToUserAccount)))
      ∧ (∀ req : UserAccountReadRequest, req.IncludeArchived = false →
        (∀ (ua : UserAccount) (db' : DB), Read env db claims req = (.ok ua, db') →
            ua.ArchivedAt = none)
          ∧ (env.validateRead req = none →
            env.queryError db.rows (findQuery claims
                (selectQuery.Where
                  [Cond.and [Cond.equal "user_id" req.UserID,
                    Cond.equal "account_id" req.AccountID]]) false) = none →
            (Read env db claims req).1
              = match findRows env claims db.rows []
                    (fun r => decide (r.user_id = req.UserID ∧ r.account_id = req.AccountID))
                    false [] with
                | [] =>
                  .error (.withMessage ErrNotFound "entry for user %s account %s not found")
                | r :: _ => .ok (mapRowsToUserAccount r)))
      ∧ (∀ (args : List String) (base : Row → Bool) (inc : Bool) (cols : List String) (r : Row),
        r ∈ findRows env claims db.rows args base inc cols
          ↔ r ∈ db.rows ∧ base r = true ∧ (inc = false → r.archived_at = none)
            ∧ ((claims.Audience = "" ∧ claims.Subject = "")
              ∨ evalCond env.evalRaw args db.rows (aclCond claims) r = true)) := by
  refine ⟨?_, ?_, ?_, ?_⟩
  · intro req hw hinc
    constructor
    · intro res db' h ua hua
      obtain ⟨hres, _⟩ := Find_ok env db db' claims req res hw h
      rw [hres, hinc] at hua
      obtain ⟨r, _, rfl, _, hadm⟩ := mem_map_limitRows env claims db.rows _ _ _ _ _ ua hua
      exact findAdmits_archived env claims db.rows _ r hadm
    · intro hq
      rw [Find_eq env db claims req hw, hinc, hq]
  · intro userID
    constructor
    · intro res db' h ua hua
      obtain ⟨hres, _⟩ := FindByUserID_ok env db db' claims userID false res h
      rw [hres, List.mem_map] at hua
      obtain ⟨r, hr, rfl⟩ := hua
      exact findAdmits_archived env claims db.rows _ r
        ((mem_findRows env claims db.rows _ _ _ _ r).mp hr).2.2
    · intro hq
      rw [FindByUserID_eq env db claims userID false, hq]
  · intro req hinc
    constructor
    · intro ua db' h
      obtain ⟨_, ⟨r, rest, hl, rfl⟩, _⟩ := Read_ok env db db' claims req ua h
      rw [hinc] at hl
      have hr : r ∈ findRows env claims db.rows []
          (fun r => decide (r.user_id = req.UserID ∧ r.account_id = req.AccountID)) false [] := by
        rw [hl]
        exact List.mem_cons_self _ _
      exact findAdmits_archived env claims db.rows _ r
        ((mem_findRows env claims db.rows _ _ _ _ r).mp hr).2.2
    · intro hv hq
      rw [Read_eq env db claims req hv, hinc, hq]
  · intro args base inc cols r
    rw [mem_findRows]
    simp only [findAdmits, Bool.and_eq_true, Bool.or_eq_true, decide_eq_true_eq,
      Option.isNone_iff_eq_none]
    cases inc <;> simp

/-- C15 on the table of four rows, where user 2 has an active membership of
account B and an archived one of account A, with empty Claims: `Find` with an
empty request returns the three memberships that are not archived, `Find`
with the text `status = 'disabled'`, which only the archived row satisfies,
returns none, `FindByUserID` of user 2 returns the membership of account B
only, and `Read` of user 2 in account A finds nothing. -/
theorem reads_exclude_archived_witness :
    (Find demoEnv ⟨demoTable, []⟩ {} {}).1
        = .ok [mapRowsToUserAccount (demoRow "m1" demoUser1 demoAccountA "active" none),
            mapRowsToUserAccount (demoRow "m2" demoUser2 demoAccountB "active" none),
            mapRowsToUserAccount (demoRow "m3" demoUser1 demoAccountB "active" none)]
      ∧ (Find demoEnv ⟨demoTable, []⟩ {} { Where := "status = 'disabled'" }).1 = .ok []
      ∧ (FindByUserID demoEnv ⟨demoTable, []⟩ {} demoUser2 false).1
        = .ok [mapRowsToUserAccount (demoRow "m2" demoUser2 demoAccountB "active" none)]
      ∧ (Read demoEnv ⟨demoTable, []⟩ {} { UserID := demoUser2, AccountID := demoAccountA }).1
        = .error (.withMessage ErrNotFound "entry for user %s account %s not found") := by
  have h := reads_exclude_archived demoEnv ⟨demoTable, []⟩ {}
  exact ⟨((h.1 {} (Or.inl rfl) rfl).2 rfl).trans (by decide),
    ((h.1 { Where := "status = 'disabled'" } (Or.inr (by decide)) rfl).2 rfl).trans
      (by decide),
    ((h.2.1 demoUser2).2 rfl).trans (by decide),
    ((h.2.2.1 { UserID := demoUser2, AccountID := demoAccountA } rfl).2 (by decide) rfl).trans
      (by decide)⟩

end user_account

namespace user_account

open sqlbuilder

/-- The lookup of `Create`. -/
theorem exist_plain (claims : auth.Claims) (u a : String) :
    splicedText (findQuery claims
      (selectQuery.Where [Cond.and [Cond.equal "account_id" a, Cond.equal "user_id" u]])
        true).whereExprs = none :=
  splicedText_findQuery claims _ true _ _ rfl rfl


theorem DB.exec_log (env : Env) (db : DB) (s : Stmt) :
    (db.exec env s).2.log = db.log ++ [s] := by
  unfold DB.exec
  cases env.execError db.rows s <;> rfl

/-- The method `Update` in one piece, for a valid request on an account the
Claims may modify: nothing when there is nothing to change, the one `UPDATE`
statement otherwise. -/
theorem Update_eq (env : Env) (db : DB) (claims : auth.Claims)
    (req : UserAccountUpdateRequest) (now : Time)
    (hv : env.validateUpdate req = none)
    (hc : CanModifyAccount env db claims req.AccountID = none) :
    Update env db claims req now
      = if updateFields req = [] then (none, db)
        else
          match env.execError db.rows (updateStmt req (storedTime env now)) with
          | some err =>
            (some (.withMessage (err.Wrap "query - %s") "update account %s for user %s failed"),
              { db with log := db.log ++ [updateStmt req (storedTime env now)] })
          | none =>
            (none, { rows := applyStmt env db.rows (updateStmt req (storedTime env now)),
                     log := db.log ++ [updateStmt req (storedTime env now)] }) := by
  cases req with
  | mk u a roles status un =>
    simp only [Update, hv, hc]
    cases roles <;> cases status <;> cases un <;>
      simp [updateFields, updateStmt, DB.exec] <;>
      (generalize env.execError db.rows _ = e; cases e <;> rfl)

end user_account

namespace user_account

open sqlbuilder

/-- The statement `Update` sends: nothing, or the one `UPDATE`. -/
theorem Update_log (env : Env) (db : DB) (claims : auth.Claims)
    (req : UserAccountUpdateRequest) (now : Time) :
    (Update env db claims req now).2.log = db.log
      ∨ ∃ s, s.isWrite = true ∧ (Update env db claims req now).2.log = db.log ++ [s] := by
  cases hv : env.validateUpdate req with
  | some err =>
    left
    simp only [Update, hv]
  | none =>
    cases hc : CanModifyAccount env db claims req.AccountID with
    | some err =>
      left
      simp only [Update, hv, hc]
    | none =>
      rw [Update_eq env db claims req now hv hc]
      by_cases hf : updateFields req = []
      · left
        rw [if_pos hf]
      · right
        rw [if_neg hf]
        refine ⟨updateStmt req (storedTime env now), rfl, ?_⟩
        cases env.execError db.rows (updateStmt req (storedTime env now)) <;> rfl

/-- The first statement `Create` sends, once the request is valid and the
account may be modified, is the lookup of the pair through `find`. -/
theorem Create_log (env : Env) (db : DB) (uaID : String) (claims : auth.Claims)
    (req : UserAccountCreateRequest) (now : Time)
    (hv : env.validateCreate req = none)
    (hc : CanModifyAccount env db claims req.AccountID = none) :
    ∃ rest, (Create env db uaID claims req now).2.log
      = db.log ++ Stmt.select (findQuery claims
          (selectQuery.Where
            [Cond.and [Cond.equal "account_id" req.AccountID, Cond.equal "user_id" req.UserID]])
          true) [] :: rest := by
  simp only [Create, hv, hc]
  rw [find_eq _ _ _ _ _ _ (whereSyntaxOK_plain _ (exist_plain claims _ _))]
  cases env.queryError db.rows (findQuery claims
      (selectQuery.Where
        [Cond.and [Cond.equal "account_id" req.AccountID, Cond.equal "user_id" req.UserID]])
      true) with
  | some err => exact ⟨[], rfl⟩
  | none =>
    simp only
    split
    · rename_i first rest2 hex
      split
      · rename_i err db3 heq
        rcases Update_log env _ claims _ (storedTime env now) with h | ⟨s, _, h⟩
        · rw [heq] at h
          exact ⟨[], h⟩
        · rw [heq] at h
          have h2 : db3.log = _ := h
          exact ⟨[s], h2.trans (List.append_assoc _ _ _)⟩
      · rename_i db3 heq
        rcases Update_log env _ claims _ (storedTime env now) with h | ⟨s, _, h⟩
        · rw [heq] at h
          exact ⟨[], h⟩
        · rw [heq] at h
          have h2 : db3.log = _ := h
          exact ⟨[s], h2.trans (List.append_assoc _ _ _)⟩
    · split
      · rename_i err db3 heq
        have h2 := DB.exec_log env _ _ ▸ congrArg (fun p : Option GoError × DB => p.2.log) heq
        have h3 : db3.log = _ := h2.symm
        exact ⟨[_], h3.trans (List.append_assoc _ _ _)⟩
      · rename_i db3 heq
        have h2 := DB.exec_log env _ _ ▸ congrArg (fun p : Option GoError × DB => p.2.log) heq
        have h3 : db3.log = _ := h2.symm
        exact ⟨[_], h3.trans (List.append_assoc _ _ _)⟩


end user_account

namespace user_account

open sqlbuilder

/-- C16, as stated, fails: `Find` puts the text of the request between
parentheses in front of the other conditions, so the text `1=1) OR (1=1`
closes the group early; the statement then reads as an `OR` of two operands,
and the condition of the Claims is part of the second only. On the table of
four rows, for Claims of account A and user 1, `Find` returns all four
memberships, among them the membership of user 2 in account B, of which the
condition of the Claims does not hold. -/
theorem find_text_escapes_acl :
    readWhere "1=1) OR (1=1" = some ⟨[["(1=1)"], ["(1=1)"]], true⟩
      ∧ (Find demoEnv ⟨demoTable, []⟩ demoClaims { Where := "1=1) OR (1=1" }).1
        = .ok [mapRowsToUserAccount (demoRow "m1" demoUser1 demoAccountA "active" none),
            mapRowsToUserAccount (demoRow "m2" demoUser2 demoAccountB "active" none),
            mapRowsToUserAccount (demoRow "m3" demoUser1 demoAccountB "active" none),
            mapRowsToUserAccount
              (demoRow "m4" demoUser2 demoAccountA "disabled" (some ⟨1568040000000000000⟩))]
      ∧ evalCond demoEnv.evalRaw [] demoTable (aclCond demoClaims)
          (demoRow "m2" demoUser2 demoAccountB "active" none) = false := by
  decide

/-- C16, amended. For Claims that are not empty, every read path runs its
query through `find`: the query `Find`, `FindByUserID`, `Read` and the lookup
of `Create` send has the caller's expressions, the archive filter when asked
for, and then the condition of the Claims. For `FindByUserID`, for `Read`, and
for `Find` with a request whose text is empty or self-contained (a text
without backslash, dollar sign or comment that reads as one condition between
the parentheses `Find` puts around it), the rows read
are the rows of the table that satisfy the caller's condition and the
condition of the Claims: when the query does not fail, `Find` returns these
rows in order, cut by the limit, `FindByUserID` returns them or the not-found
error when there is none, and `Read`, for a valid request, returns the first
or the not-found error; and every membership returned is a row of the table
of which the caller's condition and the condition of the Claims hold. -/
theorem reads_apply_acl (env : Env) (db : DB) (claims : auth.Claims)
    (hne : claims.Audience ≠ "" ∨ claims.Subject ≠ "") :
    (∀ (query : SelectBuilder) (inc : Bool),
        (findQuery claims query inc).whereExprs
          = query.whereExprs ++ (if inc then [] else [Cond.isNull "archived_at"])
            ++ [aclCond claims])
      ∧ (∀ req : UserAccountFindRequest,
        (Find env db claims req).2.log = db.log
            ++ [Stmt.select (findQuery claims (findRequestQuery req).1 req.IncludeArchived)
                req.Args]
          ∧ (req.Where = "" ∨ selfContained req.Where = true →
            (env.queryError db.rows
                (findQuery claims (findRequestQuery req).1 req.IncludeArchived) = none →
              (Find env db claims req).1
                = .ok ((limitRows (findRequestQuery req).1 (findRows env claims db.rows
                    req.Args (findRequestBase env req) req.IncludeArchived req.Order)).map
                      mapRowsToUserAccount))
            ∧ ∀ (res : List UserAccount) (db' : DB),
              Find env db claims req = (.ok res, db') →
              ∀ ua ∈ res, ∃ r ∈ db.rows, ua = mapRowsToUserAccount r
                ∧ findRequestBase env req r = true
                ∧ evalCond env.evalRaw req.Args db.rows (aclCond claims) r = true))
      ∧ (∀ (userID : String) (inc : Bool),
        (FindByUserID env db claims userID inc).2.log = db.log
            ++ [Stmt.select (findQuery claims
                ((({} : SelectBuilder).Where [Cond.equal "user_id" userID]).OrderBy
                  ["created_at"]) inc) []]
          ∧ (env.queryError db.rows (findQuery claims
                ((({} : SelectBuilder).Where [Cond.equal "user_id" userID]).OrderBy
                  ["created_at"]) inc) = none →
            (FindByUserID env db claims userID inc).1
              = if findRows env claims db.rows [] (fun r => decide (r.user_id = userID)) inc
                    ["created_at"] = [] then
                  .error (.withMessage ErrNotFound "no accounts for user %s found")
                else
                  .ok ((findRows env claims db.rows [] (fun r => decide (r.user_id = userID))
                    inc ["created_at"]).map mapRowsToUserAccount))
          ∧ ∀ (res : List UserAccount) (db' : DB),
            FindByUserID env db claims userID inc = (.ok res, db') →
            ∀ ua ∈ res, ∃ r ∈ db.rows, ua = mapRowsToUserAccount r
              ∧ r.user_id = userID
              ∧ evalCond env.evalRaw [] db.rows (aclCond claims) r = true)
      ∧ (∀ req : UserAccountReadRequest,
        (env.validateRead req = none →
          (Read env db claims req).2.log = db.log
              ++ [Stmt.select (findQuery claims
                  (selectQuery.Where
                    [Cond.and [Cond.equal "user_id" req.UserID,
                      Cond.equal "account_id" req.AccountID]]) req.IncludeArchived) []]
            ∧ (env.queryError db.rows (findQuery claims
                  (selectQuery.Where
                    [Cond.and [Cond.equal "user_id" req.UserID,
                      Cond.equal "account_id" req.AccountID]]) req.IncludeArchived) = none →
              (Read env db claims req).1
                = match findRows env claims db.rows []
                      (fun r => decide (r.user_id = req.UserID ∧ r.account_id = req.AccountID))
                      req.IncludeArchived [] with
                  | [] =>
                    .error (.withMessage ErrNotFound "entry for user %s account %s not found")
                  | r :: _ => .ok (mapRowsToUserAccount r)))
          ∧ ∀ (ua : UserAccount) (db' : DB), Read env db claims req = (.ok ua, db') →
            ∃ r ∈ db.rows, ua = mapRowsToUserAccount r
              ∧ r.user_id = req.UserID ∧ r.account_id = req.AccountID
              ∧ evalCond env.evalRaw [] db.rows (aclCond claims) r = true)
      ∧ (∀ (uaID : String) (req : UserAccountCreateRequest) (now : Time),
        env.validateCreate req = none →
        CanModifyAccount env db claims req.AccountID = none →
        ∃ rest, (Create env db uaID claims req now).2.log
          = db.log ++ Stmt.select (findQuery claims
              (selectQuery.Where
                [Cond.and [Cond.equal "account_id" req.AccountID,
                  Cond.equal "user_id" req.UserID]])
              true) [] :: rest)
      ∧ (∀ (args : List String) (base : Row → Bool) (inc : Bool) (cols : List String),
        ∀ r ∈ findRows env claims db.rows args base inc cols,
          r ∈ db.rows ∧ base r = true
            ∧ evalCond env.evalRaw args db.rows (aclCond claims) r = true) := by
  have hrows : ∀ (args : List String) (base : Row → Bool) (inc : Bool) (cols : List String),
      ∀ r ∈ findRows env claims db.rows args base inc cols,
        r ∈ db.rows ∧ base r = true
          ∧ evalCond env.evalRaw args db.rows (aclCond claims) r = true := by
    intro args base inc cols r hr
    obtain ⟨h1, h2, h3⟩ := (mem_findRows env claims db.rows args base inc cols r).mp hr
    exact ⟨h1, h2, findAdmits_acl env claims db.rows args inc r hne h3⟩
  refine ⟨fun query inc => findQuery_whereExprs claims query inc hne, ?_, ?_, ?_, ?_, hrows⟩
  · intro req
    refine ⟨?_, ?_⟩
    · unfold Find
      rw [find_snd, (findRequestQuery_fields req).2.2.2]
    · intro hw
      refine ⟨?_, ?_⟩
      · intro hq
        rw [Find_eq env db claims req hw, hq]
      · intro res db' h ua hua
        obtain ⟨hres, _⟩ := Find_ok env db db' claims req res hw h
        rw [hres] at hua
        obtain ⟨r, hr, hmap, hbase, hadm⟩ :=
          mem_map_limitRows env claims db.rows _ _ _ _ _ ua hua
        exact ⟨r, hr, hmap, hbase, findAdmits_acl env claims db.rows _ _ r hne hadm⟩
  · intro userID inc
    refine ⟨?_, ?_, ?_⟩
    · rw [FindByUserID_eq]
    · intro hq
      rw [FindByUserID_eq env db claims userID inc, hq]
    · intro res db' h ua hua
      obtain ⟨hres, _⟩ := FindByUserID_ok env db db' claims userID inc res h
      rw [hres, List.mem_map] at hua
      obtain ⟨r, hr, rfl⟩ := hua
      obtain ⟨h1, h2, h3⟩ := hrows _ _ _ _ r hr
      exact ⟨r, h1, rfl, of_decide_eq_true h2, h3⟩
  · intro req
    refine ⟨?_, ?_⟩
    · intro hv
      refine ⟨?_, ?_⟩
      · rw [Read_eq env db claims req hv]
      · intro hq
        rw [Read_eq env db claims req hv, hq]
    · intro ua db' h
      obtain ⟨_, ⟨r, rest, hl, rfl⟩, _⟩ := Read_ok env db db' claims req ua h
      have hr : r ∈ findRows env claims db.rows []
          (fun r => decide (r.user_id = req.UserID ∧ r.account_id = req.AccountID))
          req.IncludeArchived [] := by
        rw [hl]
        exact List.mem_cons_self _ _
      obtain ⟨h1, h2, h3⟩ := hrows _ _ _ _ r hr
      have h4 := of_decide_eq_true h2
      exact ⟨r, h1, rfl, h4.1, h4.2, h3⟩
  · intro uaID req now hv hc
    exact Create_log env db uaID claims req now hv hc

/-- C16 on the table of four rows, for Claims of account A and user 1: `Find`
for the active memberships, archived ones included, returns the two of user 1;
`FindByUserID` of user 2, archived ones included, returns the membership of
account A and not the one of account B; `Read` of user 1 in account B returns
that membership, and `Read` of user 2 in account B finds nothing. -/
theorem reads_apply_acl_witness :
    (Find demoEnv ⟨demoTable, []⟩ demoClaims
        { Where := "status = 'active'", IncludeArchived := true }).1
        = .ok [mapRowsToUserAccount (demoRow "m1" demoUser1 demoAccountA "active" none),
            mapRowsToUserAccount (demoRow "m3" demoUser1 demoAccountB "active" none)]
      ∧ (FindByUserID demoEnv ⟨demoTable, []⟩ demoClaims demoUser2 true).1
        = .ok [mapRowsToUserAccount
            (demoRow "m4" demoUser2 demoAccountA "disabled" (some ⟨1568040000000000000⟩))]
      ∧ (Read demoEnv ⟨demoTable, []⟩ demoClaims
          { UserID := demoUser1, AccountID := demoAccountB }).1
        = .ok (mapRowsToUserAccount (demoRow "m3" demoUser1 demoAccountB "active" none))
      ∧ (Read demoEnv ⟨demoTable, []⟩ demoClaims
          { UserID := demoUser2, AccountID := demoAccountB }).1
        = .error (.withMessage ErrNotFound "entry for user %s account %s not found") := by
  have h := reads_apply_acl demoEnv ⟨demoTable, []⟩ demoClaims (Or.inl (by decide))
  exact ⟨(((h.2.1 { Where := "status = 'active'", IncludeArchived := true }).2
      (Or.inr (by decide))).1 rfl).trans (by decide),
    ((h.2.2.1 demoUser2 true).2.1 rfl).trans (by decide),
    (((h.2.2.2.1 { UserID := demoUser1, AccountID := demoAccountB }).1 (by decide)).2
      rfl).trans (by decide),
    (((h.2.2.2.1 { UserID := demoUser2, AccountID := demoAccountB }).1 (by decide)).2
      rfl).trans (by decide)⟩

/-- C17, as stated, fails: for Claims of account A and user 1, a direct `Read`
of the membership of user 2 in account B returns the not-found error, whose
cause is `ErrNotFound` and not `ErrForbidden`; and `Find` with the text
`1=1) OR (1=1`, which closes the parentheses `Find` puts around it, returns
that membership among its results. -/
theorem read_foreign_row_is_not_found :
    (Read demoEnv
        ⟨[demoRow "m1" demoUser1 demoAccountA "active" none,
          demoRow "m2" demoUser2 demoAccountB "active" none], []⟩
        { Audience := demoAccountA, Subject := demoUser1, Roles := [auth.RoleAdmin] }
        { UserID := demoUser2, AccountID := demoAccountB }).1
      = .error (.withMessage ErrNotFound "entry for user %s account %s not found")
    ∧ (GoError.withMessage ErrNotFound "entry for user %s account %s not found").Cause
      = ErrNotFound
    ∧ (GoError.withMessage ErrNotFound "entry for user %s account %s not found").Cause
      ≠ ErrForbidden
    ∧ (Find demoEnv
        ⟨[demoRow "m1" demoUser1 demoAccountA "active" none,
          demoRow "m2" demoUser2 demoAccountB "active" none], []⟩
        { Audience := demoAccountA, Subject := demoUser1, Roles := [auth.RoleAdmin] }
        { Where := "1=1) OR (1=1" }).1
      = .ok [mapRowsToUserAccount (demoRow "m1" demoUser1 demoAccountA "active" none),
          mapRowsToUserAccount (demoRow "m2" demoUser2 demoAccountB "active" none)] := by
  decide

/-- C17, amended. For Claims with tenant scope A and subject u, a table whose
row ids are unique, and a membership row (v, B) of it with B ≠ A and v ≠ u:
`Find` with a request whose text is empty or self-contained (a text without
backslash, dollar sign or comment that reads as one condition between the
parentheses `Find` puts around it) never returns that
row (every membership it returns is of account A or of user u), and when its
query does not fail it returns a result, without that row; a direct `Read` of
(v, B) never succeeds; when the request is valid and the query runs, `Read`
returns the not-found error, whose cause is `ErrNotFound`. -/
theorem acl_hides_foreign_row (env : Env) (db : DB) (claims : auth.Claims) (x : Row)
    (hnodup : (db.rows.map Row.id).Nodup)
    (haud : claims.Audience ≠ "")
    (hacc : x.account_id ≠ claims.Audience) (husr : x.user_id ≠ claims.Subject) :
    (∀ req : UserAccountFindRequest, req.Where = "" ∨ selfContained req.Where = true →
        (∀ (res : List UserAccount) (db' : DB), Find env db claims req = (.ok res, db') →
          mapRowsToUserAccount x ∉ res
            ∧ ∀ ua ∈ res, ua.AccountID = claims.Audience ∨ ua.UserID = claims.Subject)
        ∧ (env.queryError db.rows
              (findQuery claims (findRequestQuery req).1 req.IncludeArchived) = none →
            ∃ res, (Find env db claims req).1 = .ok res ∧ mapRowsToUserAccount x ∉ res))
      ∧ (∀ (inc : Bool) (ua : UserAccount) (db' : DB),
        Read env db claims ⟨x.user_id, x.account_id, inc⟩ ≠ (.ok ua, db'))
      ∧ (∀ (inc : Bool),
        env.validateRead ⟨x.user_id, x.account_id, inc⟩ = none →
        env.queryError db.rows (findQuery claims
          (selectQuery.Where
            [Cond.and [Cond.equal "user_id" x.user_id, Cond.equal "account_id" x.account_id]])
          inc) = none →
        (Read env db claims ⟨x.user_id, x.account_id, inc⟩).1
          = .error (.withMessage ErrNotFound "entry for user %s account %s not found")
        ∧ (GoError.withMessage ErrNotFound "entry for user %s account %s not found").Cause
          = ErrNotFound) := by
  have hmatch : ∀ (args : List String) (inc : Bool) (r : Row), r ∈ db.rows →
      findAdmits env claims db.rows args inc r = true →
      r.account_id = claims.Audience ∨ r.user_id = claims.Subject := by
    intro args inc r hr hadm
    have hacl := findAdmits_acl env claims db.rows args inc r (Or.inl haud) hadm
    rcases (evalCond_aclCond_of_nodup _ _ _ _ _ hnodup hr).mp hacl with h | h
    · exact Or.inl h.2
    · exact Or.inr h.2
  have hall : ∀ (args : List String) (base : Row → Bool) (inc : Bool) (cols : List String)
      (query : SelectBuilder),
      ∀ ua ∈ (limitRows query (findRows env claims db.rows args base inc cols)).map
          mapRowsToUserAccount,
        ua.AccountID = claims.Audience ∨ ua.UserID = claims.Subject := by
    intro args base inc cols query ua hua
    obtain ⟨r, hr, hmap, _, hadm⟩ := mem_map_limitRows env claims db.rows _ _ _ _ _ ua hua
    rw [hmap]
    exact hmatch _ _ r hr hadm
  have hnot : ∀ (args : List String) (base : Row → Bool) (inc : Bool) (cols : List String)
      (query : SelectBuilder),
      mapRowsToUserAccount x ∉ (limitRows query
        (findRows env claims db.rows args base inc cols)).map mapRowsToUserAccount := by
    intro args base inc cols query hmem
    rcases hall _ _ _ _ _ _ hmem with h | h
    · exact hacc h
    · exact husr h
  have hempty : ∀ inc : Bool, findRows env claims db.rows []
      (fun r => decide (r.user_id = x.user_id ∧ r.account_id = x.account_id)) inc [] = [] := by
    intro inc
    rw [List.eq_nil_iff_forall_not_mem]
    intro r hr
    obtain ⟨h1, h2, h3⟩ := (mem_findRows env claims db.rows _ _ _ _ r).mp hr
    have h4 := of_decide_eq_true h2
    rcases hmatch _ _ r h1 h3 with h | h
    · exact hacc (h4.2 ▸ h)
    · exact husr (h4.1 ▸ h)
  have hread : ∀ (inc : Bool) (ua : UserAccount) (db' : DB),
      Read env db claims ⟨x.user_id, x.account_id, inc⟩ ≠ (.ok ua, db') := by
    intro inc ua db' h
    obtain ⟨_, ⟨r, rest, hl, _⟩, _⟩ := Read_ok env db db' claims _ ua h
    rw [hempty inc] at hl
    exact absurd hl (by simp)
  refine ⟨?_, hread, ?_⟩
  · intro req hw
    refine ⟨?_, ?_⟩
    · intro res db' h
      obtain ⟨hres, _⟩ := Find_ok env db db' claims req res hw h
      rw [hres]
      exact ⟨hnot _ _ _ _ _, hall _ _ _ _ _⟩
    · intro hq
      refine ⟨_, ?_, hnot req.Args (findRequestBase env req) req.IncludeArchived req.Order
        (findRequestQuery req).1⟩
      rw [Find_eq env db claims req hw, hq]
  · intro inc hv hq
    refine ⟨?_, rfl⟩
    rw [Read_eq env db claims _ hv, hq]
    simp only []
    rw [hempty inc]

/-- The amended C17 on a concrete table, for Claims of account A and user 1:
`Find` returns a result, and the membership of user 2 in account B is not
among the memberships it returns; `Read` of that membership returns the
not-found error. -/
theorem acl_hides_foreign_row_witness :
    (∃ res, (Find demoEnv
          ⟨[demoRow "m1" demoUser1 demoAccountA "active" none,
            demoRow "m2" demoUser2 demoAccountB "active" none], []⟩
          { Audience := demoAccountA, Subject := demoUser1, Roles := [auth.RoleAdmin] } {}).1
          = .ok res
        ∧ mapRowsToUserAccount (demoRow "m2" demoUser2 demoAccountB "active" none) ∉ res)
      ∧ (Read demoEnv
          ⟨[demoRow "m1" demoUser1 demoAccountA "active" none,
            demoRow "m2" demoUser2 demoAccountB "active" none], []⟩
          { Audience := demoAccountA, Subject := demoUser1, Roles := [auth.RoleAdmin] }
          ⟨demoUser2, demoAccountB, false⟩).1
        = .error (.withMessage ErrNotFound "entry for user %s account %s not found") := by
  have h := acl_hides_foreign_row demoEnv
    ⟨[demoRow "m1" demoUser1 demoAccountA "active" none,
      demoRow "m2" demoUser2 demoAccountB "active" none], []⟩
    { Audience := demoAccountA, Subject := demoUser1, Roles := [auth.RoleAdmin] }
    (demoRow "m2" demoUser2 demoAccountB "active" none)
    (by decide) (by decide) (by decide) (by decide)
  exact ⟨(h.1 {} (Or.inl rfl)).2 rfl, (h.2.2 false (by decide) rfl).1⟩

end user_account

namespace user_account

open sqlbuilder

/-- C18. When `CanModifyAccount` returns an error for the account of a request
that passes validation, each of `Create`, `Update`, `Archive` and `Delete`
returns that error and leaves the connection as it was: the rows are the same
and no statement is sent. -/
theorem writes_need_modify_permission (env : Env) (db : DB) (claims : auth.Claims)
    (accountID : String) (err : GoError)
    (hcan : CanModifyAccount env db claims accountID = some err) :
    (∀ (uaID : String) (req : UserAccountCreateRequest) (now : Time),
        req.AccountID = accountID → env.validateCreate req = none →
        Create env db uaID claims req now = (.error err, db))
      ∧ (∀ (req : UserAccountUpdateRequest) (now : Time),
        req.AccountID = accountID → env.validateUpdate req = none →
        Update env db claims req now = (some err, db))
      ∧ (∀ (req : UserAccountArchiveRequest) (now : Time),
        req.AccountID = accountID → env.validateArchive req = none →
        Archive env db claims req now = (some err, db))
      ∧ (∀ (req : UserAccountDeleteRequest),
        req.AccountID = accountID → env.validateDelete req = none →
        Delete env db claims req = (some err, db)) := by
  refine ⟨?_, ?_, ?_, ?_⟩
  · intro uaID req now hacc hv
    subst hacc
    simp only [Create, hv, hcan]
  · intro req now hacc hv
    subst hacc
    simp only [Update, hv, hcan]
  · intro req now hacc hv
    subst hacc
    simp only [Archive, hv, hcan]
  · intro req hacc hv
    subst hacc
    simp only [Delete, hv, hcan]

/-- C18 on a concrete table: Claims of account A without the admin role may
not modify it, and `Delete` returns the forbidden error and sends nothing. -/
theorem writes_need_modify_permission_witness :
    Delete demoEnv ⟨[demoRow "m1" demoUser1 demoAccountA "active" none], []⟩
        { Audience := demoAccountA, Subject := demoUser1, Roles := [auth.RoleUser] }
        { UserID := demoUser1, AccountID := demoAccountA }
      = (some ErrForbidden, ⟨[demoRow "m1" demoUser1 demoAccountA "active" none], []⟩) :=
  (writes_need_modify_permission demoEnv
    ⟨[demoRow "m1" demoUser1 demoAccountA "active" none], []⟩
    { Audience := demoAccountA, Subject := demoUser1, Roles := [auth.RoleUser] }
    demoAccountA ErrForbidden (by decide)).2.2.2
    { UserID := demoUser1, AccountID := demoAccountA } rfl (by decide)

end user_account

namespace user_account

open sqlbuilder

theorem evalAll_pair (evalRaw : String → List String → Row → Bool) (args : List String)
    (rows : List Row) (u a : String) (r : Row) :
    evalAll evalRaw args rows
        [Cond.and [Cond.equal "user_id" u, Cond.equal "account_id" a]] r
      = decide (r.user_id = u ∧ r.account_id = a) := by
  rw [evalAll_singleton, Bool.eq_iff_iff, (evalCond_pair evalRaw args rows u a r).1]
  simp

/-- The rows after the `UPDATE` of `Update`: the rows of the pair get the
assignments, the others stay. -/
theorem applyStmt_updateStmt (env : Env) (rows : List Row) (req : UserAccountUpdateRequest)
    (t : Time) :
    applyStmt env rows (updateStmt req t)
      = rows.map fun r =>
          if r.user_id = req.UserID ∧ r.account_id = req.AccountID then
            (updateFields req ++ [("updated_at", Value.time t)]).foldl
              (fun acc s => acc.assign s.1 s.2) r
          else r := by
  simp only [applyStmt, updateStmt, evalAll_pair, decide_eq_true_eq]

theorem Row.assign_keys (r : Row) (field : String) (v : Value) :
    (r.assign field v).id = r.id ∧ (r.assign field v).user_id = r.user_id
      ∧ (r.assign field v).account_id = r.account_id := by
  unfold Row.assign
  split
  · split <;> exact ⟨rfl, rfl, rfl⟩
  · split
    · split <;> exact ⟨rfl, rfl, rfl⟩
    · split
      · split <;> exact ⟨rfl, rfl, rfl⟩
      · split
        · split <;> exact ⟨rfl, rfl, rfl⟩
        · exact ⟨rfl, rfl, rfl⟩

theorem foldl_assign_keys (sets : List (String × Value)) (r : Row) :
    (sets.foldl (fun acc s => acc.assign s.1 s.2) r).id = r.id
      ∧ (sets.foldl (fun acc s => acc.assign s.1 s.2) r).user_id = r.user_id
      ∧ (sets.foldl (fun acc s => acc.assign s.1 s.2) r).account_id = r.account_id := by
  induction sets generalizing r with
  | nil => exact ⟨rfl, rfl, rfl⟩
  | cons s sets ih =>
    obtain ⟨h1, h2, h3⟩ := ih (r.assign s.1 s.2)
    obtain ⟨k1, k2, k3⟩ := Row.assign_keys r s.1 s.2
    exact ⟨h1.trans k1, h2.trans k2, h3.trans k3⟩

/-- A rewrite of the rows that keeps the user and the account of each row keeps
the number of rows of every pair. -/
theorem countP_pair_map (rows : List Row) (g : Row → Row) (u a : String)
    (hg : ∀ r, (g r).user_id = r.user_id ∧ (g r).account_id = r.account_id) :
    (rows.map g).countP (fun r => decide (r.user_id = u ∧ r.account_id = a))
      = rows.countP (fun r => decide (r.user_id = u ∧ r.account_id = a)) := by
  induction rows with
  | nil => rfl
  | cons r rows ih =>
    simp only [List.map_cons, List.countP_cons, ih, (hg r).1, (hg r).2]

/-- The three assignments of the update that `Create` sends over an existing
row: the roles, the cleared archive time and the update time. -/
theorem foldl_assign_revive (r : Row) (roles : List String) (t : Time) :
    ([("roles", Value.strings roles), ("archived_at", Value.null),
        ("updated_at", Value.time t)].foldl (fun acc s => acc.assign s.1 s.2) r)
      = { r with roles := roles, archived_at := none, updated_at := t } := by
  rfl

theorem foldl_assign_archive (r : Row) (t : Time) :
    ([("archived_at", Value.time t)].foldl (fun acc s => acc.assign s.1 s.2) r)
      = { r with archived_at := some t } := by
  rfl

end user_account

namespace user_account

open sqlbuilder

theorem CanModifyAccount_rows (env : Env) (db db2 : DB) (claims : auth.Claims)
    (accountID : String) (h : db2.rows = db.rows) :
    CanModifyAccount env db2 claims accountID = CanModifyAccount env db claims accountID := by
  unfold CanModifyAccount
  rw [h]

/-- The lookup of `Create` finds nothing when the table has no row of the pair. -/
theorem lookup_nil (env : Env) (rows : List Row) (claims : auth.Claims) (u a : String)
    (hfresh : ∀ r ∈ rows, ¬ (r.user_id = u ∧ r.account_id = a)) :
    runSelect env rows (findQuery claims
        (selectQuery.Where [Cond.and [Cond.equal "account_id" a, Cond.equal "user_id" u]])
        true) [] = [] := by
  rw [List.eq_nil_iff_forall_not_mem]
  intro r hr
  obtain ⟨hmem, hall⟩ := mem_runSelect env rows _ [] r (exist_plain claims _ _) hr
  have h1 : evalCond env.evalRaw [] rows
      (Cond.and [Cond.equal "account_id" a, Cond.equal "user_id" u]) r = true := by
    simp only [findQuery, selectQuery, SelectBuilder.Where, SelectBuilder.Select,
      SelectBuilder.From, List.nil_append, if_true, List.append_nil, evalAll_append,
      Bool.and_eq_true, evalAll_singleton] at hall
    exact hall.1
  exact hfresh r hmem ((evalCond_pair env.evalRaw [] rows u a r).2.mp h1)

/-- The lookup of `Create` finds a row of the pair that the Claims can see:
Claims that are empty, or whose Audience is the account, or whose Subject is
the user. -/
theorem lookup_mem (env : Env) (rows : List Row) (claims : auth.Claims) (u a : String)
    (r : Row) (hr : r ∈ rows) (hpair : r.user_id = u ∧ r.account_id = a)
    (hvis : (claims.Audience = "" ∧ claims.Subject = "")
      ∨ (claims.Audience ≠ "" ∧ claims.Audience = a)
      ∨ (claims.Subject ≠ "" ∧ claims.Subject = u)) :
    r ∈ runSelect env rows (findQuery claims
        (selectQuery.Where [Cond.and [Cond.equal "account_id" a, Cond.equal "user_id" u]])
        true) [] := by
  rw [mem_runSelect_iff env rows _ [] r (exist_plain claims _ _) rfl
    (show (-1 : Int) < 0 by decide)]
  refine ⟨hr, ?_⟩
  have h1 : evalCond env.evalRaw [] rows
      (Cond.and [Cond.equal "account_id" a, Cond.equal "user_id" u]) r = true :=
    (evalCond_pair env.evalRaw [] rows u a r).2.mpr hpair
  by_cases hempty : claims.Audience = "" ∧ claims.Subject = ""
  · simp only [findQuery, selectQuery, SelectBuilder.Where, SelectBuilder.Select,
      SelectBuilder.From, List.nil_append, if_true, List.append_nil, if_pos hempty,
      evalAll_singleton]
    exact h1
  · have hacl : evalCond env.evalRaw [] rows (aclCond claims) r = true := by
      rw [evalCond_aclCond]
      refine ⟨r, hr, rfl, ?_⟩
      rcases hvis with h | h | h
      · exact absurd h hempty
      · exact Or.inl ⟨h.1, hpair.2.trans h.2.symm⟩
      · exact Or.inr ⟨h.1, hpair.1.trans h.2.symm⟩
    simp only [findQuery, selectQuery, SelectBuilder.Where, SelectBuilder.Select,
      SelectBuilder.From, List.nil_append, if_true, List.append_nil, if_neg hempty,
      evalAll_append, evalAll_singleton, Bool.and_eq_true]
    exact ⟨h1, hacl⟩

/-- The method `Create` when the table has no row of the pair and the database
does not fail: one lookup, one `INSERT` of the new row. -/
theorem Create_fresh (env : Env) (db : DB) (uaID : String) (claims : auth.Claims)
    (req : UserAccountCreateRequest) (now : Time)
    (hv : env.validateCreate req = none)
    (hc : CanModifyAccount env db claims req.AccountID = none)
    (hq : ∀ q, env.queryError db.rows q = none)
    (he : ∀ s, env.execError db.rows s = none)
    (hfresh : ∀ r ∈ db.rows, ¬ (r.user_id = req.UserID ∧ r.account_id = req.AccountID)) :
    Create env db uaID claims req now
      = (.ok { UserID := req.UserID, AccountID := req.AccountID, Roles := req.Roles,
               Status := req.Status.getD UserAccountStatus_Active,
               CreatedAt := storedTime env now, UpdatedAt := storedTime env now },
         { rows := db.rows ++ [insertRow uaID req (storedTime env now)],
           log := db.log ++
             [Stmt.select (findQuery claims (existQuery req) true) [],
              Stmt.insert (insertRow uaID req (storedTime env now))] }) := by
  simp only [Create, hv, hc]
  rw [find_eq _ _ _ _ _ _ (whereSyntaxOK_plain _ (exist_plain claims _ _))]
  simp only [hq, lookup_nil env db.rows claims req.UserID req.AccountID hfresh, List.map_nil,
    DB.exec, he, applyStmt, insertRow, existQuery]
  cases req.Status <;> simp [List.append_assoc]

/-- The method `Create` when the table has a row of the pair that the Claims
can see and the database does not fail: one lookup, one `UPDATE` that sets the
roles, clears the archive time and sets the update time on the rows of the
pair; the membership returned is the first one found, with the new roles, the
update time, and no archive time. -/
theorem Create_existing (env : Env) (db : DB) (uaID : String) (claims : auth.Claims)
    (req : UserAccountCreateRequest) (now : Time) (r : Row)
    (hv : env.validateCreate req = none)
    (hvu : env.validateUpdate (upReq req) = none)
    (hc : CanModifyAccount env db claims req.AccountID = none)
    (hq : ∀ q, env.queryError db.rows q = none)
    (he : ∀ s, env.execError db.rows s = none)
    (hr : r ∈ db.rows) (hpair : r.user_id = req.UserID ∧ r.account_id = req.AccountID)
    (hvis : (claims.Audience = "" ∧ claims.Subject = "")
      ∨ (claims.Audience ≠ "" ∧ claims.Audience = req.AccountID)
      ∨ (claims.Subject ≠ "" ∧ claims.Subject = req.UserID)) :
    ∃ first : Row, first ∈ db.rows
      ∧ first.user_id = req.UserID ∧ first.account_id = req.AccountID
      ∧ Create env db uaID claims req now
        = (.ok { mapRowsToUserAccount first with
                 Roles := req.Roles, UpdatedAt := storedTime env now, ArchivedAt := none },
           { rows := db.rows.map fun x =>
               if x.user_id = req.UserID ∧ x.account_id = req.AccountID then
                 { x with roles := req.Roles, archived_at := none,
                          updated_at := storedTime env (storedTime env now) }
               else x,
             log := db.log ++
               [Stmt.select (findQuery claims (existQuery req) true) [],
                updateStmt (upReq req) (storedTime env (storedTime env now))] }) := by
  have hmem := lookup_mem env db.rows claims req.UserID req.AccountID r hr hpair hvis
  cases hsel : runSelect env db.rows (findQuery claims
      (selectQuery.Where
        [Cond.and [Cond.equal "account_id" req.AccountID, Cond.equal "user_id" req.UserID]])
      true) [] with
  | nil =>
    rw [hsel] at hmem
    simp at hmem
  | cons first rest =>
    have hfirst : first ∈ runSelect env db.rows (findQuery claims
        (selectQuery.Where
          [Cond.and [Cond.equal "account_id" req.AccountID, Cond.equal "user_id" req.UserID]])
        true) [] := by
      rw [hsel]
      exact List.mem_cons_self _ _
    obtain ⟨hfmem, hfall⟩ := mem_runSelect env db.rows _ [] first (exist_plain claims _ _) hfirst
    have h1 : evalCond env.evalRaw [] db.rows
        (Cond.and [Cond.equal "account_id" req.AccountID, Cond.equal "user_id" req.UserID])
        first = true := by
      simp only [findQuery, selectQuery, SelectBuilder.Where, SelectBuilder.Select,
        SelectBuilder.From, List.nil_append, if_true, List.append_nil, evalAll_append,
        Bool.and_eq_true, evalAll_singleton] at hfall
      exact hfall.1
    have hfpair := (evalCond_pair env.evalRaw [] db.rows req.UserID req.AccountID first).2.mp h1
    refine ⟨first, hfmem, hfpair.1, hfpair.2, ?_⟩
    have hupd := Update_eq env
      { db with log := db.log ++ [Stmt.select (findQuery claims (existQuery req) true) []] }
      claims (upReq req) (storedTime env now) hvu
      ((CanModifyAccount_rows env db _ claims req.AccountID rfl).trans hc)
    have hfields : updateFields (upReq req) ≠ [] := by
      simp [updateFields, upReq]
    rw [if_neg hfields] at hupd
    simp only [he, applyStmt_updateStmt] at hupd
    have hfold : ∀ x : Row,
        (updateFields (upReq req)
            ++ [("updated_at", Value.time (storedTime env (storedTime env now)))]).foldl
          (fun acc s => acc.assign s.1 s.2) x
        = { x with roles := req.Roles, archived_at := none,
                   updated_at := storedTime env (storedTime env now) } :=
      fun x => foldl_assign_revive x req.Roles _
    simp only [hfold] at hupd
    have hcreate : Create env db uaID claims req now
        = (match Update env
              { db with log := db.log ++ [Stmt.select (findQuery claims (existQuery req) true) []] }
              claims (upReq req) (storedTime env now) with
           | (some err, db2) => (Except.error err, db2)
           | (none, db2) =>
             (Except.ok { mapRowsToUserAccount first with
                Roles := req.Roles, UpdatedAt := storedTime env now, ArchivedAt := none }, db2)) := by
      simp only [Create, hv, hc]
      rw [find_eq _ _ _ _ _ _ (whereSyntaxOK_plain _ (exist_plain claims _ _))]
      simp only [hq]
      have hsel2 : runSelect env db.rows (findQuery claims
          (selectQuery.Where
            [Cond.and [Cond.equal "account_id" req.AccountID, Cond.equal "user_id" req.UserID]])
          true) [] = first :: rest := hsel
      simp only [hsel2, List.map_cons]
      rfl
    rw [hcreate, hupd]
    simp only [upReq, List.append_assoc, List.singleton_append]

end user_account

namespace user_account

open sqlbuilder

/-- The method `Archive` for a valid request on an account the Claims may
modify, when the database does not fail: one `UPDATE` that sets the archive
time on the rows of the pair. -/
theorem Archive_eq (env : Env) (db : DB) (claims : auth.Claims)
    (req : UserAccountArchiveRequest) (now : Time)
    (hv : env.validateArchive req = none)
    (hc : CanModifyAccount env db claims req.AccountID = none)
    (he : ∀ s, env.execError db.rows s = none) :
    Archive env db claims req now
      = (none,
         { rows := db.rows.map fun x =>
             if x.user_id = req.UserID ∧ x.account_id = req.AccountID then
               { x with archived_at := some (storedTime env now) }
             else x,
           log := db.log ++
             [Stmt.update [("archived_at", Value.time (storedTime env now))]
               [Cond.and [Cond.equal "user_id" req.UserID,
                 Cond.equal "account_id" req.AccountID]]] }) := by
  simp only [Archive, hv, hc, DB.exec, he, applyStmt, evalAll_pair, decide_eq_true_eq,
    foldl_assign_archive]

theorem countP_isPair_map (rows : List Row) (g : Row → Row) (u a : String)
    (hg : ∀ r, (g r).user_id = r.user_id ∧ (g r).account_id = r.account_id) :
    (rows.map g).countP (Row.isPair u a) = rows.countP (Row.isPair u a) := by
  induction rows with
  | nil => rfl
  | cons r rows ih =>
    simp only [List.map_cons, List.countP_cons, ih, Row.isPair, (hg r).1, (hg r).2]

/-- The table after a first `Create` on a table without a row of the pair, and
an `Archive` or none: it holds exactly one row of the pair. -/
theorem createThenArchive_rows (env : Env) (db : DB) (claims : auth.Claims)
    (req : UserAccountCreateRequest) (id1 : String) (now1 : Time) (between : Option Time)
    (hv : env.validateCreate req = none)
    (hva : env.validateArchive { UserID := req.UserID, AccountID := req.AccountID } = none)
    (hcan : ∀ d, CanModifyAccount env d claims req.AccountID = none)
    (hq : ∀ rows q, env.queryError rows q = none)
    (he : ∀ rows s, env.execError rows s = none)
    (hfresh : ∀ r ∈ db.rows, ¬ (r.user_id = req.UserID ∧ r.account_id = req.AccountID)) :
    (createThenArchive env db claims req id1 now1 between).rows.countP
        (Row.isPair req.UserID req.AccountID) = 1
      ∧ ∃ r ∈ (createThenArchive env db claims req id1 now1 between).rows,
          r.user_id = req.UserID ∧ r.account_id = req.AccountID := by
  have hcreate := Create_fresh env db id1 claims req now1 hv (hcan db) (hq db.rows)
    (he db.rows) hfresh
  have hzero : db.rows.countP (Row.isPair req.UserID req.AccountID) = 0 := by
    rw [List.countP_eq_zero]
    intro r hr
    simpa [Row.isPair] using hfresh r hr
  have hone : (db.rows ++ [insertRow id1 req (storedTime env now1)]).countP
      (Row.isPair req.UserID req.AccountID) = 1 := by
    rw [List.countP_append, hzero]
    simp [Row.isPair, insertRow]
  cases between with
  | none =>
    simp only [createThenArchive, hcreate]
    exact ⟨hone, insertRow id1 req (storedTime env now1), by simp, rfl, rfl⟩
  | some t =>
    have harch := Archive_eq env (Create env db id1 claims req now1).2 claims
      { UserID := req.UserID, AccountID := req.AccountID } t hva (hcan _) (he _)
    simp only [createThenArchive, harch]
    rw [hcreate]
    refine ⟨?_, ?_⟩
    · rw [countP_isPair_map]
      · exact hone
      · intro r
        split <;> exact ⟨rfl, rfl⟩
    · refine ⟨{ insertRow id1 req (storedTime env now1) with
          archived_at := some (storedTime env t) }, ?_, rfl, rfl⟩
      rw [List.mem_map]
      refine ⟨insertRow id1 req (storedTime env now1), by simp, ?_⟩
      simp [insertRow]

end user_account

namespace user_account

open sqlbuilder

/-- C19. The code departs from the claim, and from its own comments ("Check to
see if there is an existing user account, including archived." and "If there
is an existing entry, then update instead of insert."): the lookup of `Create`
goes through the ACL filter of `find`. Claims of account A whose subject, user
1, is also a member of account B may modify B, but the filter hides from them
the membership of user 2 in B. On a table that holds the membership of user 1
in B, `Create` of user 2 in B twice in sequence sends a lookup and an `INSERT`
each time: the second call finds nothing, inserts again, and the table holds
two rows of the pair. -/
theorem create_twice_hidden_row_inserts_again :
    ((createTwice demoEnv ⟨[demoRow "m1" demoUser1 demoAccountB "active" none], []⟩
        { Audience := demoAccountA, Subject := demoUser1, Roles := [auth.RoleAdmin] }
        { UserID := demoUser2, AccountID := demoAccountB, Roles := [auth.RoleUser] }
        "m2" "m3" ⟨1568050163000000000⟩ ⟨1568050164000000000⟩ none).2.rows.countP
      (Row.isPair demoUser2 demoAccountB)) = 2
    ∧ CanModifyAccount demoEnv ⟨[demoRow "m1" demoUser1 demoAccountB "active" none], []⟩
        { Audience := demoAccountA, Subject := demoUser1, Roles := [auth.RoleAdmin] }
        demoAccountB = none
    ∧ ((createTwice demoEnv ⟨[demoRow "m1" demoUser1 demoAccountB "active" none], []⟩
        { Audience := demoAccountA, Subject := demoUser1, Roles := [auth.RoleAdmin] }
        { UserID := demoUser2, AccountID := demoAccountB, Roles := [auth.RoleUser] }
        "m2" "m3" ⟨1568050163000000000⟩ ⟨1568050164000000000⟩ none).2.log.map Stmt.isWrite)
      = [false, true, false, true] := by
  decide

/-- Where the lookup of `Create` can see the membership, two calls leave one
row. For a valid request, Claims that may modify the account and
through whose ACL filter the membership is visible (empty Claims, or Claims
whose Audience is the account or whose Subject is the user), a table without a
row of the pair, and a database that does not fail: after `Create` twice in
sequence, with or without an `Archive` in between, the table holds exactly one
row of the pair; the second call sends the lookup and one `UPDATE` and no
`INSERT`, and returns the membership with the requested roles and no archive
time; the stored row has the requested roles and no archive time. -/
theorem create_twice_one_row (env : Env) (db : DB) (claims : auth.Claims)
    (req : UserAccountCreateRequest) (id1 id2 : String) (now1 now2 : Time)
    (between : Option Time)
    (hv : env.validateCreate req = none)
    (hvu : env.validateUpdate (upReq req) = none)
    (hva : env.validateArchive { UserID := req.UserID, AccountID := req.AccountID } = none)
    (hcan : ∀ d, CanModifyAccount env d claims req.AccountID = none)
    (hq : ∀ rows q, env.queryError rows q = none)
    (he : ∀ rows s, env.execError rows s = none)
    (hvis : (claims.Audience = "" ∧ claims.Subject = "")
      ∨ (claims.Audience ≠ "" ∧ claims.Audience = req.AccountID)
      ∨ (claims.Subject ≠ "" ∧ claims.Subject = req.UserID))
    (hfresh : ∀ r ∈ db.rows, ¬ (r.user_id = req.UserID ∧ r.account_id = req.AccountID)) :
    (createTwice env db claims req id1 id2 now1 now2 between).2.rows.countP
        (Row.isPair req.UserID req.AccountID) = 1
      ∧ (createTwice env db claims req id1 id2 now1 now2 between).2.log
        = (createThenArchive env db claims req id1 now1 between).log
          ++ [Stmt.select (findQuery claims (existQuery req) true) [],
              updateStmt (upReq req) (storedTime env (storedTime env now2))]
      ∧ (∃ ua, (createTwice env db claims req id1 id2 now1 now2 between).1 = .ok ua
          ∧ ua.UserID = req.UserID ∧ ua.AccountID = req.AccountID
          ∧ ua.Roles = req.Roles ∧ ua.ArchivedAt = none)
      ∧ (∀ r ∈ (createTwice env db claims req id1 id2 now1 now2 between).2.rows,
          r.user_id = req.UserID ∧ r.account_id = req.AccountID →
          r.roles = req.Roles ∧ r.archived_at = none) := by
  obtain ⟨hcount, r, hr, hpair⟩ := createThenArchive_rows env db claims req id1 now1 between
    hv hva hcan hq he hfresh
  obtain ⟨first, hfmem, hfu, hfa, hcreate⟩ := Create_existing env
    (createThenArchive env db claims req id1 now1 between) id2 claims req now2 r hv hvu
    (hcan _) (hq _) (he _) hr hpair hvis
  unfold createTwice
  rw [hcreate]
  refine ⟨?_, rfl, ⟨_, rfl, hfu, hfa, rfl, rfl⟩, ?_⟩
  · show (List.map _ _).countP _ = 1
    rw [countP_isPair_map]
    · exact hcount
    · intro x
      split <;> exact ⟨rfl, rfl⟩
  · intro x hx hxp
    have hx2 : x ∈ List.map _ _ := hx
    rw [List.mem_map] at hx2
    obtain ⟨y, _, hy⟩ := hx2
    by_cases hyp : y.user_id = req.UserID ∧ y.account_id = req.AccountID
    · rw [if_pos hyp] at hy
      rw [← hy]
      exact ⟨rfl, rfl⟩
    · rw [if_neg hyp] at hy
      rw [hy] at hyp
      exact absurd hxp hyp

/-- Two calls of `Create` on an empty table, with internal (empty) Claims and
an `Archive` between the two calls. -/
theorem create_twice_one_row_witness :
    (createTwice demoEnv ⟨[], []⟩ {}
        { UserID := demoUser1, AccountID := demoAccountA, Roles := [auth.RoleUser] }
        "m1" "m2" ⟨1568050163000000000⟩ ⟨1568050165000000000⟩
        (some ⟨1568050164000000000⟩)).2.rows.countP
      (Row.isPair demoUser1 demoAccountA) = 1 :=
  (create_twice_one_row demoEnv ⟨[], []⟩ {}
    { UserID := demoUser1, AccountID := demoAccountA, Roles := [auth.RoleUser] }
    "m1" "m2" ⟨1568050163000000000⟩ ⟨1568050165000000000⟩ (some ⟨1568050164000000000⟩)
    (by decide) (by decide) (by decide) (fun _ => rfl) (fun _ _ => rfl) (fun _ _ => rfl)
    (Or.inl (by decide)) (by decide)).1

end user_account

namespace user_account

open sqlbuilder

/-- The method `Create` when its lookup returns a row and the database does not
fail: the `UPDATE` of the pair, and the first membership found with the new
roles, the update time and no archive time. -/
theorem Create_found (env : Env) (db : DB) (uaID : String) (claims : auth.Claims)
    (req : UserAccountCreateRequest) (now : Time) (first : Row) (rest : List Row)
    (hv : env.validateCreate req = none)
    (hvu : env.validateUpdate (upReq req) = none)
    (hc : CanModifyAccount env db claims req.AccountID = none)
    (hq : ∀ q, env.queryError db.rows q = none)
    (he : ∀ s, env.execError db.rows s = none)
    (hsel : runSelect env db.rows (findQuery claims (existQuery req) true) [] = first :: rest) :
    Create env db uaID claims req now
      = (.ok { mapRowsToUserAccount first with
               Roles := req.Roles, UpdatedAt := storedTime env now, ArchivedAt := none },
         { rows := db.rows.map fun x =>
             if x.user_id = req.UserID ∧ x.account_id = req.AccountID then
               { x with roles := req.Roles, archived_at := none,
                        updated_at := storedTime env (storedTime env now) }
             else x,
           log := db.log ++
             [Stmt.select (findQuery claims (existQuery req) true) [],
              updateStmt (upReq req) (storedTime env (storedTime env now))] }) := by
  have hupd := Update_eq env
    { db with log := db.log ++ [Stmt.select (findQuery claims (existQuery req) true) []] }
    claims (upReq req) (storedTime env now) hvu
    ((CanModifyAccount_rows env db _ claims req.AccountID rfl).trans hc)
  have hfields : updateFields (upReq req) ≠ [] := by
    simp [updateFields, upReq]
  rw [if_neg hfields] at hupd
  simp only [he, applyStmt_updateStmt] at hupd
  have hfold : ∀ x : Row,
      (updateFields (upReq req)
          ++ [("updated_at", Value.time (storedTime env (storedTime env now)))]).foldl
        (fun acc s => acc.assign s.1 s.2) x
      = { x with roles := req.Roles, archived_at := none,
                 updated_at := storedTime env (storedTime env now) } :=
    fun x => foldl_assign_revive x req.Roles _
  simp only [hfold] at hupd
  have hcreate : Create env db uaID claims req now
      = (match Update env
            { db with log := db.log ++ [Stmt.select (findQuery claims (existQuery req) true) []] }
            claims (upReq req) (storedTime env now) with
         | (some err, db2) => (Except.error err, db2)
         | (none, db2) =>
           (Except.ok { mapRowsToUserAccount first with
              Roles := req.Roles, UpdatedAt := storedTime env now, ArchivedAt := none }, db2)) := by
    simp only [Create, hv, hc]
    rw [find_eq _ _ _ _ _ _ (whereSyntaxOK_plain _ (exist_plain claims _ _))]
    simp only [hq]
    have hsel2 : runSelect env db.rows (findQuery claims
        (selectQuery.Where
          [Cond.and [Cond.equal "account_id" req.AccountID, Cond.equal "user_id" req.UserID]])
        true) [] = first :: rest := hsel
    simp only [hsel2, List.map_cons]
    rfl
  rw [hcreate, hupd]
  simp only [upReq, List.append_assoc, List.singleton_append]

/-- An update request without `unArchive` leaves the archive time of every row
as it was. -/
theorem Update_keeps_archived (env : Env) (db : DB) (claims : auth.Claims)
    (req : UserAccountUpdateRequest) (now : Time) (hun : req.unArchive = false) :
    (Update env db claims req now).2.rows.map Row.archived_at
      = db.rows.map Row.archived_at := by
  cases hv : env.validateUpdate req with
  | some err => simp only [Update, hv]
  | none =>
    cases hc : CanModifyAccount env db claims req.AccountID with
    | some err => simp only [Update, hv, hc]
    | none =>
      rw [Update_eq env db claims req now hv hc]
      by_cases hf : updateFields req = []
      · rw [if_pos hf]
      · rw [if_neg hf]
        cases env.execError db.rows (updateStmt req (storedTime env now)) with
        | some err => rfl
        | none =>
          simp only [applyStmt_updateStmt, List.map_map]
          apply List.map_congr_left
          intro x _
          simp only [Function.comp]
          split
          · cases req with
            | mk u a roles status un =>
              simp only at hun
              subst hun
              cases roles <;> cases status <;> rfl
          · rfl

/-- C20, as stated, fails: `Create` over an archived membership whose status is
`disabled`, with a request that asks for the status `active`, clears the
archive time but leaves the status `disabled`, in the membership returned and
in the row stored. -/
theorem create_over_existing_keeps_status :
    (Create demoEnv
        ⟨[demoRow "m1" demoUser1 demoAccountA "disabled" (some ⟨1568000000000000000⟩)], []⟩
        "m2" {}
        { UserID := demoUser1, AccountID := demoAccountA, Roles := [auth.RoleAdmin],
          Status := some "active" }
        ⟨1568050163000000000⟩).1
      = .ok { UserID := demoUser1, AccountID := demoAccountA, Roles := [auth.RoleAdmin],
              Status := "disabled", CreatedAt := ⟨1568000000000000000⟩,
              UpdatedAt := ⟨1568050163000000000⟩, ArchivedAt := none }
    ∧ (Create demoEnv
        ⟨[demoRow "m1" demoUser1 demoAccountA "disabled" (some ⟨1568000000000000000⟩)], []⟩
        "m2" {}
        { UserID := demoUser1, AccountID := demoAccountA, Roles := [auth.RoleAdmin],
          Status := some "active" }
        ⟨1568050163000000000⟩).2.rows
      = [{ id := "m1", user_id := demoUser1, account_id := demoAccountA,
           roles := [auth.RoleAdmin], status := "disabled",
           created_at := ⟨1568000000000000000⟩, updated_at := ⟨1568050163000000000⟩,
           archived_at := none }] := by
  decide

/-- C20, amended. For every `Create` call whose lookup finds an existing
membership of the user in the account (archived or not, whatever its status),
with a valid request and a database that does not fail: the membership
returned is the one found with the requested roles, the update time and
`ArchivedAt` cleared, and its status is the status found; in the table the
rows of the pair get the requested roles and a cleared `archived_at`, and the
status of every row stays as it was. Clearing `archived_at` needs `unArchive`,
which only this path sets: an `Update` request without it leaves the archive
time of every row as it was. -/
theorem create_over_existing_revives (env : Env) (db : DB) (uaID : String)
    (claims : auth.Claims) (req : UserAccountCreateRequest) (now : Time)
    (first : Row) (rest : List Row)
    (hv : env.validateCreate req = none)
    (hvu : env.validateUpdate (upReq req) = none)
    (hc : CanModifyAccount env db claims req.AccountID = none)
    (hq : ∀ q, env.queryError db.rows q = none)
    (he : ∀ s, env.execError db.rows s = none)
    (hsel : runSelect env db.rows (findQuery claims (existQuery req) true) [] = first :: rest) :
    (∃ ua, (Create env db uaID claims req now).1 = .ok ua
        ∧ ua.ArchivedAt = none ∧ ua.Roles = req.Roles ∧ ua.UpdatedAt = storedTime env now
        ∧ ua.Status = first.status ∧ ua.CreatedAt = first.created_at
        ∧ ua.UserID = req.UserID ∧ ua.AccountID = req.AccountID)
      ∧ (∀ x ∈ (Create env db uaID claims req now).2.rows,
          x.user_id = req.UserID ∧ x.account_id = req.AccountID →
          x.archived_at = none ∧ x.roles = req.Roles)
      ∧ (Create env db uaID claims req now).2.rows.map Row.status = db.rows.map Row.status
      ∧ (∀ (d : DB) (ureq : UserAccountUpdateRequest) (t : Time), ureq.unArchive = false →
          (Update env d claims ureq t).2.rows.map Row.archived_at
            = d.rows.map Row.archived_at) := by
  have hcreate := Create_found env db uaID claims req now first rest hv hvu hc hq he hsel
  have hfirst : first ∈ runSelect env db.rows (findQuery claims (existQuery req) true) [] := by
    rw [hsel]
    exact List.mem_cons_self _ _
  obtain ⟨_, hfall⟩ := mem_runSelect env db.rows _ [] first (exist_plain claims _ _) hfirst
  have h1 : evalCond env.evalRaw [] db.rows
      (Cond.and [Cond.equal "account_id" req.AccountID, Cond.equal "user_id" req.UserID])
      first = true := by
    simp only [findQuery, existQuery, selectQuery, SelectBuilder.Where, SelectBuilder.Select,
      SelectBuilder.From, List.nil_append, if_true, List.append_nil, evalAll_append,
      Bool.and_eq_true, evalAll_singleton] at hfall
    exact hfall.1
  have hfpair := (evalCond_pair env.evalRaw [] db.rows req.UserID req.AccountID first).2.mp h1
  rw [hcreate]
  refine ⟨⟨_, rfl, rfl, rfl, rfl, rfl, rfl, hfpair.1, hfpair.2⟩, ?_, ?_,
    fun d ureq t hun => Update_keeps_archived env d claims ureq t hun⟩
  · intro x hx hxp
    have hx2 : x ∈ List.map _ _ := hx
    rw [List.mem_map] at hx2
    obtain ⟨y, _, hy⟩ := hx2
    by_cases hyp : y.user_id = req.UserID ∧ y.account_id = req.AccountID
    · rw [if_pos hyp] at hy
      rw [← hy]
      exact ⟨rfl, rfl⟩
    · rw [if_neg hyp] at hy
      rw [hy] at hyp
      exact absurd hxp hyp
  · show List.map Row.status (List.map _ _) = _
    rw [List.map_map]
    apply List.map_congr_left
    intro x _
    simp only [Function.comp]
    split <;> rfl

/-- The amended C20 on a concrete table: `Create` over an archived, disabled
membership returns it with `ArchivedAt` cleared and the status it had. -/
theorem create_over_existing_revives_witness :
    ∃ ua, (Create demoEnv
        ⟨[demoRow "m1" demoUser1 demoAccountA "disabled" (some ⟨1568000000000000000⟩)], []⟩
        "m2" {}
        { UserID := demoUser1, AccountID := demoAccountA, Roles := [auth.RoleAdmin] }
        ⟨1568050163000000000⟩).1 = .ok ua
      ∧ ua.ArchivedAt = none ∧ ua.Roles = [auth.RoleAdmin]
      ∧ ua.UpdatedAt = storedTime demoEnv ⟨1568050163000000000⟩
      ∧ ua.Status = "disabled" ∧ ua.CreatedAt = ⟨1568000000000000000⟩
      ∧ ua.UserID = demoUser1 ∧ ua.AccountID = demoAccountA :=
  (create_over_existing_revives demoEnv
    ⟨[demoRow "m1" demoUser1 demoAccountA "disabled" (some ⟨1568000000000000000⟩)], []⟩
    "m2" {}
    { UserID := demoUser1, AccountID := demoAccountA, Roles := [auth.RoleAdmin] }
    ⟨1568050163000000000⟩
    (demoRow "m1" demoUser1 demoAccountA "disabled" (some ⟨1568000000000000000⟩)) []
    (by decide) (by decide) (by decide) (fun _ => rfl) (fun _ => rfl) (by decide)).1

end user_account

/-! ## theorems: the membership repository, writes -/

namespace user_account

open sqlbuilder

/-- C21. A valid `Update` request with nothing to change (no roles, no status,
`unArchive` not set), on an account the Claims may modify, returns nil and
leaves the connection as it was: no statement is sent, and every row of the
table, its `updated_at` included, is unchanged, at every `now`. -/
theorem update_nothing_is_noop (env : Env) (db : DB) (claims : auth.Claims)
    (req : UserAccountUpdateRequest) (now : Time)
    (hv : env.validateUpdate req = none)
    (hc : CanModifyAccount env db claims req.AccountID = none)
    (hroles : req.Roles = none) (hstatus : req.Status = none)
    (hun : req.unArchive = false) :
    Update env db claims req now = (none, db)
      ∧ (Update env db claims req now).2.rows = db.rows
      ∧ (Update env db claims req now).2.log = db.log := by
  have h : Update env db claims req now = (none, db) := by
    rw [Update_eq env db claims req now hv hc]
    simp [updateFields, hroles, hstatus, hun]
  rw [h]
  exact ⟨rfl, rfl, rfl⟩

/-- C21 at a concrete call: an update of nothing on a table of one row. -/
theorem update_nothing_is_noop_witness :
    Update demoEnv ⟨[demoRow "1" demoUser1 demoAccountA "active" none], []⟩ {}
        { UserID := demoUser1, AccountID := demoAccountA } ⟨1568050163123456789⟩
      = (none, ⟨[demoRow "1" demoUser1 demoAccountA "active" none], []⟩) :=
  (update_nothing_is_noop demoEnv ⟨[demoRow "1" demoUser1 demoAccountA "active" none], []⟩ {}
    { UserID := demoUser1, AccountID := demoAccountA } ⟨1568050163123456789⟩
    (by decide) (by decide) rfl rfl rfl).1

/-- C22. A request that fails validation is rejected by each of `Create`,
`Read`, `Update`, `Archive` and `Delete` with the validator's error and the
connection as it was: no row changes and no statement is sent. The outcome is
the same whatever the account check, the clock and the database would have
done, as the second environment, which shares only the validator's verdict,
shows. -/
theorem invalid_request_rejected_first (env env2 : Env) (db : DB) (uaID : String)
    (claims : auth.Claims) (now : Time) :
    (∀ (req : UserAccountCreateRequest) (err : GoError), env.validateCreate req = some err →
        Create env db uaID claims req now = (.error err, db)
        ∧ (env2.validateCreate req = some err →
            Create env2 db uaID claims req now = Create env db uaID claims req now))
    ∧ (∀ (req : UserAccountReadRequest) (err : GoError), env.validateRead req = some err →
        Read env db claims req = (.error err, db)
        ∧ (env2.validateRead req = some err → Read env2 db claims req = Read env db claims req))
    ∧ (∀ (req : UserAccountUpdateRequest) (err : GoError), env.validateUpdate req = some err →
        Update env db claims req now = (some err, db)
        ∧ (env2.validateUpdate req = some err →
            Update env2 db claims req now = Update env db claims req now))
    ∧ (∀ (req : UserAccountArchiveRequest) (err : GoError), env.validateArchive req = some err →
        Archive env db claims req now = (some err, db)
        ∧ (env2.validateArchive req = some err →
            Archive env2 db claims req now = Archive env db claims req now))
    ∧ (∀ (req : UserAccountDeleteRequest) (err : GoError), env.validateDelete req = some err →
        Delete env db claims req = (some err, db)
        ∧ (env2.validateDelete req = some err →
            Delete env2 db claims req = Delete env db claims req)) := by
  refine ⟨?_, ?_, ?_, ?_, ?_⟩
  · intro req err h
    refine ⟨by simp only [Create, h], fun h2 => ?_⟩
    simp only [Create, h, h2]
  · intro req err h
    refine ⟨by simp only [Read, h], fun h2 => ?_⟩
    simp only [Read, h, h2]
  · intro req err h
    refine ⟨by simp only [Update, h], fun h2 => ?_⟩
    simp only [Update, h, h2]
  · intro req err h
    refine ⟨by simp only [Archive, h], fun h2 => ?_⟩
    simp only [Archive, h, h2]
  · intro req err h
    refine ⟨by simp only [Delete, h], fun h2 => ?_⟩
    simp only [Delete, h, h2]

/-- C22 at concrete calls: a user id that is no UUID, on a table of one row. -/
theorem invalid_request_rejected_first_witness :
    Create demoEnv ⟨[demoRow "1" demoUser1 demoAccountA "active" none], []⟩ "2" {}
        { UserID := "bob", AccountID := demoAccountA } ⟨1568050163000000000⟩
      = (.error (.fieldErrors [⟨"UserID", "uuid"⟩]),
          ⟨[demoRow "1" demoUser1 demoAccountA "active" none], []⟩)
    ∧ Delete demoEnv ⟨[demoRow "1" demoUser1 demoAccountA "active" none], []⟩ {}
        { UserID := "", AccountID := demoAccountA }
      = (some (.fieldErrors [⟨"UserID", "uuid"⟩]),
          ⟨[demoRow "1" demoUser1 demoAccountA "active" none], []⟩) :=
  have h := invalid_request_rejected_first demoEnv demoEnv
    ⟨[demoRow "1" demoUser1 demoAccountA "active" none], []⟩ "2" {} ⟨1568050163000000000⟩
  ⟨(h.1 { UserID := "bob", AccountID := demoAccountA } _ (by decide)).1,
   (h.2.2.2.2 { UserID := "", AccountID := demoAccountA } _ (by decide)).1⟩

end user_account

namespace user_account

open sqlbuilder

/-- The time the writes store for a `now` that is not the zero time: an
instant not after `now`, less than a millisecond before it, and a whole number
of milliseconds. -/
theorem storedTime_bounds (env : Env) (now : Time) (hnz : now.IsZero = false) :
    (storedTime env now).nanos ≤ now.nanos
      ∧ now.nanos - (storedTime env now).nanos < Millisecond
      ∧ (Millisecond : Int) ∣ (storedTime env now).nanos := by
  have hm : (0 : Int) < 1000000 := by decide
  have h1 := Int.emod_nonneg (now.nanos - zeroTimeNanos) (ne_of_gt hm)
  have h2 := Int.emod_lt_of_pos (now.nanos - zeroTimeNanos) hm
  have h3 := Int.emod_add_ediv (now.nanos - zeroTimeNanos) 1000000
  simp only [storedTime, hnz, Time.UTC, Time.Truncate, Millisecond, zeroTimeNanos] at *
  refine ⟨?_, ?_, ?_⟩
  · simp; omega
  · simp; omega
  · simp only [show ¬ ((1000000 : Int) ≤ 0) by decide, if_false, Bool.false_eq_true]
    refine ⟨(now.nanos - -62135596800 * 1000000000) / 1000000 + -62135596800000, ?_⟩
    omega

/-- Normalising twice: a stored time that is not the zero time is stored as it is. -/
theorem storedTime_idem (env : Env) (now : Time) (h : (storedTime env now).IsZero = false) :
    storedTime env (storedTime env now) = storedTime env now := by
  have hd : ((storedTime env now).nanos - zeroTimeNanos) % 1000000 = 0 := by
    simp only [storedTime, Time.UTC, Time.Truncate, Millisecond, zeroTimeNanos,
      show ¬ ((1000000 : Int) ≤ 0) by decide, if_false]
    omega
  generalize storedTime env now = t at h hd ⊢
  simp only [storedTime, h, Time.UTC, Time.Truncate, Millisecond,
    show ¬ ((1000000 : Int) ≤ 0) by decide, if_false, Bool.false_eq_true, hd, sub_zero]

/-- C23 at the input where the code leaves it: a `now` one nanosecond after the
zero time, which is not the zero time, given to `Create` for a pair that has a
membership already. `Create` truncates it to the zero time and returns that as
`UpdatedAt`; `Update`, called with the truncated time, takes it for a missing
time and stores the clock's time instead. -/
theorem create_over_existing_first_millisecond :
    (⟨zeroTimeNanos + 1⟩ : Time).IsZero = false
    ∧ (Create demoEnv ⟨[demoRow "1" demoUser1 demoAccountA "active" none], []⟩ "2" {}
          { UserID := demoUser1, AccountID := demoAccountA, Roles := [auth.RoleAdmin] }
          ⟨zeroTimeNanos + 1⟩).1.map UserAccount.UpdatedAt
        = .ok ⟨zeroTimeNanos⟩
    ∧ (Create demoEnv ⟨[demoRow "1" demoUser1 demoAccountA "active" none], []⟩ "2" {}
          { UserID := demoUser1, AccountID := demoAccountA, Roles := [auth.RoleAdmin] }
          ⟨zeroTimeNanos + 1⟩).2.rows.map Row.updated_at
        = [⟨1568050163000000000⟩] := by
  decide

end user_account

namespace user_account

open sqlbuilder

/-- The function `mapAccountError`, case by case on the cause of the error. -/
theorem mapAccountError_cases (err : Option GoError) :
    (err = none → mapAccountError err = none)
    ∧ (∀ e, err = some e → e.Cause = accountErrForbidden →
        mapAccountError err = some ErrForbidden)
    ∧ (∀ e, err = some e → e.Cause = accountErrNotFound →
        mapAccountError err = some ErrNotFound)
    ∧ (∀ e, err = some e → e.Cause ≠ accountErrForbidden → e.Cause ≠ accountErrNotFound →
        mapAccountError err = err) := by
  refine ⟨?_, ?_, ?_, ?_⟩
  · intro h
    rw [h]
    rfl
  · intro e h hc
    have hne : accountErrForbidden ≠ accountErrNotFound := by decide
    rw [h]
    simp only [mapAccountError, hc, if_neg hne, if_true]
  · intro e h hc
    rw [h]
    simp only [mapAccountError, hc, if_true]
  · intro e h h1 h2
    rw [h]
    simp only [mapAccountError, if_neg h1, if_neg h2]

/-- When the error of the tenant-ownership check is not one of the two
variables of this package (package account, which this package imports, does
not see them), the mapped error is `ErrForbidden` exactly for the cause
`account.ErrForbidden`, and `ErrNotFound` exactly for the cause
`account.ErrNotFound`. -/
theorem mapAccountError_iff (err : Option GoError)
    (h1 : err ≠ some ErrForbidden) (h2 : err ≠ some ErrNotFound) :
    (mapAccountError err = some ErrForbidden
        ↔ ∃ e, err = some e ∧ e.Cause = accountErrForbidden)
    ∧ (mapAccountError err = some ErrNotFound
        ↔ ∃ e, err = some e ∧ e.Cause = accountErrNotFound) := by
  have hne : accountErrForbidden ≠ accountErrNotFound := by decide
  have hne2 : ErrNotFound ≠ ErrForbidden := by decide
  cases err with
  | none =>
    simp [mapAccountError]
  | some e =>
    by_cases hn : e.Cause = accountErrNotFound
    · have hf : e.Cause ≠ accountErrForbidden := fun h => hne (h.symm.trans hn)
      simp [mapAccountError, hn, hne2, hne.symm]
    · by_cases hf : e.Cause = accountErrForbidden
      · simp [mapAccountError, hf, hne, hne2.symm]
      · have h3 : e ≠ ErrForbidden := fun h => h1 (by rw [h])
        have h4 : e ≠ ErrNotFound := fun h => h2 (by rw [h])
        simp [mapAccountError, hn, hf, h3, h4]

/-- C24. `CanReadAccount` and `CanModifyAccount` of the repository map the
result of the tenant-ownership check of package account: a cause
`account.ErrForbidden` gives `ErrForbidden`, a cause `account.ErrNotFound`
gives `ErrNotFound`, and every other result, nil included, is passed through
as it is. For a result of the check that is not itself one of this package's
two variables, `ErrForbidden` is returned exactly for the first cause and
`ErrNotFound` exactly for the second. `ErrForbidden` and `ErrNotFound` are
different errors. -/
theorem account_errors_mapped (env : Env) (db : DB) (claims : auth.Claims) (accountID : String) :
    (∀ p ∈ [(CanReadAccount env db claims accountID, env.accountCanRead claims db.rows accountID),
            (CanModifyAccount env db claims accountID,
              env.accountCanModify claims db.rows accountID)],
      (p.2 = none → p.1 = none)
      ∧ (∀ e, p.2 = some e → e.Cause = accountErrForbidden → p.1 = some ErrForbidden)
      ∧ (∀ e, p.2 = some e → e.Cause = accountErrNotFound → p.1 = some ErrNotFound)
      ∧ (∀ e, p.2 = some e → e.Cause ≠ accountErrForbidden → e.Cause ≠ accountErrNotFound →
          p.1 = p.2)
      ∧ (p.2 ≠ some ErrForbidden → p.2 ≠ some ErrNotFound →
          (p.1 = some ErrForbidden ↔ ∃ e, p.2 = some e ∧ e.Cause = accountErrForbidden)
          ∧ (p.1 = some ErrNotFound ↔ ∃ e, p.2 = some e ∧ e.Cause = accountErrNotFound)))
    ∧ ErrForbidden ≠ ErrNotFound
    ∧ ErrForbidden.Cause ≠ ErrNotFound.Cause := by
  refine ⟨?_, by decide, by decide⟩
  intro p hp
  simp only [List.mem_cons, List.mem_singleton, List.not_mem_nil, or_false] at hp
  rcases hp with rfl | rfl
  · exact ⟨(mapAccountError_cases _).1, (mapAccountError_cases _).2.1,
      (mapAccountError_cases _).2.2.1, (mapAccountError_cases _).2.2.2,
      mapAccountError_iff _⟩
  · exact ⟨(mapAccountError_cases _).1, (mapAccountError_cases _).2.1,
      (mapAccountError_cases _).2.2.1, (mapAccountError_cases _).2.2.2,
      mapAccountError_iff _⟩

end user_account


/-! ## theorems: the status of an account -/

namespace account

/-- The method `AccountStatus.Value` on every string: it succeeds exactly on
`active`, `invited` and `disabled`. -/
theorem AccountStatus.value_ok_iff (s : AccountStatus) :
    AccountStatus.Value s = .ok s ↔ s = "active" ∨ s = "invited" ∨ s = "disabled" := by
  have hsplit : strings.Split "active invited disabled" ' ' = ["active", "invited", "disabled"] := by
    decide
  unfold AccountStatus.Value validator.VarRequiredOneOf validator.isOneOf
  rw [hsplit]
  by_cases h0 : s = ""
  · subst h0
    decide
  · by_cases h : s = "active" ∨ s = "invited" ∨ s = "disabled"
    · rcases h with rfl | rfl | rfl <;> decide
    · have hc : (["active", "invited", "disabled"] : List String).contains s = false := by
        simp only [not_or] at h
        simp [h.1, h.2.1, h.2.2]
      simp [validator.checkField, h0, hc, h]

/-- C25 at the status where the code leaves it: `pending` is in
`AccountStatus_Values`, and `Value` returns the validator's error for it;
`active` and `disabled` are stored as they are; `invited`, which is not in
`AccountStatus_Values`, is accepted; the empty status is rejected. -/
theorem accountStatus_value_rejects_pending :
    AccountStatus_Pending ∈ AccountStatus_Values
    ∧ AccountStatus.Value AccountStatus_Pending = .error (.fieldErrors [⟨"", "oneof"⟩])
    ∧ AccountStatus.Value AccountStatus_Active = .ok "active"
    ∧ AccountStatus.Value AccountStatus_Disabled = .ok "disabled"
    ∧ "invited" ∉ AccountStatus_Values
    ∧ AccountStatus.Value "invited" = .ok "invited"
    ∧ AccountStatus.Value "" = .error (.fieldErrors [⟨"", "required"⟩]) := by
  decide

end account


/-! ## theorems: the membership repository, statements -/

namespace user_account

open sqlbuilder

/-- The call `ExecContext`: the statement is logged, and a statement that
fails leaves the rows as they were. -/
theorem DB.exec_effect (env : Env) (db : DB) (s : Stmt) :
    (db.exec env s).2.log = db.log ++ [s]
      ∧ (∀ err, (db.exec env s).1 = some err → (db.exec env s).2.rows = db.rows) := by
  unfold DB.exec
  cases env.execError db.rows s with
  | none => exact ⟨rfl, fun err h => by cases h⟩
  | some e => exact ⟨rfl, fun _ _ => rfl⟩

/-- What `Update` sends and what a failure leaves: at most one statement that
writes, and the rows as they were when it returns an error. -/
theorem Update_effect (env : Env) (db : DB) (claims : auth.Claims)
    (req : UserAccountUpdateRequest) (now : Time) :
    (∃ stmts, (Update env db claims req now).2.log = db.log ++ stmts
        ∧ stmts.countP Stmt.isWrite ≤ 1)
      ∧ (∀ err, (Update env db claims req now).1 = some err →
          (Update env db claims req now).2.rows = db.rows) := by
  cases hv : env.validateUpdate req with
  | some err =>
    have h : Update env db claims req now = (some err, db) := by simp only [Update, hv]
    rw [h]
    exact ⟨⟨[], by simp, by simp⟩, fun _ _ => rfl⟩
  | none =>
    cases hc : CanModifyAccount env db claims req.AccountID with
    | some err =>
      have h : Update env db claims req now = (some err, db) := by simp only [Update, hv, hc]
      rw [h]
      exact ⟨⟨[], by simp, by simp⟩, fun _ _ => rfl⟩
    | none =>
      rw [Update_eq env db claims req now hv hc]
      by_cases hf : updateFields req = []
      · rw [if_pos hf]
        exact ⟨⟨[], by simp, by simp⟩, fun _ _ => rfl⟩
      · rw [if_neg hf]
        cases env.execError db.rows (updateStmt req (storedTime env now)) with
        | some e => exact ⟨⟨[_], rfl, by simp [updateStmt, Stmt.isWrite]⟩, fun _ _ => rfl⟩
        | none =>
          exact ⟨⟨[_], rfl, by simp [updateStmt, Stmt.isWrite]⟩, fun err h => by cases h⟩

/-- What `Archive` sends and what a failure leaves. -/
theorem Archive_effect (env : Env) (db : DB) (claims : auth.Claims)
    (req : UserAccountArchiveRequest) (now : Time) :
    (∃ stmts, (Archive env db claims req now).2.log = db.log ++ stmts
        ∧ stmts.countP Stmt.isWrite ≤ 1)
      ∧ (∀ err, (Archive env db claims req now).1 = some err →
          (Archive env db claims req now).2.rows = db.rows) := by
  cases hv : env.validateArchive req with
  | some err =>
    have h : Archive env db claims req now = (some err, db) := by simp only [Archive, hv]
    rw [h]
    exact ⟨⟨[], by simp, by simp⟩, fun _ _ => rfl⟩
  | none =>
    cases hc : CanModifyAccount env db claims req.AccountID with
    | some err =>
      have h : Archive env db claims req now = (some err, db) := by simp only [Archive, hv, hc]
      rw [h]
      exact ⟨⟨[], by simp, by simp⟩, fun _ _ => rfl⟩
    | none =>
      simp only [Archive, hv, hc, DB.exec]
      cases env.execError db.rows _ with
      | some e => exact ⟨⟨[_], rfl, by simp [Stmt.isWrite]⟩, fun _ _ => rfl⟩
      | none => exact ⟨⟨[_], rfl, by simp [Stmt.isWrite]⟩, fun err h => by cases h⟩

/-- What `Delete` sends and what a failure leaves. -/
theorem Delete_effect (env : Env) (db : DB) (claims : auth.Claims)
    (req : UserAccountDeleteRequest) :
    (∃ stmts, (Delete env db claims req).2.log = db.log ++ stmts
        ∧ stmts.countP Stmt.isWrite ≤ 1)
      ∧ (∀ err, (Delete env db claims req).1 = some err →
          (Delete env db claims req).2.rows = db.rows) := by
  cases hv : env.validateDelete req with
  | some err =>
    have h : Delete env db claims req = (some err, db) := by simp only [Delete, hv]
    rw [h]
    exact ⟨⟨[], by simp, by simp⟩, fun _ _ => rfl⟩
  | none =>
    cases hc : CanModifyAccount env db claims req.AccountID with
    | some err =>
      have h : Delete env db claims req = (some err, db) := by simp only [Delete, hv, hc]
      rw [h]
      exact ⟨⟨[], by simp, by simp⟩, fun _ _ => rfl⟩
    | none =>
      simp only [Delete, hv, hc, DB.exec]
      cases env.execError db.rows _ with
      | some e => exact ⟨⟨[_], rfl, by simp [Stmt.isWrite]⟩, fun _ _ => rfl⟩
      | none => exact ⟨⟨[_], rfl, by simp [Stmt.isWrite]⟩, fun err h => by cases h⟩

end user_account

namespace user_account

open sqlbuilder

/-- What `Create` sends and what a failure leaves: the lookup and at most one
statement that writes, and the rows as they were when it returns an error. -/
theorem Create_effect (env : Env) (db : DB) (uaID : String) (claims : auth.Claims)
    (req : UserAccountCreateRequest) (now : Time) :
    (∃ stmts, (Create env db uaID claims req now).2.log = db.log ++ stmts
        ∧ stmts.countP Stmt.isWrite ≤ 1)
      ∧ (∀ err, (Create env db uaID claims req now).1 = .error err →
          (Create env db uaID claims req now).2.rows = db.rows) := by
  cases hv : env.validateCreate req with
  | some err =>
    have h : Create env db uaID claims req now = (.error err, db) := by simp only [Create, hv]
    rw [h]
    exact ⟨⟨[], by simp, by simp⟩, fun _ _ => rfl⟩
  | none =>
    cases hc : CanModifyAccount env db claims req.AccountID with
    | some err =>
      have h : Create env db uaID claims req now = (.error err, db) := by
        simp only [Create, hv, hc]
      rw [h]
      exact ⟨⟨[], by simp, by simp⟩, fun _ _ => rfl⟩
    | none =>
      simp only [Create, hv, hc]
      rw [find_eq _ _ _ _ _ _ (whereSyntaxOK_plain _ (exist_plain claims _ _))]
      cases env.queryError db.rows _ with
      | some e => exact ⟨⟨[_], rfl, by simp [Stmt.isWrite]⟩, fun _ _ => rfl⟩
      | none =>
        simp only
        generalize List.map mapRowsToUserAccount (runSelect env db.rows _ []) = existing
        cases existing with
        | nil =>
          simp only [DB.exec]
          cases env.execError db.rows _ with
          | some e =>
            exact ⟨⟨[_, _], (List.append_assoc _ _ _), by simp [Stmt.isWrite]⟩, fun _ _ => rfl⟩
          | none =>
            exact ⟨⟨[_, _], (List.append_assoc _ _ _), by simp [Stmt.isWrite]⟩,
              fun err h => by cases h⟩
        | cons first rest =>
          simp only
          obtain ⟨⟨stmts, hlog, hcount⟩, hrows⟩ := Update_effect env
            { db with log := db.log ++ [Stmt.select (findQuery claims
                (selectQuery.Where [Cond.and [Cond.equal "account_id" req.AccountID,
                  Cond.equal "user_id" req.UserID]]) true) []] }
            claims { UserID := req.UserID, AccountID := req.AccountID, Roles := some req.Roles,
                     unArchive := true } (storedTime env now)
          revert hlog hrows
          generalize Update env _ claims _ (storedTime env now) = res
          intro hrows hlog
          obtain ⟨e, db3⟩ := res
          cases e with
          | some e =>
            refine ⟨⟨Stmt.select (findQuery claims (existQuery req) true) [] :: stmts, ?_, ?_⟩,
              fun _ _ => hrows e rfl⟩
            · exact hlog.trans (List.append_assoc _ _ _)
            · simpa [Stmt.isWrite] using hcount
          | none =>
            refine ⟨⟨Stmt.select (findQuery claims (existQuery req) true) [] :: stmts, ?_, ?_⟩,
              fun err h => by cases h⟩
            · exact hlog.trans (List.append_assoc _ _ _)
            · simpa [Stmt.isWrite] using hcount

end user_account

namespace user_account

open sqlbuilder

theorem updateFields_ne_nil (req : UserAccountUpdateRequest)
    (h : req.Roles ≠ none ∨ req.Status ≠ none ∨ req.unArchive = true) :
    updateFields req ≠ [] := by
  cases req with
  | mk u a roles status un =>
    cases roles <;> cases status <;> cases un <;> simp [updateFields] at h ⊢

/-- C26. Each of `Create`, `Update`, `Archive` and `Delete` sends at most one
statement that writes to the table, and when one of them returns an error the
rows are as they were before the call. The one statement of `Update`, for a
valid request with something to change on an account the Claims may modify, is
an `UPDATE` of the rows of the pair that assigns the roles, the status and the
cleared archive time, each when asked for, together with `updated_at`; after
the call the rows are either all as they were, or every row of the pair has
all of these assignments and `Update` has returned nil. -/
theorem writes_are_one_statement (env : Env) (db : DB) (uaID : String) (claims : auth.Claims)
    (now : Time) (creq : UserAccountCreateRequest) (ureq : UserAccountUpdateRequest)
    (areq : UserAccountArchiveRequest) (dreq : UserAccountDeleteRequest) :
    ((∃ stmts, (Create env db uaID claims creq now).2.log = db.log ++ stmts
          ∧ stmts.countP Stmt.isWrite ≤ 1)
        ∧ (∀ err, (Create env db uaID claims creq now).1 = .error err →
            (Create env db uaID claims creq now).2.rows = db.rows))
    ∧ ((∃ stmts, (Update env db claims ureq now).2.log = db.log ++ stmts
          ∧ stmts.countP Stmt.isWrite ≤ 1)
        ∧ (∀ err, (Update env db claims ureq now).1 = some err →
            (Update env db claims ureq now).2.rows = db.rows))
    ∧ ((∃ stmts, (Archive env db claims areq now).2.log = db.log ++ stmts
          ∧ stmts.countP Stmt.isWrite ≤ 1)
        ∧ (∀ err, (Archive env db claims areq now).1 = some err →
            (Archive env db claims areq now).2.rows = db.rows))
    ∧ ((∃ stmts, (Delete env db claims dreq).2.log = db.log ++ stmts
          ∧ stmts.countP Stmt.isWrite ≤ 1)
        ∧ (∀ err, (Delete env db claims dreq).1 = some err →
            (Delete env db claims dreq).2.rows = db.rows))
    ∧ (env.validateUpdate ureq = none → CanModifyAccount env db claims ureq.AccountID = none →
        (ureq.Roles ≠ none ∨ ureq.Status ≠ none ∨ ureq.unArchive = true) →
        ∃ sets,
          (Update env db claims ureq now).2.log
            = db.log ++ [Stmt.update sets
                [Cond.and [Cond.equal "user_id" ureq.UserID,
                  Cond.equal "account_id" ureq.AccountID]]]
          ∧ (∀ roles, ureq.Roles = some roles → ("roles", Value.strings roles) ∈ sets)
          ∧ (∀ status, ureq.Status = some status → ("status", Value.text status) ∈ sets)
          ∧ (ureq.unArchive = true → ("archived_at", Value.null) ∈ sets)
          ∧ ("updated_at", Value.time (storedTime env now)) ∈ sets
          ∧ ((Update env db claims ureq now).2.rows = db.rows
              ∨ ((Update env db claims ureq now).1 = none
                  ∧ (Update env db claims ureq now).2.rows
                    = db.rows.map fun r =>
                        if r.user_id = ureq.UserID ∧ r.account_id = ureq.AccountID then
                          sets.foldl (fun acc s => acc.assign s.1 s.2) r
                        else r))) := by
  refine ⟨Create_effect env db uaID claims creq now, Update_effect env db claims ureq now,
    Archive_effect env db claims areq now, Delete_effect env db claims dreq, ?_⟩
  intro hv hc hreq
  have hf := updateFields_ne_nil ureq hreq
  refine ⟨updateFields ureq ++ [("updated_at", Value.time (storedTime env now))], ?_, ?_, ?_, ?_,
    by simp, ?_⟩
  · rw [Update_eq env db claims ureq now hv hc, if_neg hf]
    cases env.execError db.rows (updateStmt ureq (storedTime env now)) <;> rfl
  · intro roles h
    simp [updateFields, h]
  · intro status h
    simp [updateFields, h]
  · intro h
    simp [updateFields, h]
  · rw [Update_eq env db claims ureq now hv hc, if_neg hf]
    cases env.execError db.rows (updateStmt ureq (storedTime env now)) with
    | some e => exact Or.inl rfl
    | none => exact Or.inr ⟨rfl, applyStmt_updateStmt env db.rows ureq _⟩

end user_account


/-! ## theorems: the plaintext of an invite -/

namespace invite

/-- The plaintext of `NewInviteHash`, written out: the five fields in order
with a `|` between them. -/
theorem hashStr_eq (userID accountID requestIp : String) (ttl : Duration) (now : Time) :
    hashStr userID accountID requestIp ttl now
      = userID ++ "|" ++ accountID ++ "|" ++ strconv.Itoa now.UTC.Unix ++ "|"
          ++ strconv.Itoa (now.Add ttl).UTC.Unix ++ "|" ++ requestIp := by
  apply String.ext
  simp [hashStr, strings.Join, String.data_append, List.intercalate, List.intersperse, Time.UTC]

/-- C27. The plaintext `NewInviteHash` gives the cipher is the user id, the
account id, the decimal Unix seconds of `now`, the decimal Unix seconds of
`now + ttl` and the request IP, in this order, with the one character `|`
between them: with any cipher, the result is the cipher's result on this
text, and with a cipher that returns its plaintext the result is this text,
whatever the secret key. The third and the fourth field are decimal numerals,
and the integers they denote are the Unix seconds of `now` and of `now + ttl`.
When both ids have the shape of a UUID and the IP is a valid address, the
plaintext splits on `|` into exactly these five fields. -/
theorem newInviteHash_plaintext (cr : Symcrypto) (entropy : List Nat)
    (secretKey userID accountID requestIp : String) (ttl : Duration) (now : Time) :
    NewInviteHash cr entropy secretKey userID accountID requestIp ttl now
      = (match cr.New secretKey with
         | some err => .error (.withStack err)
         | none =>
           match cr.Encrypt secretKey entropy
             (userID ++ "|" ++ accountID ++ "|" ++ strconv.Itoa now.UTC.Unix ++ "|"
               ++ strconv.Itoa (now.Add ttl).UTC.Unix ++ "|" ++ requestIp) with
           | .error err => .error (.withStack err)
           | .ok encrypted => .ok encrypted)
    ∧ (∀ key2 : String,
        NewInviteHash ⟨fun _ => none, fun _ _ plain => .ok plain, fun _ c => .ok c⟩ entropy key2
            userID accountID requestIp ttl now
          = .ok (userID ++ "|" ++ accountID ++ "|" ++ strconv.Itoa now.UTC.Unix ++ "|"
              ++ strconv.Itoa (now.Add ttl).UTC.Unix ++ "|" ++ requestIp))
    ∧ (strconv.IsNumeral (strconv.Itoa now.UTC.Unix) = true
        ∧ strconv.numeralValue (strconv.Itoa now.UTC.Unix) = now.UTC.Unix)
    ∧ (strconv.IsNumeral (strconv.Itoa (now.Add ttl).UTC.Unix) = true
        ∧ strconv.numeralValue (strconv.Itoa (now.Add ttl).UTC.Unix) = (now.Add ttl).UTC.Unix)
    ∧ (validator.isUUID userID = true → validator.isUUID accountID = true →
        validator.isIP requestIp = true →
        strings.Split
            (userID ++ "|" ++ accountID ++ "|" ++ strconv.Itoa now.UTC.Unix ++ "|"
              ++ strconv.Itoa (now.Add ttl).UTC.Unix ++ "|" ++ requestIp) '|'
          = [userID, accountID, strconv.Itoa now.UTC.Unix, strconv.Itoa (now.Add ttl).UTC.Unix,
              requestIp]) := by
  rw [← hashStr_eq userID accountID requestIp ttl now]
  refine ⟨?_, ?_, strconv.Itoa_numeral _, strconv.Itoa_numeral _, ?_⟩
  · unfold NewInviteHash
    cases cr.New secretKey with
    | some err => rfl
    | none => rfl
  · intro key2
    rfl
  · intro hu ha hip
    exact split_join_five _ _ _ _ _ (validator.isUUID_no_bar _ hu) (validator.isUUID_no_bar _ ha)
      (strconv.Itoa_no_bar _) (strconv.Itoa_no_bar _) (net.ParseIP_no_bar _ hip)

end invite

/-! ## theorems: the membership repository, a first membership -/

namespace user_account

open sqlbuilder

/-- C28. When the lookup of `Create` returns no membership of the pair (the
request is valid, the Claims may modify the account, and the database does not
fail), `Create` inserts one row and returns the membership of that row: user,
account and roles of the request, the status of the request when it has one
and `active` otherwise, `CreatedAt` and `UpdatedAt` both the normalised `now`,
and no archive time. -/
theorem create_inserts_requested_membership (env : Env) (db : DB) (uaID : String)
    (claims : auth.Claims) (req : UserAccountCreateRequest) (now : Time)
    (hv : env.validateCreate req = none)
    (hc : CanModifyAccount env db claims req.AccountID = none)
    (hq : env.queryError db.rows (findQuery claims (existQuery req) true) = none)
    (hsel : runSelect env db.rows (findQuery claims (existQuery req) true) [] = [])
    (he : env.execError db.rows (Stmt.insert (insertRow uaID req (storedTime env now))) = none) :
    ∃ ua row,
      Create env db uaID claims req now
        = (.ok ua,
           { rows := db.rows ++ [row],
             log := db.log ++
               [Stmt.select (findQuery claims (existQuery req) true) [], Stmt.insert row] })
      ∧ mapRowsToUserAccount row = ua
      ∧ row.id = uaID
      ∧ ua.UserID = req.UserID ∧ ua.AccountID = req.AccountID ∧ ua.Roles = req.Roles
      ∧ (∀ status, req.Status = some status → ua.Status = status)
      ∧ (req.Status = none → ua.Status = UserAccountStatus_Active)
      ∧ ua.CreatedAt = storedTime env now ∧ ua.UpdatedAt = storedTime env now
      ∧ ua.ArchivedAt = none
      ∧ (now.IsZero = false →
          storedTime env now = (now.UTC).Truncate Millisecond
          ∧ (storedTime env now).nanos ≤ now.nanos
          ∧ now.nanos - (storedTime env now).nanos < Millisecond
          ∧ (Millisecond : Int) ∣ (storedTime env now).nanos) := by
  have hcreate : Create env db uaID claims req now
      = (.ok (mapRowsToUserAccount (insertRow uaID req (storedTime env now))),
         { rows := db.rows ++ [insertRow uaID req (storedTime env now)],
           log := db.log ++
             [Stmt.select (findQuery claims (existQuery req) true) [],
              Stmt.insert (insertRow uaID req (storedTime env now))] }) := by
    have hq2 : env.queryError db.rows (findQuery claims
        (selectQuery.Where
          [Cond.and [Cond.equal "account_id" req.AccountID, Cond.equal "user_id" req.UserID]])
        true) = none := hq
    have hsel2 : runSelect env db.rows (findQuery claims
        (selectQuery.Where
          [Cond.and [Cond.equal "account_id" req.AccountID, Cond.equal "user_id" req.UserID]])
        true) [] = [] := hsel
    have he2 : ∀ st : String, env.execError db.rows (Stmt.insert
        { id := uaID, user_id := req.UserID, account_id := req.AccountID, roles := req.Roles,
          status := st, created_at := storedTime env now, updated_at := storedTime env now,
          archived_at := none }) = none
        ∨ st ≠ req.Status.getD UserAccountStatus_Active := by
      intro st
      by_cases h : st = req.Status.getD UserAccountStatus_Active
      · left
        rw [h]
        exact he
      · exact Or.inr h
    simp only [Create, hv, hc]
    rw [find_eq _ _ _ _ _ _ (whereSyntaxOK_plain _ (exist_plain claims _ _))]
    simp only [hq2, hsel2, List.map_nil, DB.exec]
    cases hst : req.Status with
    | none =>
      have h3 := (he2 UserAccountStatus_Active).resolve_right (by simp [hst])
      simp only [h3, applyStmt, insertRow, mapRowsToUserAccount, hst, Option.getD_none,
        List.append_assoc, List.singleton_append, existQuery]
    | some st =>
      have h3 := (he2 st).resolve_right (by simp [hst])
      simp only [h3, applyStmt, insertRow, mapRowsToUserAccount, hst, Option.getD_some,
        List.append_assoc, List.singleton_append, existQuery]
  refine ⟨_, _, hcreate, rfl, rfl, rfl, rfl, rfl, ?_, ?_, rfl, rfl, rfl, ?_⟩
  · intro status h
    simp [mapRowsToUserAccount, insertRow, h]
  · intro h
    simp [mapRowsToUserAccount, insertRow, h]
  · intro hnz
    refine ⟨by simp only [storedTime, hnz, Bool.false_eq_true, if_false], ?_⟩
    exact storedTime_bounds env now hnz

/-- C28 at a concrete call: a first membership in an empty table, with no
status in the request and a `now` that is not a whole millisecond. -/
theorem create_inserts_requested_membership_witness :
    ∃ ua row,
      Create demoEnv ⟨[], []⟩ "1" {}
          { UserID := demoUser1, AccountID := demoAccountA, Roles := [auth.RoleUser] }
          ⟨1568050163123456789⟩
        = (.ok ua,
           { rows := [] ++ [row],
             log := [] ++
               [Stmt.select (findQuery {} (existQuery
                  { UserID := demoUser1, AccountID := demoAccountA, Roles := [auth.RoleUser] })
                  true) [], Stmt.insert row] })
      ∧ mapRowsToUserAccount row = ua
      ∧ row.id = "1"
      ∧ ua.UserID = demoUser1 ∧ ua.AccountID = demoAccountA ∧ ua.Roles = [auth.RoleUser]
      ∧ ua.Status = "active"
      ∧ ua.CreatedAt = ⟨1568050163123000000⟩ ∧ ua.UpdatedAt = ⟨1568050163123000000⟩
      ∧ ua.ArchivedAt = none := by
  obtain ⟨ua, row, h, hrow, hid, h1, h2, h3, -, h5, h6, h7, h8, -⟩ :=
    create_inserts_requested_membership demoEnv ⟨[], []⟩ "1" {}
      { UserID := demoUser1, AccountID := demoAccountA, Roles := [auth.RoleUser] }
      ⟨1568050163123456789⟩ (by decide) (by decide) (by decide) (by decide) (by decide)
  exact ⟨ua, row, h, hrow, hid, h1, h2, h3, h5 rfl, h6.trans (by decide), h7.trans (by decide),
    h8⟩

end user_account


/-! ## theorems: timezones -/

namespace geonames

/-- One turn of the loop of `ListTimezones`, by membership. -/
theorem appendTimezone_eq (resp : List String) (ct : CountryTimezone) :
    appendTimezone resp ct = if ct.TimezoneId ∈ resp then resp else resp ++ [ct.TimezoneId] := by
  unfold appendTimezone
  by_cases h : ct.TimezoneId ∈ resp
  · have h2 : (resp.any fun t => ct.TimezoneId == t) = true :=
      List.any_eq_true.mpr ⟨_, h, by simp⟩
    simp [h, h2]
  · have h2 : (resp.any fun t => ct.TimezoneId == t) = false := by
      rw [Bool.eq_false_iff]
      intro hany
      obtain ⟨t, ht, heq⟩ := List.any_eq_true.mp hany
      have : ct.TimezoneId = t := by simpa using heq
      exact h (this ▸ ht)
    simp [h, h2]

/-- The loop after one more row: the id of the row is appended exactly when it
is not there yet. -/
theorem foldl_appendTimezone_snoc (res : List CountryTimezone) (ct : CountryTimezone) :
    (res ++ [ct]).foldl appendTimezone []
      = if ct.TimezoneId ∈ res.foldl appendTimezone [] then res.foldl appendTimezone []
        else res.foldl appendTimezone [] ++ [ct.TimezoneId] := by
  rw [List.foldl_append, List.foldl_cons, List.foldl_nil, appendTimezone_eq]

/-- The ids the loop has collected are the ids of the rows, each once. -/
theorem foldl_appendTimezone_spec (res : List CountryTimezone) :
    (res.foldl appendTimezone []).Nodup
      ∧ (∀ t, t ∈ res.foldl appendTimezone [] ↔ t ∈ res.map CountryTimezone.TimezoneId)
      ∧ (res.foldl appendTimezone []).Sublist (res.map CountryTimezone.TimezoneId) := by
  induction res using List.reverseRecOn with
  | nil => simp
  | append_singleton res ct ih =>
    obtain ⟨hnd, hmem, hsub⟩ := ih
    rw [foldl_appendTimezone_snoc]
    by_cases h : ct.TimezoneId ∈ res.foldl appendTimezone []
    · rw [if_pos h]
      refine ⟨hnd, ?_, ?_⟩
      · intro t
        rw [hmem] at h
        simp only [List.map_append, List.map_cons, List.map_nil, List.mem_append,
          List.mem_singleton, hmem]
        constructor
        · exact Or.inl
        · rintro (h1 | h1)
          · exact h1
          · exact h1 ▸ h
      · rw [List.map_append]
        exact hsub.trans (List.sublist_append_left _ _)
    · rw [if_neg h]
      refine ⟨?_, ?_, ?_⟩
      · rw [List.nodup_append]
        refine ⟨hnd, List.nodup_singleton _, ?_⟩
        intro a ha hb
        rw [List.mem_singleton] at hb
        exact h (hb ▸ ha)
      · intro t
        simp only [List.map_append, List.map_cons, List.map_nil, List.mem_append,
          List.mem_singleton, hmem]
      · rw [List.map_append]
        exact List.Sublist.append hsub (List.Sublist.refl _)

end geonames

namespace geonames

/-- The ids the loop has collected stand in the order in which they first
occur among the rows. -/
theorem foldl_appendTimezone_order (res : List CountryTimezone) (t1 t2 : String)
    (h1 : t1 ∈ res.foldl appendTimezone []) (h2 : t2 ∈ res.foldl appendTimezone []) :
    (res.foldl appendTimezone []).indexOf t1 < (res.foldl appendTimezone []).indexOf t2
      ↔ (res.map CountryTimezone.TimezoneId).indexOf t1
          < (res.map CountryTimezone.TimezoneId).indexOf t2 := by
  induction res using List.reverseRecOn with
  | nil => simp at h1
  | append_singleton res ct ih =>
    have hmem := (foldl_appendTimezone_spec res).2.1
    rw [foldl_appendTimezone_snoc] at h1 h2 ⊢
    rw [List.map_append, List.map_cons, List.map_nil]
    by_cases h : ct.TimezoneId ∈ res.foldl appendTimezone []
    · rw [if_pos h] at h1 h2 ⊢
      rw [List.indexOf_append_of_mem ((hmem t1).mp h1),
        List.indexOf_append_of_mem ((hmem t2).mp h2)]
      exact ih h1 h2
    · rw [if_neg h] at h1 h2 ⊢
      have hid : ct.TimezoneId ∉ res.map CountryTimezone.TimezoneId := fun hc =>
        h ((hmem _).mpr hc)
      have hx1 : (res.foldl appendTimezone [] ++ [ct.TimezoneId]).indexOf ct.TimezoneId
          = (res.foldl appendTimezone []).length := by
        rw [List.indexOf_append_of_not_mem h, List.indexOf_cons_self]
        rfl
      have hx2 : (res.map CountryTimezone.TimezoneId ++ [ct.TimezoneId]).indexOf ct.TimezoneId
          = (res.map CountryTimezone.TimezoneId).length := by
        rw [List.indexOf_append_of_not_mem hid, List.indexOf_cons_self]
        rfl
      rw [List.mem_append, List.mem_singleton] at h1 h2
      rcases h1 with h1 | h1 <;> rcases h2 with h2 | h2
      · rw [List.indexOf_append_of_mem h1, List.indexOf_append_of_mem h2,
          List.indexOf_append_of_mem ((hmem t1).mp h1),
          List.indexOf_append_of_mem ((hmem t2).mp h2)]
        exact ih h1 h2
      · subst h2
        rw [hx1, hx2, List.indexOf_append_of_mem h1,
          List.indexOf_append_of_mem ((hmem t1).mp h1)]
        exact ⟨fun _ => List.indexOf_lt_length.mpr ((hmem t1).mp h1),
          fun _ => List.indexOf_lt_length.mpr h1⟩
      · subst h1
        rw [hx1, hx2, List.indexOf_append_of_mem h2,
          List.indexOf_append_of_mem ((hmem t2).mp h2)]
        have ha := List.indexOf_lt_length.mpr h2
        have hb := List.indexOf_lt_length.mpr ((hmem t2).mp h2)
        omega
      · subst h1
        subst h2
        simp

/-- C29. When the rows `FindCountryTimezones` returns are `res` (the rows of the
query with a country code and a timezone id that are not empty),
`ListTimezones` returns a list that has no duplicates, whose elements are
exactly the timezone ids of `res`, and in which the ids stand in the order of
their first occurrence in `res`: it is a sublist of the ids of `res`, and one
id comes before another in it exactly when its first occurrence in `res` comes
before the other's. -/
theorem listTimezones_distinct_in_order (st : Store) (res : List CountryTimezone)
    (hres : FindCountryTimezones st "timezone_id" "" [] = .ok res) :
    ∃ resp, ListTimezones st = .ok resp
      ∧ resp.Nodup
      ∧ (∀ t, t ∈ resp → t ∈ res.map CountryTimezone.TimezoneId)
      ∧ (∀ ct ∈ res, ct.TimezoneId ∈ resp)
      ∧ resp.Sublist (res.map CountryTimezone.TimezoneId)
      ∧ (∀ t1 ∈ resp, ∀ t2 ∈ resp,
          (resp.indexOf t1 < resp.indexOf t2
            ↔ (res.map CountryTimezone.TimezoneId).indexOf t1
                < (res.map CountryTimezone.TimezoneId).indexOf t2))
      ∧ (∀ rows, st.queryContext "timezone_id" "" [] = .ok rows →
          res = rows.filter fun v => decide (v.CountryCode ≠ "" ∧ v.TimezoneId ≠ "")) := by
  obtain ⟨hnd, hmem, hsub⟩ := foldl_appendTimezone_spec res
  refine ⟨res.foldl appendTimezone [], by simp only [ListTimezones, hres], hnd,
    fun t ht => (hmem t).mp ht, fun ct hct => (hmem _).mpr (List.mem_map_of_mem _ hct), hsub,
    ?_, ?_⟩
  · intro t1 h1 t2 h2
    exact foldl_appendTimezone_order res t1 t2 h1 h2
  · intro rows hrows
    have h2 : FindCountryTimezones st "timezone_id" "" []
        = .ok (rows.filter fun v => !(v.CountryCode == "" || v.TimezoneId == "")) := by
      simp [FindCountryTimezones, hrows]
    rw [h2] at hres
    cases hres
    apply List.filter_congr
    intro v _
    by_cases hc : v.CountryCode = "" <;> by_cases ht : v.TimezoneId = "" <;> simp [hc, ht]

/-- C29 at a concrete store. -/
theorem listTimezones_distinct_in_order_witness :
    ∃ resp, ListTimezones demoStore = .ok resp
      ∧ resp.Nodup
      ∧ (∀ t, t ∈ resp → t ∈ ["America/Anchorage", "America/Chicago", "America/Chicago",
          "Europe/Paris"])
      ∧ resp.Sublist ["America/Anchorage", "America/Chicago", "America/Chicago",
          "Europe/Paris"] := by
  obtain ⟨resp, h, hnd, hin, -, hsub, -⟩ := listTimezones_distinct_in_order demoStore
    [⟨"US", "America/Anchorage"⟩, ⟨"US", "America/Chicago"⟩, ⟨"CA", "America/Chicago"⟩,
      ⟨"FR", "Europe/Paris"⟩] (by decide)
  exact ⟨resp, h, hnd, hin, hsub⟩

end geonames


/-! ## theorems: the request context -/

namespace webcontext

/-- The function `ContextEnv` returns exactly on a context that holds a
`*Values`: the `Env` of the Values, or the empty string for a nil pointer. -/
theorem ContextEnv_returns_iff (ctx : Context) :
    (∃ s, ContextEnv ctx = .returns s) ↔ ∃ p, ctx.keyValues = .valuesPtr p := by
  cases ctx with
  | mk kv =>
    cases kv with
    | nil => simp [ContextEnv]
    | valuesPtr p => cases p <;> simp [ContextEnv]
    | other n => simp [ContextEnv]

/-- C30 at the input where the code leaves it: on `context.Background()`,
which carries no Values, the assertion of `ContextEnv` is a run-time panic and
nothing is returned, while `ContextValues` on the same context returns fresh
Values and the error; on a context with Values `ContextEnv` returns their
`Env`, and on a nil `*Values` the empty string. -/
theorem contextEnv_panics_without_values :
    ContextEnv Background
      = .panics "interface conversion: interface {} is nil, not *webcontext.Values"
    ∧ ContextValues Background = (some {}, some ErrContextRequired)
    ∧ ContextEnv (WithValues Background (some { Env := "dev" })) = .returns "dev"
    ∧ ContextEnv (WithValues Background none) = .returns "" := by
  decide

end webcontext


/-! ## theorems: concrete calls -/

namespace user_account

open sqlbuilder

/-- C24 at a concrete call: Claims of account A asking for account B, where
the check of package account answers with its forbidden error wrapped in a
stack; the repository returns its own `ErrForbidden`. -/
theorem account_errors_mapped_witness :
    CanModifyAccount demoEnv ⟨[], []⟩
        { Audience := demoAccountA, Subject := demoUser1, Roles := [auth.RoleAdmin] } demoAccountB
      = some ErrForbidden :=
  ((account_errors_mapped demoEnv ⟨[], []⟩
      { Audience := demoAccountA, Subject := demoUser1, Roles := [auth.RoleAdmin] }
      demoAccountB).1 _ (List.mem_cons_of_mem _ (List.mem_singleton.mpr rfl))).2.1
    (.withStack accountErrForbidden) (by decide) (by decide)

/-- C26 at a concrete call: an update of the roles of a membership that a
failing database rejects; one statement was sent and the row is as it was. -/
theorem writes_are_one_statement_witness :
    (Update { demoEnv with execError := fun _ _ => some (.sentinel "pq: connection lost") }
        ⟨[demoRow "1" demoUser1 demoAccountA "active" (some ⟨1568000000000000000⟩)], []⟩ {}
        { UserID := demoUser1, AccountID := demoAccountA, Roles := some [auth.RoleAdmin],
          unArchive := true }
        ⟨1568050163000000000⟩).2.rows
      = [demoRow "1" demoUser1 demoAccountA "active" (some ⟨1568000000000000000⟩)] :=
  (writes_are_one_statement
      { demoEnv with execError := fun _ _ => some (.sentinel "pq: connection lost") }
      ⟨[demoRow "1" demoUser1 demoAccountA "active" (some ⟨1568000000000000000⟩)], []⟩ "2" {}
      ⟨1568050163000000000⟩ {}
      { UserID := demoUser1, AccountID := demoAccountA, Roles := some [auth.RoleAdmin],
        unArchive := true } {} {}).2.1.2
    (.withMessage ((GoError.sentinel "pq: connection lost").Wrap "query - %s")
      "update account %s for user %s failed") (by decide)

end user_account

namespace invite

/-- C27 at a concrete call, an invite of user 1 to account A made at second
1568050163 with a ttl of one hour: with a cipher that returns its plaintext
the result is the text of the five fields, the two timestamps written in
decimal, and that text splits into the five fields. -/
theorem newInviteHash_plaintext_witness :
    NewInviteHash ⟨fun _ => none, fun _ _ plain => .ok plain, fun _ c => .ok c⟩ [] "secret"
        demoUser1 demoAccountA "69.56.104.36" Hour ⟨1568050163000000000⟩
      = .ok ("d69bdef7-173f-4d29-b52c-3edc60baf6a2|c4653bf9-5978-48b7-89c5-95704aebb7e2"
          ++ "|1568050163|1568053763|69.56.104.36")
    ∧ strings.Split
        (demoUser1 ++ "|" ++ demoAccountA ++ "|"
          ++ strconv.Itoa (⟨1568050163000000000⟩ : Time).UTC.Unix ++ "|"
          ++ strconv.Itoa ((⟨1568050163000000000⟩ : Time).Add Hour).UTC.Unix ++ "|"
          ++ "69.56.104.36") '|'
      = ["d69bdef7-173f-4d29-b52c-3edc60baf6a2", "c4653bf9-5978-48b7-89c5-95704aebb7e2",
          "1568050163", "1568053763", "69.56.104.36"] := by
  have h := newInviteHash_plaintext demoCipher [] "secret" demoUser1 demoAccountA
    "69.56.104.36" Hour ⟨1568050163000000000⟩
  exact ⟨(h.2.1 "secret").trans (by decide),
    (h.2.2.2.2 (by decide) (by decide) (by decide)).trans (by decide)⟩

end invite

end GoStarter
